import Mathlib

/-!
# CloudRunner / DataCorrelation: work partitioning and result protocol

A shallow embedding of the coordinator (`Master.cpp`), the worker
(`Slave.cpp`), the statistics they exchange (`AnalyzeData.cpp`,
`UTChemParser.cpp`) and the configuration (`Configuration.cpp`, `DCUtil.cpp`),
followed by the properties proved about them.

Conventions of the embedding.

* A C++ `double` (and the intermediate `float` of `delegateWork`) is an element
  of a field `R` with exact arithmetic; `sqrt` of `<cmath>` is a parameter.
* `std::string` is `String`, one `Char` per `char`; the character with code 0
  is the C string terminator.
* `size_t` values are natural numbers; a conversion to `unsigned` keeps the
  value modulo `2 ^ 32`.
* An exception that escapes, a failed `assert` and a rejected MPI call are
  values of `Failure`. An `assert` is embedded as compiled in; `computeNorm` is
  also embedded as built with `NDEBUG`, where its `assert` expands to nothing.
-/

namespace CloudRunner

/-! ## Configuration values -/

/-- Enumerator values of `Configuration::Symmetry`; the type is the underlying
integer so that the `default:` label of the switch in `delegateWork` is reachable. -/
abbrev Symmetry := Nat

/-- The enumerator `Configuration::SYMMETRIC`. -/
def Configuration.SYMMETRIC : Symmetry := 0

/-- The enumerator `Configuration::POSITIVE`. -/
def Configuration.POSITIVE : Symmetry := 1

/-- The enumerator `Configuration::NEGATIVE`. -/
def Configuration.NEGATIVE : Symmetry := 2

/-! ## Master::delegateWork -/

/-- What `delegateWork` leaves behind: the array `work` (a slot that was never
written holds `none`) and the messages handed to `MPI_Send`, oldest first, each
as (destination rank, value read from `work[i - 1]`). -/
structure WorkPlan (R : Type) where
  work : List (Option R)
  sent : List (Nat × Option R)

/-- Reading `work[k]`: an unwritten or out-of-range slot has no defined value. -/
def readWork {R : Type} (work : List (Option R)) (k : Nat) : Option R :=
  (work.get? k).join

/-- One iteration of the `for` loop of `delegateWork`, for loop index `i`. -/
def delegateStep {R : Type} [Field R] (sym : Symmetry) (st : WorkPlan R) (i : Nat) :
    WorkPlan R :=
  let work :=
    if i ≠ 1 then
      if sym = Configuration.POSITIVE then
        st.work.set (i - 1) (some ((1 : R) / (((i : Int) - 1 : Int) : R)))
      else if sym = Configuration.NEGATIVE then
        st.work.set (i - 1) (some ((-1 : R) / (((i : Int) - 1 : Int) : R)))
      else
        st.work.set (i - 1)
          (if i % 2 = 0 then some ((1 : R) / (((i : Int) - 1 : Int) : R))
           else (readWork st.work (i - 2)).map (fun w => (-1 : R) * w))
    else st.work
  { work := work, sent := st.sent ++ [(i, readWork work (i - 1))] }

/-- The function `Master::delegateWork` for a communicator of `size` processes
(`MPI_Comm_size` reports at least 1): `work = new double[size]`, `work[0] = 0`,
then the loop over `i = 1 .. size - 1`. -/
def delegateWork {R : Type} [Field R] (size : Nat) (sym : Symmetry) : WorkPlan R :=
  (List.range' 1 (size - 1)).foldl (delegateStep sym)
    { work := (List.replicate size none).set 0 (some 0), sent := [] }

/-- The value `delegateWork` sent to `rank`, if it sent one. -/
def WorkPlan.assignment {R : Type} (plan : WorkPlan R) (rank : Nat) : Option R :=
  (plan.sent.lookup rank).join

/-! ## Failures -/

/-- Ways in which a call of the worker stops without returning a value. -/
inductive Failure where
  /-- The exception `std::out_of_range` thrown by `std::map::at`. -/
  | outOfRange
  /-- A failed `assert`. -/
  | assertion
  /-- An MPI call rejected because its element count, an `int`, is negative. -/
  | mpiCount
  /-- The exception `DCException` thrown by the constructor of `AnalyzeData` when
  `readFile` fails. -/
  | parse
  deriving DecidableEq

/-! ## UTChemParser: the parsed series -/

/-- The member `values` of `UTChemParser`: for each key its layers. A
`std::map` has one entry per key; lookup takes the first entry of the key. -/
structure UTChemParser (R : Type) where
  values : List (String × List (List R))

/-- The function `UTChemParser::getAllValues`: `values.at(key)` throws when the key is
absent; otherwise every value of every layer is pushed onto `ret` in turn. -/
def UTChemParser.getAllValues {R : Type} (p : UTChemParser R) (key : String) :
    Except Failure (List R) :=
  match p.values.lookup key with
  | none => .error .outOfRange
  | some container =>
    .ok (container.foldl (fun ret vec => vec.foldl (fun ret v => ret ++ [v]) ret) [])

/-! ## AnalyzeData: the statistics -/

namespace AnalyzeData

/-- The private overload `AnalyzeData::sum(const vector<double>&, size_t n)`. -/
def sumVec {R : Type} [Field R] (vec : List R) (n : Nat) : R :=
  let max := vec.length
  let n := if n = 0 ∨ n > max then max else n
  (vec.take n).foldl (fun ret x => ret + x) 0

/-- The function `AnalyzeData::sum(const string& key, size_t n)`. -/
def sum {R : Type} [Field R] (data : UTChemParser R) (key : String) (n : Nat) :
    Except Failure R := do
  let vals ← data.getAllValues key
  pure (sumVec vals n)

/-- The function `AnalyzeData::mean`. -/
def mean {R : Type} [Field R] (data : UTChemParser R) (key : String) (n : Nat) :
    Except Failure R := do
  let vals ← data.getAllValues key
  let max := vals.length
  let n := if n < 1 ∨ n > max then max else n
  let ret ← sum data key n
  pure (ret / (n : R))

/-- The function `AnalyzeData::variance`. -/
def variance {R : Type} [Field R] (data : UTChemParser R) (key : String) (n : Nat) :
    Except Failure R := do
  let mval ← mean data key n
  let vals ← data.getAllValues key
  let max := vals.length
  let n := if n = 0 ∨ n > max then max else n
  let ret := (vals.take n).foldl (fun ret x => ret + x * x) 0
  let ret := ret / (n : R)
  pure (ret - mval * mval)

/-- The function `AnalyzeData::stddev`. -/
def stddev {R : Type} [Field R] (sqrt : R → R) (data : UTChemParser R) (key : String)
    (n : Nat) : Except Failure R := do
  let var ← variance data key n
  pure (sqrt var)

/-- The function `AnalyzeData::pearsons`. The loop squares `xsq[i]`, `ysq[i]` and forms
`xy[i] = xv[i] * tmp[i]` for `i < n` only; `xsq` and `ysq` keep their elements from
index `n` on, and `sum(xsq)`, `sum(ysq)` run over the whole vectors. -/
def pearsons {R : Type} [Field R] (sqrt : R → R) (data : UTChemParser R)
    (key1 key2 : String) : Except Failure R := do
  let xv ← data.getAllValues key1
  let xsq ← data.getAllValues key1
  let ysq ← data.getAllValues key2
  let tmp ← data.getAllValues key2
  let n := if xv.length < tmp.length then xv.length else tmp.length
  if n = 0 then throw Failure.assertion
  let xy := List.zipWith (fun x t => x * t) (xv.take n) (tmp.take n)
  let ysq := (ysq.take n).map (fun y => y * y) ++ ysq.drop n
  let xsq := (xsq.take n).map (fun x => x * x) ++ xsq.drop n
  let sX ← sum data key1 n
  let sY ← sum data key2 n
  let sXY := sumVec xy 0
  let sXsq := sumVec xsq 0
  let sYsq := sumVec ysq 0
  let numer := (n : R) * sXY - sX * sY
  let denom := sqrt (((n : R) * sXsq - sX * sX) * ((n : R) * sYsq - sY * sY))
  pure (numer / denom)

end AnalyzeData

/-! ## Parameters and the wire -/

/-- The struct `Parameter` of `Configuration.h`; `stats` is an `unsigned` bit vector. -/
structure Parameter where
  name : String
  pearson : String
  stats : Nat

/-- The enumerator `Parameter::SUM`. -/
def Parameter.SUM : Nat := 0x01

/-- The enumerator `Parameter::MEAN`. -/
def Parameter.MEAN : Nat := 0x02

/-- The enumerator `Parameter::VARIANCE`. -/
def Parameter.VARIANCE : Nat := 0x04

/-- The enumerator `Parameter::STDDEV`. -/
def Parameter.STDDEV : Nat := 0x08

/-- The enumerator `Parameter::PEARSON`. -/
def Parameter.PEARSON : Nat := 0x10

/-- The enumerator `Parameter::NORM`. -/
def Parameter.NORM : Nat := 0x20

/-- The enumerator `Parameter::ALL_SIMILAR`. -/
def Parameter.ALL_SIMILAR : Nat := 0x40

/-- The test `stats & bit` used as a condition. -/
def hasStat (stats bit : Nat) : Bool := stats &&& bit != 0

/-- The macro `FATAL_ERROR` of `Status.h`. -/
def FATAL_ERROR : Nat := 0x25

/-- The C string terminator. -/
def NUL : Char := Char.ofNat 0

/-- The MPI datatypes the protocol uses. -/
inductive Datatype where
  | MPI_UNSIGNED
  | MPI_BYTE
  | MPI_DOUBLE
  deriving DecidableEq

/-- The buffer contents of one message. -/
inductive Payload (R : Type) where
  | unsigneds (xs : List Nat)
  | bytes (cs : List Char)
  | doubles (ds : List R)
  deriving DecidableEq

/-- One message between a worker and the coordinator. -/
structure Msg (R : Type) where
  tag : Nat
  payload : Payload R
  deriving DecidableEq

/-- The datatype and element count of a message. -/
def Payload.signature {R : Type} : Payload R → Datatype × Nat
  | .unsigneds xs => (Datatype.MPI_UNSIGNED, xs.length)
  | .bytes cs => (Datatype.MPI_BYTE, cs.length)
  | .doubles ds => (Datatype.MPI_DOUBLE, ds.length)

/-- A `size_t` read through an `unsigned` (the low 32 bits on a little-endian
machine), and the conversion `static_cast<unsigned>`. -/
def toUnsigned (n : Nat) : Nat := n % 2 ^ 32

/-- An element count passed to MPI as `int`: the low 32 bits, rejected when the
sign bit is set. -/
def mpiCount (n : Nat) : Except Failure Nat :=
  if toUnsigned n < 2 ^ 31 then .ok (toUnsigned n) else .error Failure.mpiCount

/-- The call `strncpy(dest, src.c_str(), n)`: copies up to the first terminator or `n`
characters, and fills the rest of the `n` characters with terminators. -/
def strncpy (src : List Char) (n : Nat) : List Char :=
  let copied := (src.takeWhile (fun c => c != NUL)).take n
  copied ++ List.replicate (n - copied.length) NUL

/-- Reading a `char*` buffer as a C string: the characters before the first
terminator; there is no defined result when the buffer holds no terminator. -/
def cString (buf : List Char) : Option String :=
  if NUL ∈ buf then some (String.mk (buf.takeWhile (fun c => c != NUL))) else none

/-! ## Slave::calculateAndTxResults -/

/-- What the worker has done when its transmit phase ends: the messages handed to
`MPI_Send`, oldest first, and the failure that stopped it, if any. -/
structure TxResult (R : Type) where
  sent : List (Msg R)
  failure : Option Failure

/-- The worker stops with failure `e`; nothing further is sent. -/
def TxResult.fail {R : Type} (e : Failure) : TxResult R := { sent := [], failure := some e }

/-- The call `MPI_Send(buf, count, type, MASTER, 1, MPI_COMM_WORLD)` followed by the
rest of the run. -/
def mpiSend {R : Type} (buf : Payload R) (rest : TxResult R) : TxResult R :=
  { sent := { tag := 1, payload := buf } :: rest.sent, failure := rest.failure }

/-- One of the five blocks `if(stats & BIT) { calcResult = ...; MPI_Send(&calcResult, 1,
MPI_DOUBLE, ...); }`. -/
def sendStat {R : Type} (enabled : Bool) (calcResult : Except Failure R)
    (rest : TxResult R) : TxResult R :=
  if enabled then
    match calcResult with
    | .ok calcResult => mpiSend (.doubles [calcResult]) rest
    | .error e => TxResult.fail e
  else rest

/-- The block `if(stats & Parameter::NORM) { ... }`: the element count as `unsigned`,
then that many values in one message. -/
def sendGrid {R : Type} (enabled : Bool) (vals : Except Failure (List R))
    (rest : TxResult R) : TxResult R :=
  if enabled then
    match vals with
    | .error e => TxResult.fail e
    | .ok gridVals =>
      let numVals := toUnsigned gridVals.length
      mpiSend (.unsigneds [numVals])
        (match mpiCount numVals with
         | .error e => TxResult.fail e
         | .ok count => mpiSend (.doubles (gridVals.take count)) rest)
  else rest

/-- The body of the loop over `params` in `calculateAndTxResults` (protocol steps 2
to 5 and the grid block) followed by the rest of the run. -/
def txParameter {R : Type} [Field R] (sqrt : R → R) (p : UTChemParser R) (it : Parameter)
    (rest : TxResult R) : TxResult R :=
  let nSize := it.name.length
  let stats := it.stats
  let name := strncpy it.name.data nSize ++ [NUL]
  let nSize := nSize + 1
  mpiSend (.unsigneds [toUnsigned nSize])
    (match mpiCount nSize with
     | .error e => TxResult.fail e
     | .ok count =>
       mpiSend (.bytes (name.take count))
        (mpiSend (.unsigneds [stats])
          (sendStat (hasStat stats Parameter.SUM) (AnalyzeData.sum p it.name 0)
            (sendStat (hasStat stats Parameter.MEAN) (AnalyzeData.mean p it.name 0)
              (sendStat (hasStat stats Parameter.VARIANCE) (AnalyzeData.variance p it.name 0)
                (sendStat (hasStat stats Parameter.STDDEV)
                  (AnalyzeData.stddev sqrt p it.name 0)
                  (sendStat (hasStat stats Parameter.PEARSON)
                    (AnalyzeData.pearsons sqrt p it.name it.pearson)
                    (sendGrid (hasStat stats Parameter.NORM)
                      (match cString name with
                       | some key => p.getAllValues key
                       | none => .error Failure.outOfRange)
                      rest))))))))

/-- The loop `for(it = params.begin() ; it != params.end() ; ++it)`. -/
def txParameters {R : Type} [Field R] (sqrt : R → R) (p : UTChemParser R) :
    List Parameter → TxResult R
  | [] => { sent := [], failure := none }
  | it :: rest => txParameter sqrt p it (txParameters sqrt p rest)

/-- The protocol part of `Slave::calculateAndTxResults`, from "Protocol step 1" on:
`p` is the parser after a successful `readFile`, `params` is `config.getParams()`
after `updateParams`. -/
def calculateAndTxResults {R : Type} [Field R] (sqrt : R → R) (p : UTChemParser R)
    (params : List Parameter) : TxResult R :=
  mpiSend (.unsigneds [toUnsigned params.length]) (txParameters sqrt p params)

/-! ## Master::collectResults: receiving one rank -/

/-- The coordinator's view of the channel from one rank: the messages not yet
received, oldest first, and the (datatype, count) of every receive issued so far. -/
structure RxState (R : Type) where
  queue : List (Msg R)
  log : List (Datatype × Nat)

/-- The first pending message carrying `tag`, and the queue without it. -/
def takeTagged {R : Type} (tag : Nat) : List (Msg R) → Option (Msg R × List (Msg R))
  | [] => none
  | m :: q =>
    if m.tag = tag then some (m, q)
    else (takeTagged tag q).map (fun r => (r.1, m :: r.2))

/-- The call `MPI_Recv(buf, count, type, i, 1, MPI_COMM_WORLD, &status)`. It completes
with the first pending message of tag 1 when that message has the requested datatype
and element count; with no such message the coordinator waits for ever, and a message
of another shape is a protocol error: both are `none`. -/
def mpiRecv {R : Type} (type : Datatype) (count : Nat) (st : RxState R) :
    Option (Msg R × RxState R) :=
  match takeTagged 1 st.queue with
  | none => none
  | some (m, q) =>
    if m.payload.signature = (type, count) then
      some (m, { queue := q, log := st.log ++ [(type, count)] })
    else none

/-- Receive one `unsigned`. -/
def recvUnsigned {R : Type} (st : RxState R) : Option (Nat × Msg R × RxState R) :=
  match mpiRecv Datatype.MPI_UNSIGNED 1 st with
  | some (m, st1) =>
    match m.payload with
    | .unsigneds [v] => some (v, m, st1)
    | _ => none
  | none => none

/-- Receive `count` bytes. -/
def recvBytes {R : Type} (count : Nat) (st : RxState R) : Option (List Char × RxState R) :=
  match mpiRecv Datatype.MPI_BYTE count st with
  | some (m, st1) =>
    match m.payload with
    | .bytes cs => some (cs, st1)
    | _ => none
  | none => none

/-- Receive `count` doubles. -/
def recvDoubles {R : Type} (count : Nat) (st : RxState R) : Option (List R × RxState R) :=
  match mpiRecv Datatype.MPI_DOUBLE count st with
  | some (m, st1) =>
    match m.payload with
    | .doubles ds => some (ds, st1)
    | _ => none
  | none => none

/-- One of the five blocks `if(stats & BIT) { MPI_Recv(&val, 1, MPI_DOUBLE, ...); out <<
val } else { out << "NA" }`: the column is the received value or `none` for `NA`. -/
def recvStat {R : Type} (enabled : Bool) (st : RxState R) : Option (Option R × RxState R) :=
  if enabled then
    match recvDoubles 1 st with
    | some ([val], st1) => some (some val, st1)
    | _ => none
  else some (none, st)

/-- The block `if(stats & Parameter::NORM) { ... }` of the coordinator: `numElems`,
then `numElems` values copied to `cellValues`. -/
def recvGrid {R : Type} (enabled : Bool) (st : RxState R) :
    Option (Option (List R) × RxState R) :=
  if enabled then
    match recvUnsigned st with
    | some (numElems, _, st1) =>
      match recvDoubles numElems st1 with
      | some (dVals, st2) => some (some dVals, st2)
      | none => none
    | none => none
  else some (none, st)

/-- The locals of one iteration of the parameter loop of `collectResults` once its
receives are done: the name as a C string, the stats vector, the five columns of the
report row (`none` is printed as `NA`) and `cellValues` when the grid block ran. -/
structure Received (R : Type) where
  name : String
  stats : Nat
  sum : Option R
  mean : Option R
  variance : Option R
  stddev : Option R
  pearson : Option R
  cellValues : Option (List R)
  deriving DecidableEq

/-- The receives of one iteration of the parameter loop (protocol steps 2 to 5 and
the grid block). -/
def recvParameter {R : Type} (st : RxState R) : Option (Received R × RxState R) := do
  let (nSize, _, st) ← recvUnsigned st
  let (buf, st) ← recvBytes nSize st
  let (stats, _, st) ← recvUnsigned st
  let name ← cString buf
  let (sum, st) ← recvStat (hasStat stats Parameter.SUM) st
  let (mean, st) ← recvStat (hasStat stats Parameter.MEAN) st
  let (variance, st) ← recvStat (hasStat stats Parameter.VARIANCE) st
  let (stddev, st) ← recvStat (hasStat stats Parameter.STDDEV) st
  let (pearson, st) ← recvStat (hasStat stats Parameter.PEARSON) st
  let (cellValues, st) ← recvGrid (hasStat stats Parameter.NORM) st
  pure ({ name := name, stats := stats, sum := sum, mean := mean, variance := variance,
          stddev := stddev, pearson := pearson, cellValues := cellValues }, st)

/-- An element of `fullGrids`, `pair<int, pair<int, vector<double> > >`: the stats
vector, the id `i - 1` of the sending rank and the cell values. -/
structure GridEntry (R : Type) where
  stats : Nat
  id : Nat
  values : List R
  deriving DecidableEq

/-- What the coordinator has accumulated: the report rows written to `out`, and the
vectors `fullGrids` and `gridNames`. -/
structure Collected (R : Type) where
  rows : List (Received R)
  fullGrids : List (GridEntry R)
  gridNames : List String
  deriving DecidableEq

/-- The bookkeeping of one iteration for rank `i`: the row is written, and when the
grid block ran the grid and its name are pushed onto `fullGrids` and `gridNames`. -/
def storeParameter {R : Type} (i : Nat) (r : Received R) (c : Collected R) : Collected R :=
  match r.cellValues with
  | some cellValues =>
    { rows := c.rows ++ [r],
      fullGrids := c.fullGrids ++ [{ stats := r.stats, id := i - 1, values := cellValues }],
      gridNames := c.gridNames ++ [r.name] }
  | none => { c with rows := c.rows ++ [r] }

/-- The loop `for(unsigned j = 0 ; j < count ; ++j)` for rank `i`. -/
def collectParameters {R : Type} (i : Nat) :
    Nat → RxState R → Collected R → Option (RxState R × Collected R)
  | 0, st, c => some (st, c)
  | count + 1, st, c =>
    match recvParameter st with
    | some (r, st1) => collectParameters i count st1 (storeParameter i r c)
    | none => none

/-- The body of the loop over ranks in `collectResults` for rank `i`, on the channel
from that rank: protocol step 1, the `FATAL_ERROR` test, then the parameter loop. -/
def collectRank {R : Type} (i : Nat) (queue : List (Msg R)) (c : Collected R) :
    Option (RxState R × Collected R) :=
  match recvUnsigned { queue := queue, log := [] } with
  | some (count, status, st) =>
    if status.tag = FATAL_ERROR then some (st, c)
    else collectParameters i count st c
  | none => none

/-! ## Specification-level definitions -/

/-- Closed form of the value `delegateWork` stores for `rank` (slot `rank - 1`). -/
def ladder {R : Type} [Field R] (sym : Symmetry) (rank : Nat) : R :=
  if rank = 1 then 0
  else if sym = Configuration.POSITIVE then (1 : R) / (((rank : Int) - 1 : Int) : R)
  else if sym = Configuration.NEGATIVE then (-1 : R) / (((rank : Int) - 1 : Int) : R)
  else if rank % 2 = 0 then (1 : R) / (((rank : Int) - 1 : Int) : R)
  else (-1 : R) * ((1 : R) / ((((rank - 1 : Nat) : Int) - 1 : Int) : R))

/-- The field of one optional scalar: one message of one double when present. -/
def statField {R : Type} : Option R → List (Payload R)
  | some v => [.doubles [v]]
  | none => []

/-- The grid block: `gridCount` followed by `gridCount` doubles, when present. -/
def gridFields {R : Type} : Option (List R) → List (Payload R)
  | some g => [.unsigneds [g.length], .doubles g]
  | none => []

/-- The fields of one parameter result in wire order: `nameLength` (counting the
terminator), the name with its terminator, `statsMask`, the scalars present in the
order SUM, MEAN, VARIANCE, STDDEV, PEARSON, then the grid block when present. -/
def resultFields {R : Type} (r : Received R) : List (Payload R) :=
  [.unsigneds [r.name.length + 1], .bytes (r.name.data ++ [NUL]), .unsigneds [r.stats]]
    ++ statField r.sum ++ statField r.mean ++ statField r.variance ++ statField r.stddev
    ++ statField r.pearson ++ gridFields r.cellValues

/-- A field is populated exactly when its bit is set, and then holds the value the
worker computed. -/
def FieldAgrees {α : Type} (enabled : Bool) (computed : Except Failure α)
    (field : Option α) : Prop :=
  (enabled = true → ∃ v, computed = .ok v ∧ field = some v) ∧
  (enabled = false → field = none)

/-- The parameter result `r` is the one the worker computes for parameter `it`. -/
def Agrees {R : Type} [Field R] (sqrt : R → R) (p : UTChemParser R) (it : Parameter)
    (r : Received R) : Prop :=
  r.name = it.name ∧ r.stats = it.stats ∧
  FieldAgrees (hasStat it.stats Parameter.SUM) (AnalyzeData.sum p it.name 0) r.sum ∧
  FieldAgrees (hasStat it.stats Parameter.MEAN) (AnalyzeData.mean p it.name 0) r.mean ∧
  FieldAgrees (hasStat it.stats Parameter.VARIANCE) (AnalyzeData.variance p it.name 0)
    r.variance ∧
  FieldAgrees (hasStat it.stats Parameter.STDDEV) (AnalyzeData.stddev sqrt p it.name 0)
    r.stddev ∧
  FieldAgrees (hasStat it.stats Parameter.PEARSON)
    (AnalyzeData.pearsons sqrt p it.name it.pearson) r.pearson ∧
  FieldAgrees (hasStat it.stats Parameter.NORM) (p.getAllValues it.name) r.cellValues

/-- The sizes of a parameter fit the 32-bit fields of the wire, and its name is a C
string (it holds no terminator). -/
def Parameter.Sendable {R : Type} (p : UTChemParser R) (it : Parameter) : Prop :=
  NUL ∉ it.name.data ∧ it.name.length + 1 < 2 ^ 32 ∧
  (hasStat it.stats Parameter.NORM = true →
    ∀ vals, p.getAllValues it.name = .ok vals → vals.length < 2 ^ 32)

/-- The messages of tag 1 carrying the given payloads. -/
def tagged {R : Type} (fields : List (Payload R)) : List (Msg R) :=
  fields.map (fun f => { tag := 1, payload := f })

/-- A result whose optional fields are populated exactly on the bits of its stats
vector and whose name is a C string. -/
def Received.WellFormed {R : Type} (r : Received R) : Prop :=
  NUL ∉ r.name.data ∧
  r.sum.isSome = hasStat r.stats Parameter.SUM ∧
  r.mean.isSome = hasStat r.stats Parameter.MEAN ∧
  r.variance.isSome = hasStat r.stats Parameter.VARIANCE ∧
  r.stddev.isSome = hasStat r.stats Parameter.STDDEV ∧
  r.pearson.isSome = hasStat r.stats Parameter.PEARSON ∧
  r.cellValues.isSome = hasStat r.stats Parameter.NORM

/-! ## Sample data -/

/-- A parser holding the single series PERM = 2, 4, 6. -/
def sampleParser : UTChemParser ℚ := { values := [("PERM", [[2, 4, 6]])] }

/-- The parameter PERM with SUM, MEAN and NORM enabled. -/
def sampleParameter : Parameter := { name := "PERM", pearson := "", stats := 0x23 }

/-! ## AnalyzeData::computeNorm and the similarity pass of Master::collectResults -/

/-- The static function `AnalyzeData::computeNorm`. The `assert` on the sizes comes
first; once it holds the loop over `i < x.size()` visits the pairs `x[i]`, `y[i]` of
the two vectors of equal size in order. -/
def AnalyzeData.computeNorm {R : Type} [Field R] (sqrt : R → R) (x y : List R) :
    Except Failure R :=
  if x.length ≠ y.length then .error Failure.assertion
  else
    let ret := (List.zip x y).foldl (fun ret xy =>
      let tmp := xy.1 - xy.2
      let tmp := tmp * tmp
      ret + tmp) 0
    .ok (sqrt ret)

/-- The update `it->first &= ~Parameter::NORM` on a 32-bit stats vector. -/
def clearNorm (stats : Nat) : Nat := stats &&& (2 ^ 32 - 1 - Parameter.NORM)

/-- One data row of the similarity report: `Parameter,Id1,Id2,Norm`. -/
structure SimilarityRecord (R : Type) where
  name : String
  id1 : Nat
  id2 : Nat
  norm : R
  deriving DecidableEq

/-- The state of the similarity loops: `fullGrids`, whose NORM bits the outer loop
clears; the rows written to `simil` so far, each with the values of the counters
`i` and `j` when it was written; and the failure that stopped the pass, if any. -/
structure SimilarityState (R : Type) where
  fullGrids : List (GridEntry R)
  rows : List (Nat × Nat × SimilarityRecord R)
  failure : Option Failure

/-- One iteration of the inner loop, for the counter `j` (`itt` is `fullGrids[j]`),
inside the iteration `i` of the outer loop whose entry, NORM bit cleared, is `it`.
The vectors `gridNames` and `fullGrids` grow together, so `gridNames[i]` and
`gridNames[j]` exist. -/
def similarityInnerStep {R : Type} [Field R] (sqrt : R → R) (gridNames : List String)
    (i : Nat) (it : GridEntry R) (st : SimilarityState R) (j : Nat) : SimilarityState R :=
  if st.failure.isSome then st
  else
    match st.fullGrids.get? j with
    | none => st
    | some itt =>
      if j = i ∨ hasStat itt.stats Parameter.NORM = false
          ∨ gridNames.getD i "" ≠ gridNames.getD j "" then st
      else
        match AnalyzeData.computeNorm sqrt it.values itt.values with
        | .ok norm =>
          { st with rows := st.rows ++ [(i, j, { name := gridNames.getD i "", id1 := it.id,
                                                  id2 := itt.id, norm := norm })] }
        | .error e => { st with failure := some e }

/-- One iteration of the outer loop, for the counter `i`. -/
def similarityStep {R : Type} [Field R] (sqrt : R → R) (gridNames : List String)
    (st : SimilarityState R) (i : Nat) : SimilarityState R :=
  if st.failure.isSome then st
  else
    match st.fullGrids.get? i with
    | none => st
    | some it =>
      if hasStat it.stats Parameter.NORM then
        let it := { it with stats := clearNorm it.stats }
        let grids := st.fullGrids.set i it
        (List.range grids.length).foldl (similarityInnerStep sqrt gridNames i it)
          { st with fullGrids := grids }
      else st

/-- The similarity loops of `Master::collectResults` ("Compute norm statistics") on
the collected `fullGrids` and `gridNames`. -/
def similarityPass {R : Type} [Field R] (sqrt : R → R) (fullGrids : List (GridEntry R))
    (gridNames : List String) : SimilarityState R :=
  (List.range fullGrids.length).foldl (similarityStep sqrt gridNames)
    { fullGrids := fullGrids, rows := [], failure := none }

/-! ## Specification-level definitions for the similarity pass -/

/-- The entry `fullGrids[i]` exists and has its NORM bit set. -/
def liveAt {R : Type} (G : List (GridEntry R)) (i : Nat) : Bool :=
  match G.get? i with
  | some e => hasStat e.stats Parameter.NORM
  | none => false

/-- The condition under which the pass reaches its output statement with the
counters `(i, j)`: `i` comes before `j`, both entries carry NORM when the pass
starts, and their names are equal. -/
def pairsWith {R : Type} (G : List (GridEntry R)) (N : List String) (i j : Nat) : Bool :=
  decide (i < j) && (liveAt G i && (liveAt G j && decide (N.getD i "" = N.getD j "")))

/-- The counter pairs at which the pass reaches its output statement, in the order
of the two loops. -/
def similarityPairs {R : Type} (G : List (GridEntry R)) (N : List String) :
    List (Nat × Nat) :=
  (List.range G.length).flatMap (fun i =>
    (List.range G.length).filterMap (fun j => if pairsWith G N i j then some (i, j) else none))

/-- What the output statement does at the counter pair `p`: it writes a row, or
`computeNorm` fails. -/
def attemptAt {R : Type} [Field R] (sqrt : R → R) (G : List (GridEntry R)) (N : List String)
    (p : Nat × Nat) : Except Failure (Nat × Nat × SimilarityRecord R) :=
  match G.get? p.1, G.get? p.2 with
  | some e1, some e2 =>
    match AnalyzeData.computeNorm sqrt e1.values e2.values with
    | .ok norm => .ok (p.1, p.2, { name := N.getD p.1 "", id1 := e1.id, id2 := e2.id,
                                   norm := norm })
    | .error e => .error e
  | _, _ => .error Failure.assertion

/-- What one iteration of the inner loop attempts, if anything. -/
def innerAttempt {R : Type} [Field R] (sqrt : R → R) (N : List String)
    (grids : List (GridEntry R)) (i : Nat) (it : GridEntry R) (j : Nat) :
    Option (Except Failure (Nat × Nat × SimilarityRecord R)) :=
  match grids.get? j with
  | none => none
  | some itt =>
    if j = i ∨ hasStat itt.stats Parameter.NORM = false ∨ N.getD i "" ≠ N.getD j "" then none
    else
      some (match AnalyzeData.computeNorm sqrt it.values itt.values with
        | .ok norm => .ok (i, j, { name := N.getD i "", id1 := it.id, id2 := itt.id,
                                   norm := norm })
        | .error e => .error e)

/-- The rows written and the failure, without the grids. -/
def SimilarityState.out {R : Type} (st : SimilarityState R) :
    List (Nat × Nat × SimilarityRecord R) × Option Failure :=
  (st.rows, st.failure)

/-- Performing one attempt: nothing after a failure, otherwise the row is written
or the failure recorded. -/
def absorbStep {α : Type} (o : List α × Option Failure) (a : Except Failure α) :
    List α × Option Failure :=
  if o.2.isSome then o
  else
    match a with
    | .ok row => (o.1 ++ [row], o.2)
    | .error e => (o.1, some e)

/-- An entry as the outer loop leaves it: NORM cleared if it was set. -/
def clearedEntry {R : Type} (e : GridEntry R) : GridEntry R :=
  if hasStat e.stats Parameter.NORM then { e with stats := clearNorm e.stats } else e

/-- What the similarity pass relies on: the vectors `gridNames` and `fullGrids` have
one element per stored grid, and every stored grid carries NORM. -/
def Collected.Consistent {R : Type} (c : Collected R) : Prop :=
  c.gridNames.length = c.fullGrids.length ∧
  ∀ e ∈ c.fullGrids, hasStat e.stats Parameter.NORM = true

/-- Three stored grids named POROSITY, received from the ranks 2, 3 and 4. -/
def porosityGrids : List (GridEntry ℚ) :=
  [{ stats := 0x20, id := 1, values := [1, 2] }, { stats := 0x20, id := 2, values := [3, 4] },
   { stats := 0x20, id := 3, values := [5, 6] }]

/-- The names of the three stored grids. -/
def porosityNames : List String := ["POROSITY", "POROSITY", "POROSITY"]

/-! ## AnalyzeData::filter -/

namespace AnalyzeData

/-- The function `AnalyzeData::filter`. `getCoordinate` is the virtual method
`ParserBase::getCoordinate` of the parser, called with the loop counter `i`; the pair
is pushed when `vals[i] >= lower && vals[i] <= upper`. The counter is an `unsigned`:
series of fewer than `2 ^ 32` elements are modelled. -/
def filter {R C : Type} [LinearOrder R] (getCoordinate : Nat → C) (data : UTChemParser R)
    (key : String) (lower upper : R) : Except Failure (List (R × C)) := do
  let vals ← data.getAllValues key
  pure (vals.enum.foldl
    (fun ret iv =>
      if iv.2 ≥ lower ∧ iv.2 ≤ upper then ret ++ [(iv.2, getCoordinate iv.1)] else ret)
    [])

end AnalyzeData

/-! ## Master::collectResults: the report and the loop over ranks -/

/-- One column of a report row: `out << val` for a received value, `NA` otherwise.
`fmt` is the text `operator<<` writes for a double. -/
def reportColumn {R : Type} (fmt : R → String) : Option R → String
  | some val => fmt val
  | none => "NA"

/-- The line written to `out` by one iteration of the parameter loop: `name` and a
comma, four columns each followed by a comma, and the PEARSON column. -/
def reportRow {R : Type} (fmt : R → String) (r : Received R) : String :=
  r.name ++ "," ++ reportColumn fmt r.sum ++ "," ++ reportColumn fmt r.mean ++ ","
    ++ reportColumn fmt r.variance ++ "," ++ reportColumn fmt r.stddev ++ ","
    ++ reportColumn fmt r.pearson

/-- The body of the loop over ranks after protocol step 1, for rank `i`: `count` and
`status` are what that receive stored. With `status.MPI_TAG == FATAL_ERROR` the
iteration ends by `continue`; otherwise the parameter loop runs and the block is closed
by `out << endl << endl`. The flag tells whether the block was closed. -/
def collectAfterCount {R : Type} (i count : Nat) (status : Msg R) (st : RxState R)
    (c : Collected R) : Option (RxState R × Collected R × Bool) :=
  if status.tag = FATAL_ERROR then some (st, c, false)
  else
    match collectParameters i count st c with
    | some (st, c) => some (st, c, true)
    | none => none

/-- What `collectResults` writes to `out` for one rank: the header line with
`work[i - 1] * 100` and the id `i - 1`, the parameter rows, and whether the block was
closed by the two `endl`. -/
structure RankEntry (R : Type) where
  id : Nat
  percent : Option R
  rows : List (Received R)
  closed : Bool
  deriving DecidableEq

/-- The state of `collectResults` between two iterations of the loop over ranks: what
was written to `out`, the vectors `fullGrids` and `gridNames`, and every receive
issued so far as (source rank, datatype, count), oldest first. -/
structure MasterState (R : Type) where
  report : List (RankEntry R)
  fullGrids : List (GridEntry R)
  gridNames : List String
  recvLog : List (Nat × Datatype × Nat)

/-- One iteration of the loop `for(int i = 1 ; i < size ; ++i)` of `collectResults`.
`work` is the array filled by `delegateWork` and `chan i` holds the messages rank `i`
sends to the coordinator. -/
def collectStep {R : Type} [Field R] (work : List (Option R)) (chan : Nat → List (Msg R))
    (ms : MasterState R) (i : Nat) : Option (MasterState R) :=
  match recvUnsigned { queue := chan i, log := [] } with
  | none => none
  | some (count, status, st) =>
    match collectAfterCount i count status st
        { rows := [], fullGrids := ms.fullGrids, gridNames := ms.gridNames } with
    | none => none
    | some (st, c, closed) =>
      some { report := ms.report ++
               [{ id := i - 1, percent := (readWork work (i - 1)).map (fun w => w * 100),
                  rows := c.rows, closed := closed }],
             fullGrids := c.fullGrids,
             gridNames := c.gridNames,
             recvLog := ms.recvLog ++ st.log.map (fun s => (i, s)) }

/-- The loop over ranks of `Master::collectResults` for `size` processes; `none` when
the coordinator blocks on a receive. -/
def collectResults {R : Type} [Field R] (size : Nat) (work : List (Option R))
    (chan : Nat → List (Msg R)) : Option (MasterState R) :=
  (List.range' 1 (size - 1)).foldlM (collectStep work chan)
    { report := [], fullGrids := [], gridNames := [], recvLog := [] }

/-! ## Specification-level definitions for the statistics of two series and the report -/

/-- The Pearson coefficient of the first `n` elements of two series, `n` the smaller of
the two lengths, as the specification words it. -/
def pearsonsFormula {R : Type} [Field R] (sqrt : R → R) (a b : List R) : R :=
  let n := min a.length b.length
  let x := a.take n
  let y := b.take n
  let sX := x.sum
  let sY := y.sum
  let sXY := (List.zipWith (fun u v => u * v) x y).sum
  let sXX := (x.map (fun u => u * u)).sum
  let sYY := (y.map (fun v => v * v)).sum
  ((n : R) * sXY - sX * sY) / sqrt (((n : R) * sXX - sX * sX) * ((n : R) * sYY - sY * sY))

/-- A column of a report row as the specification words it: `NA` when the bit is
unset, the text of the received value when it is set. -/
def ColumnShows {R : Type} (fmt : R → String) (enabled : Bool) (field : Option R)
    (text : String) : Prop :=
  (enabled = false → text = "NA") ∧
  (enabled = true → ∃ val, field = some val ∧ text = fmt val)

/-- Two series of different lengths: A has three values, B has two. -/
def unequalParser : UTChemParser ℚ :=
  { values := [("A", [[1, 2, 4]]), ("B", [[1, 3]])] }

/-- A parser in which the key EMPTY was parsed with no value. -/
def emptyParser : UTChemParser ℚ :=
  { values := [("EMPTY", []), ("PERM", [[2, 4, 6]])] }

/-! ## Sample runs of three processes -/

/-- The messages of a worker that reports the sum 12 and the mean 4 of PERM. -/
def permReport : List (Msg ℚ) :=
  tagged [.unsigneds [1], .unsigneds [5], .bytes ['P', 'E', 'R', 'M', NUL], .unsigneds [3],
    .doubles [12], .doubles [4]]

/-- The array `work` as `delegateWork` leaves it in a run of three processes with the
SYMMETRIC ladder: the slots 0 and 1 are written. -/
def sampleWork : List (Option ℚ) := [some 0, some 1, none]

/-- Both workers send the PERM report. -/
def sampleChannels (i : Nat) : List (Msg ℚ) :=
  if i = 1 ∨ i = 2 then permReport else []

/-! ## DCUtil: the string helpers -/

namespace DCUtil

/-- The function `DCUtil::trim`: erases the leading characters that are a space, a
carriage return, a tab or a line feed. -/
def trim (str : String) : String :=
  String.mk (str.data.dropWhile (fun c =>
    c == Char.ofNat 32 || c == Char.ofNat 13 || c == Char.ofNat 9 || c == Char.ofNat 10
      || c == Char.ofNat 13))

/-- The function `DCUtil::strToUpper`: a character with a code from 97 to 122 has 32
subtracted from it. -/
def strToUpper (str : String) : String :=
  String.mk (str.data.map (fun c =>
    if c.toNat ≥ 97 ∧ c.toNat ≤ 122 then Char.ofNat (c.toNat - 32) else c))

/-- The function `DCUtil::startsWith`: the sizes are compared before trimming; then
both strings are trimmed and put in upper case, and `line.compare(0, key.size(), key)
== 0` holds when the first `key.size()` characters of `line` are `key`. -/
def startsWith (line key : String) : Bool :=
  if line.length < key.length then false
  else
    let line := strToUpper (trim line)
    let key := strToUpper (trim key)
    line.data.take key.length == key.data

end DCUtil

/-! ## Configuration::updateParams -/

/-- The function `Configuration::updateParams` on the member `params`: the first loop
collects in `newParams` one parameter for each key that differs from the name of a
parameter with ALL_SIMILAR and starts with it; the second loop pushes them onto
`params`. -/
def Configuration.updateParams (params : List Parameter) (keys : List String) :
    List Parameter :=
  let newParams := params.foldl (fun newParams it =>
    if hasStat it.stats Parameter.ALL_SIMILAR then
      keys.foldl (fun newParams itt =>
        if it.name != itt && DCUtil.startsWith itt it.name then
          newParams ++ [{ name := itt, pearson := it.pearson, stats := it.stats }]
        else newParams) newParams
    else newParams) []
  newParams.foldl (fun params it => params ++ [it]) params

/-! ## Configuration::parse: the state machine -/

namespace Configuration

/-- The enum `Configuration::PARSESTATE`. -/
inductive PARSESTATE where
  | NONE
  | MAIN
  | RULES
  | FILE
  | ANALYSIS
  | PARAMETER
  deriving DecidableEq

/-- The exceptions `DCException` thrown while parsing, by what raised them:
`throwException(err, lineno)`, `validOpen` for the block `key`, and the test for an
unfinished block at the end of `parse`. -/
inductive DCException where
  | atLine (err : String) (lineno : Nat)
  | invalidFormat (key : String)
  | unclosed (block : String)
  deriving DecidableEq

/-- What decides the control flow of `parse`: the members `parserState` and `lineno`,
and the static flag `open` of each of the five block functions. The members that hold
the values read (`exe`, `datadir`, `rules`, `params` and the others) are left out: no
branch tests them. -/
structure ParserState where
  parserState : PARSESTATE
  lineno : Nat
  mainOpen : Bool
  rulesOpen : Bool
  fileOpen : Bool
  analysisOpen : Bool
  parameterOpen : Bool
  deriving DecidableEq

/-- The function `Configuration::throwException`. -/
def throwException {α : Type} (err : String) (lineno : Nat) : Except DCException α :=
  .error (DCException.atLine err lineno)

/-- The call `line.find_first_of(c)`: the first position of `c`, `none` for `npos`. -/
def findFirstOf (line : String) (c : Char) : Option Nat :=
  line.data.findIdx? (fun d => d == c)

/-- The call `line.find_last_of(c)`: the last position of `c`, `none` for `npos`. -/
def findLastOf (line : String) (c : Char) : Option Nat :=
  (line.data.reverse.findIdx? (fun d => d == c)).map (fun k => line.length - 1 - k)

/-- The function `Configuration::isVarLine`. The length `pos - var.size()` passed to
`substr` is a `size_t`: below zero it wraps and the rest of the line is taken. -/
def isVarLine (line var : String) : Bool :=
  if line.length ≤ var.length then false
  else
    match findFirstOf line (Char.ofNat 61) with
    | none => false
    | some pos =>
      let count := (pos + 2 ^ 64 - var.length) % 2 ^ 64
      let check := DCUtil.trim (String.mk ((line.data.drop var.length).take count))
      if !DCUtil.startsWith line var || (!check.isEmpty && check != "=") then false
      else true

/-- The function `Configuration::validOpen`: `line.compare(0, 1, "\x7b") == 0`, or the
line begins with `key` (case-sensitive) and holds an opening brace; a non-empty line
that does neither throws. -/
def validOpen (line key : String) : Except DCException Bool :=
  if line.data.take 1 == [Char.ofNat 123] then .ok true
  else if line.data.take key.length == key.data
      && (findFirstOf line (Char.ofNat 123)).isSome then .ok true
  else if !line.isEmpty && line.data.take key.length != key.data
      && line.data.take 1 != [Char.ofNat 123] then .error (DCException.invalidFormat key)
  else .ok false

/-- The test of `parseFile` and `parseParameter` on a line that names a block: the
first and the last double quote exist and are not the same character. -/
def quotedName (line err : String) (lineno : Nat) : Except DCException Unit :=
  let start := findFirstOf line (Char.ofNat 34)
  let last := findLastOf line (Char.ofNat 34)
  if start = none ∨ last = none ∨ start = last then throwException err lineno
  else .ok ()

/-- The function `Configuration::parseMain`: the result tells whether the block was
closed. -/
def parseMain (line : String) (s : ParserState) : Except DCException (Bool × ParserState) :=
  if !s.mainOpen then do
    let o ← validOpen line "main"
    pure (false, { s with mainOpen := o })
  else if DCUtil.startsWith line "\x7d" then pure (true, { s with mainOpen := false })
  else if isVarLine line "exe" || isVarLine line "data" || isVarLine line "simulator"
      || isVarLine line "listKeys" || isVarLine line "runName" || isVarLine line "runSim"
      || isVarLine line "output" || isVarLine line "symmetry" || isVarLine line "graph"
      || isVarLine line "upperThresh" || isVarLine line "lowerThresh" then pure (false, s)
  else throwException "Unexpected value in main\x7b...\x7d" s.lineno

/-- The function `Configuration::parseFile`. -/
def parseFile (line : String) (s : ParserState) : Except DCException (Bool × ParserState) := do
  if DCUtil.startsWith line "file" then
    quotedName line "Invalid file\x7b ... \x7d block defined" s.lineno
  if !s.fileOpen then
    let o ← validOpen line "file"
    pure (false, { s with fileOpen := o })
  else if DCUtil.startsWith line "\x7d" then pure (true, { s with fileOpen := false })
  else if isVarLine line "start" || isVarLine line "end" || DCUtil.startsWith line "modulo"
      || DCUtil.startsWith line "mval" || DCUtil.startsWith line "format"
      || DCUtil.startsWith line "outformat" || DCUtil.startsWith line "transperc" then
    pure (false, s)
  else throwException "Unexpected value in file\x7b ... \x7d" s.lineno

/-- The function `Configuration::parseRules`; a line that starts with `file` sets the
state to FILE and is passed to `parseFile`. -/
def parseRules (line : String) (s : ParserState) : Except DCException (Bool × ParserState) :=
  if !s.rulesOpen then do
    let o ← validOpen line "rules"
    pure (false, { s with rulesOpen := o })
  else if DCUtil.startsWith line "\x7d" then pure (true, { s with rulesOpen := false })
  else if DCUtil.startsWith line "file" then do
    let r ← parseFile line { s with parserState := PARSESTATE.FILE }
    pure (false, r.2)
  else throwException "Unexpected value in rules\x7b ... \x7d" s.lineno

/-- The function `Configuration::parseParameter`. -/
def parseParameter (line : String) (s : ParserState) :
    Except DCException (Bool × ParserState) := do
  if DCUtil.startsWith line "parameter" then
    quotedName line "Invalid parameter\x7b ... \x7d block defined" s.lineno
  if !s.parameterOpen then
    let o ← validOpen line "parameter"
    pure (false, { s with parameterOpen := o })
  else if DCUtil.startsWith line "\x7d" then pure (true, { s with parameterOpen := false })
  else if DCUtil.startsWith line "sum" || DCUtil.startsWith line "mean"
      || DCUtil.startsWith line "variance" || DCUtil.startsWith line "stddev"
      || DCUtil.startsWith line "pearson" || DCUtil.startsWith line "norm"
      || isVarLine line "all" then
    pure (false, s)
  else throwException "Unexpected value in parameter\x7b ... \x7d" s.lineno

/-- The function `Configuration::parseAnalysis`; a line that starts with `parameter`
sets the state to PARAMETER and is passed to `parseParameter`. -/
def parseAnalysis (line : String) (s : ParserState) :
    Except DCException (Bool × ParserState) :=
  if !s.analysisOpen then do
    let o ← validOpen line "analysis"
    pure (false, { s with analysisOpen := o })
  else if DCUtil.startsWith line "\x7d" then pure (true, { s with analysisOpen := false })
  else if DCUtil.startsWith line "parameter" then do
    let r ← parseParameter line { s with parserState := PARSESTATE.PARAMETER }
    pure (false, r.2)
  else throwException "Unexpected value in analysis\x7b ... \x7d" s.lineno

/-- A block function called from the loop of `parse`: when it reports the block
closed, the state becomes `next`. -/
def afterBlock (next : PARSESTATE) (r : Bool × ParserState) : ParserState :=
  if r.1 then { r.2 with parserState := next } else r.2

/-- One iteration of the loop `while(!in.eof())` of `parse`, for the line `getline`
read. -/
def parseLine (s : ParserState) (line : String) : Except DCException ParserState :=
  let s := { s with lineno := s.lineno + 1 }
  let line := DCUtil.trim line
  if line.isEmpty || line.data.head? == some (Char.ofNat 35) then pure s
  else
    match s.parserState with
    | PARSESTATE.NONE =>
      if DCUtil.startsWith line "main" then do
        let r ← parseMain line { s with parserState := PARSESTATE.MAIN }
        pure r.2
      else if DCUtil.startsWith line "rules" then do
        let r ← parseRules line { s with parserState := PARSESTATE.RULES }
        pure r.2
      else if DCUtil.startsWith line "analysis" then do
        let r ← parseAnalysis line { s with parserState := PARSESTATE.ANALYSIS }
        pure r.2
      else throwException "Unexpected value" s.lineno
    | PARSESTATE.MAIN => do
      let r ← parseMain line s
      pure (afterBlock PARSESTATE.NONE r)
    | PARSESTATE.RULES => do
      let r ← parseRules line s
      pure (afterBlock PARSESTATE.NONE r)
    | PARSESTATE.FILE => do
      let r ← parseFile line s
      pure (afterBlock PARSESTATE.RULES r)
    | PARSESTATE.ANALYSIS => do
      let r ← parseAnalysis line s
      pure (afterBlock PARSESTATE.NONE r)
    | PARSESTATE.PARAMETER => do
      let r ← parseParameter line s
      pure (afterBlock PARSESTATE.ANALYSIS r)

/-- The test after the loop of `parse`: "If parserState != NONE, we never finished
block". -/
def unfinishedBlock (s : ParserState) : Except DCException ParserState :=
  if s.parserState = PARSESTATE.MAIN then .error (DCException.unclosed "main")
  else if s.parserState = PARSESTATE.RULES then .error (DCException.unclosed "rules")
  else if s.parserState = PARSESTATE.FILE then .error (DCException.unclosed "file")
  else if s.parserState = PARSESTATE.ANALYSIS then .error (DCException.unclosed "analysis")
  else .ok s

/-- The state with which the constructor of `Configuration` calls `parse`. -/
def initialState : ParserState :=
  { parserState := PARSESTATE.NONE, lineno := 0, mainOpen := false, rulesOpen := false,
    fileOpen := false, analysisOpen := false, parameterOpen := false }

/-- The loop of `parse` over the lines `getline` reads from the opened file. -/
def parseLines (lines : List String) : Except DCException ParserState :=
  lines.foldlM parseLine initialState

/-- The function `Configuration::parse` on the lines of the opened file: the loop, then
the test for an unfinished block. -/
def parse (lines : List String) : Except DCException ParserState := do
  let s ← parseLines lines
  unfinishedBlock s

end Configuration

/-! ## UTChemParser::getCoordinate -/

/-- The class `Coord3D`: three doubles. -/
structure Coord3D (α : Type) where
  xCoord : α
  yCoord : α
  zCoord : α

/-- The function `UTChemParser::getCoordinate` for the members `nx` and `ny`. Every
operation is one on `unsigned`, modulo `2 ^ 32`; a division by zero has no defined
result (`none`). The constructor of `Coord3D` converts the three `unsigned` to
doubles. -/
def UTChemParser.getCoordinate {α : Type} [Field α] (nx ny id : Nat) : Option (Coord3D α) :=
  let R : Nat := nx
  let C : Nat := ny
  if (R * C) % 2 ^ 32 = 0 then none
  else
    let k : Nat := id / ((R * C) % 2 ^ 32)
    if R = 0 then none
    else
      let j : Nat := ((id + 2 ^ 32 - ((k * R) % 2 ^ 32 * C) % 2 ^ 32) % 2 ^ 32) / R
      let i : Nat := ((id + 2 ^ 32 - ((k * R) % 2 ^ 32 * C) % 2 ^ 32) % 2 ^ 32
        + 2 ^ 32 - (j * R) % 2 ^ 32) % 2 ^ 32
      some { xCoord := (i : α), yCoord := (j : α), zCoord := (k : α) }

/-! ## Master::collectResults: the head of the similarity report -/

/-- The lines `Id,"Perc Change"` of the similarity report, written by the loop
`for(int i = 0 ; i < size - 1 ; ++i)`: the id `i` with `work[i] * 100`. -/
def similarityHeader {R : Type} [Field R] (size : Nat) (work : List (Option R)) :
    List (Nat × Option R) :=
  (List.range (size - 1)).map (fun i => (i, (readWork work i).map (fun w => w * 100)))

/-! ## Specification-level definitions for the ids -/

/-- The grid contributions among the rows of one rank, each with the id of the rank. -/
def RankEntry.grids {R : Type} (e : RankEntry R) : List (GridEntry R) :=
  e.rows.filterMap (fun r =>
    r.cellValues.map (fun cellValues => { stats := r.stats, id := e.id, values := cellValues }))

/-- The names of the grid contributions among the rows of one rank. -/
def RankEntry.gridNames {R : Type} (e : RankEntry R) : List String :=
  e.rows.filterMap (fun r => r.cellValues.map (fun _ => r.name))

/-- The order of the similarity loops on counter pairs: by the counter of the outer
loop, then by the counter of the inner loop. -/
def loopOrder (p q : Nat × Nat) : Prop :=
  p.1 < q.1 ∨ (p.1 = q.1 ∧ p.2 < q.2)

/-! ## Sample configuration files -/

/-- A configuration file that ends inside a parameter block. -/
def openParameterFile : List String :=
  ["analysis \x7b", "parameter \"PERM\" \x7b", "sum = \"1\""]

/-- The same file with both blocks closed. -/
def closedFile : List String :=
  ["analysis \x7b", "parameter \"PERM\" \x7b", "sum = \"1\"", "\x7d", "\x7d"]

/-- A file that ends inside a file block. -/
def openFileBlock : List String :=
  ["rules \x7b", "file \"INPUT\" \x7b", "start = \"1\""]

/-- The messages of a worker that reports the sum, the mean and the grid of PERM. -/
def permGridReport : List (Msg ℚ) :=
  tagged [.unsigneds [1], .unsigneds [5], .bytes ['P', 'E', 'R', 'M', NUL], .unsigneds [0x23],
    .doubles [12], .doubles [4], .unsigneds [3], .doubles [2, 4, 6]]

/-- Both workers of a run of three processes send the PERM report with its grid. -/
def gridChannels (i : Nat) : List (Msg ℚ) :=
  if i = 1 ∨ i = 2 then permGridReport else []

/-! ## AnalyzeData::computeNorm without its assertion -/

namespace AnalyzeData

/-- The loop of `computeNorm` when the `assert` before it is compiled out (`NDEBUG`):
the counter runs over the positions of `x` and reads `x[i]` and `y[i]`, starting from
the running sum `ret`. Reading `y[i]` past the end of `y` has no defined value
(`none`). -/
def normLoopUnchecked {R : Type} [Field R] : List R → List R → R → Option R
  | [], _, ret => some ret
  | _ :: _, [], _ => none
  | a :: x, b :: y, ret =>
    let tmp := a - b
    let tmp := tmp * tmp
    normLoopUnchecked x y (ret + tmp)

/-- The function `AnalyzeData::computeNorm` in a build with `NDEBUG`, in which
`assert(x.size() == y.size())` expands to nothing. -/
def computeNormUnchecked {R : Type} [Field R] (sqrt : R → R) (x y : List R) : Option R :=
  (normLoopUnchecked x y 0).map sqrt

end AnalyzeData

/-! ## Slave::calculateAndTxResults from its first statement -/

/-- One iteration of the loop over ranks of `collectResults` from the statement after
`MPI_Recv(&count, ...)` on: `count`, `status` and `st` are what that receive stored
and the state of the channel after it. -/
def collectStepAfter {R : Type} [Field R] (work : List (Option R)) (ms : MasterState R)
    (i count : Nat) (status : Msg R) (st : RxState R) : Option (MasterState R) :=
  match collectAfterCount i count status st
      { rows := [], fullGrids := ms.fullGrids, gridNames := ms.gridNames } with
  | none => none
  | some (st, c, closed) =>
    some { report := ms.report ++
             [{ id := i - 1, percent := (readWork work (i - 1)).map (fun w => w * 100),
                rows := c.rows, closed := closed }],
           fullGrids := c.fullGrids,
           gridNames := c.gridNames,
           recvLog := ms.recvLog ++ st.log.map (fun s => (i, s)) }

/-! ## Specification-level definitions for failing workers -/

/-- A step of the send sequence of the worker: whatever follows it, either it sends
its messages and goes on, or it sends some of them and stops with a failure. -/
def SendStep {R : Type} (send : TxResult R → TxResult R) : Prop :=
  (∃ own : List (Msg R), ∀ T : TxResult R,
    (send T).sent = own ++ T.sent ∧ (send T).failure = T.failure) ∨
  (∃ (own : List (Msg R)) (e : Failure), ∀ T : TxResult R,
    send T = { sent := own, failure := some e })

/-- Reading the slot that was just written gives the written value. -/
theorem readWork_set_self {R : Type} (work : List (Option R)) (k : Nat) (v : Option R)
    (hk : k < work.length) : readWork (work.set k v) k = v := by
  simp [readWork, List.getElem?_set, hk]

/-- Writing slot `k` leaves every other slot as it was. -/
theorem readWork_set_ne {R : Type} (work : List (Option R)) (k j : Nat) (v : Option R)
    (hkj : k ≠ j) : readWork (work.set k v) j = readWork work j := by
  simp [readWork, List.getElem?_set, hkj]

/-- For `i ≠ 1` an iteration overwrites exactly slot `i - 1`. -/
theorem delegateStep_work {R : Type} [Field R] (sym : Symmetry) (st : WorkPlan R) (i : Nat)
    (hi : i ≠ 1) :
    ∃ v, (delegateStep sym st i).work = st.work.set (i - 1) v ∧
      v = (if sym = Configuration.POSITIVE then some ((1 : R) / (((i : Int) - 1 : Int) : R))
        else if sym = Configuration.NEGATIVE then some ((-1 : R) / (((i : Int) - 1 : Int) : R))
        else if i % 2 = 0 then some ((1 : R) / (((i : Int) - 1 : Int) : R))
        else (readWork st.work (i - 2)).map (fun w => (-1 : R) * w)) := by
  simp only [delegateStep, hi, ne_eq, not_false_eq_true, if_true]
  split_ifs <;> exact ⟨_, rfl, rfl⟩

/-- An iteration sends the content of slot `i - 1` to rank `i`. -/
theorem delegateStep_sent {R : Type} [Field R] (sym : Symmetry) (st : WorkPlan R) (i : Nat) :
    (delegateStep sym st i).sent
      = st.sent ++ [(i, readWork (delegateStep sym st i).work (i - 1))] := rfl

/-- Loop invariant of `delegateWork` after the iterations `i = 1 .. n`. -/
theorem delegate_fold_inv {R : Type} [Field R] (size : Nat) (sym : Symmetry) (n : Nat)
    (hn : n + 1 ≤ size) (st : WorkPlan R)
    (hst : st = (List.range' 1 n).foldl (delegateStep (R := R) sym)
      { work := (List.replicate size none).set 0 (some 0), sent := [] }) :
    st.work.length = size ∧
    (∀ k, k < n ∨ k = 0 → readWork st.work k = some (ladder sym (k + 1))) ∧
    st.sent = (List.range' 1 n).map (fun i => (i, some (ladder sym i))) := by
  induction n generalizing st with
  | zero =>
    subst hst
    refine ⟨by simp, ?_, by simp⟩
    intro k hk
    have hk0 : k = 0 := by omega
    subst hk0
    simp only [List.range'_zero, List.foldl_nil]
    rw [readWork_set_self _ _ _ (by simp; omega)]
    simp [ladder]
  | succ n ih =>
    obtain ⟨hlen, hwork, hsent⟩ := ih (by omega) _ rfl
    rw [List.range'_concat, List.foldl_append] at hst
    simp only [List.foldl_cons, List.foldl_nil, mul_one, one_mul] at hst
    generalize (List.range' 1 n).foldl (delegateStep (R := R) sym)
      { work := (List.replicate size none).set 0 (some 0), sent := [] } = st0
      at hlen hwork hsent hst
    subst hst
    by_cases h1 : n = 0
    · subst h1
      have hw : (delegateStep sym st0 (1 + 0)).work = st0.work := by simp [delegateStep]
      refine ⟨by rw [hw, hlen], ?_, ?_⟩
      · intro k hk
        have hk0 : k = 0 := by omega
        subst hk0
        rw [hw]
        exact hwork 0 (Or.inr rfl)
      · rw [delegateStep_sent, hw, hsent]
        simp [hwork 0 (Or.inr rfl)]
    · have hi : 1 + n ≠ 1 := by omega
      have hidx : 1 + n - 1 = n := by omega
      have hprev : readWork st0.work (1 + n - 2) = some (ladder sym n) := by
        have := hwork (n - 1) (Or.inl (by omega))
        rw [show n - 1 + 1 = n by omega] at this
        rw [show 1 + n - 2 = n - 1 by omega]
        exact this
      obtain ⟨v, hw, hv⟩ := delegateStep_work sym st0 (1 + n) hi
      rw [hidx] at hw
      have hvl : v = some (ladder sym (1 + n)) := by
        rw [hv, hprev]
        by_cases hp : sym = Configuration.POSITIVE
        · simp [ladder, hp, h1]
        · by_cases hq : sym = Configuration.NEGATIVE
          · rw [if_neg hp, if_pos hq]
            simp [ladder, hq, h1, Configuration.NEGATIVE, Configuration.POSITIVE]
          · rw [if_neg hp, if_neg hq]
            by_cases he : (1 + n) % 2 = 0
            · simp [ladder, h1, hp, hq, he]
            · have hne : n % 2 = 0 := by omega
              have hn1 : n ≠ 1 := by omega
              simp [ladder, h1, hp, hq, he, hne, hn1]
      have hval : readWork (delegateStep sym st0 (1 + n)).work n = some (ladder sym (1 + n)) := by
        rw [hw, readWork_set_self _ _ _ (by omega), hvl]
      refine ⟨by rw [hw]; simp [hlen], ?_, ?_⟩
      · intro k hk
        by_cases hkn : k = n
        · subst hkn
          rw [hval, Nat.add_comm]
        · have hk' : k < n ∨ k = 0 := by omega
          rw [← hwork k hk', hw]
          exact readWork_set_ne _ _ _ _ (Ne.symm hkn)
      · rw [delegateStep_sent, hidx, hval, hsent]
        simp [List.range'_concat]

/-! ## Receiving what was sent: the building blocks -/

/-- Receiving one `unsigned` when the next message is one `unsigned`. -/
theorem recvUnsigned_cons {R : Type} (v : Nat) (q : List (Msg R)) (log : List (Datatype × Nat)) :
    recvUnsigned { queue := { tag := 1, payload := .unsigneds [v] } :: q, log := log }
      = some (v, { tag := 1, payload := .unsigneds [v] },
          { queue := q, log := log ++ [(Datatype.MPI_UNSIGNED, 1)] }) := by
  simp [recvUnsigned, mpiRecv, takeTagged, Payload.signature]

/-- Receiving `n` bytes when the next message holds `n` bytes. -/
theorem recvBytes_cons {R : Type} (cs : List Char) (n : Nat) (hn : n = cs.length)
    (q : List (Msg R)) (log : List (Datatype × Nat)) :
    recvBytes n { queue := { tag := 1, payload := .bytes cs } :: q, log := log }
      = some (cs, { queue := q, log := log ++ [(Datatype.MPI_BYTE, cs.length)] }) := by
  subst hn
  simp [recvBytes, mpiRecv, takeTagged, Payload.signature]

/-- Receiving `n` doubles when the next message holds `n` doubles. -/
theorem recvDoubles_cons {R : Type} (ds : List R) (n : Nat) (hn : n = ds.length)
    (q : List (Msg R)) (log : List (Datatype × Nat)) :
    recvDoubles n { queue := { tag := 1, payload := .doubles ds } :: q, log := log }
      = some (ds, { queue := q, log := log ++ [(Datatype.MPI_DOUBLE, ds.length)] }) := by
  subst hn
  simp [recvDoubles, mpiRecv, takeTagged, Payload.signature]

/-- A scalar block of the coordinator reads back an optional scalar field. -/
theorem recvStat_statField {R : Type} (o : Option R) (q : List (Msg R))
    (log : List (Datatype × Nat)) :
    recvStat o.isSome { queue := tagged (statField o) ++ q, log := log }
      = some (o, { queue := q, log := log ++ (statField o).map Payload.signature }) := by
  cases o with
  | none => simp [recvStat, statField, tagged]
  | some v =>
    simp [recvStat, statField, tagged, recvDoubles_cons [v] 1 rfl, Payload.signature]

/-- The grid block of the coordinator reads back an optional grid field. -/
theorem recvGrid_gridFields {R : Type} (o : Option (List R)) (q : List (Msg R))
    (log : List (Datatype × Nat)) :
    recvGrid o.isSome { queue := tagged (gridFields o) ++ q, log := log }
      = some (o, { queue := q, log := log ++ (gridFields o).map Payload.signature }) := by
  cases o with
  | none => simp [recvGrid, gridFields, tagged]
  | some g =>
    simp [recvGrid, gridFields, tagged, recvUnsigned_cons, recvDoubles_cons g g.length rfl,
      Payload.signature]

/-- The name with its terminator is one longer than the name. -/
theorem strLen_succ (s : String) : s.length + 1 = (s.data ++ [NUL]).length := by
  rw [List.length_append]
  rfl

/-- Reading a terminated name as a C string gives the name. -/
theorem cString_terminated (s : String) (h : NUL ∉ s.data) :
    cString (s.data ++ [NUL]) = some s := by
  have htw : ∀ l : List Char, NUL ∉ l →
      (l ++ [NUL]).takeWhile (fun c => c != NUL) = l := by
    intro l hl
    induction l with
    | nil => simp [List.takeWhile]
    | cons a l ih =>
      have ha : a ≠ NUL := fun e => hl (by simp [e])
      have hl2 : NUL ∉ l := fun e => hl (by simp [e])
      have hb : (a != NUL) = true := by simpa using ha
      rw [List.cons_append, List.takeWhile_cons, hb, ih hl2]
      rfl
  simp [cString, htw _ h]

/-- Decoding the fields of a well-formed result gives the result back, consumes
exactly those fields and issues one receive of matching shape per field. -/
theorem recvParameter_resultFields {R : Type} (r : Received R) (hr : r.WellFormed)
    (q : List (Msg R)) (log : List (Datatype × Nat)) :
    recvParameter { queue := tagged (resultFields r) ++ q, log := log }
      = some (r, { queue := q, log := log ++ (resultFields r).map Payload.signature }) := by
  obtain ⟨hnul, h1, h2, h3, h4, h5, h6⟩ := hr
  have e : tagged (resultFields r) ++ q
      = { tag := 1, payload := .unsigneds [r.name.length + 1] }
        :: { tag := 1, payload := .bytes (r.name.data ++ [NUL]) }
        :: { tag := 1, payload := .unsigneds [r.stats] }
        :: (tagged (statField r.sum) ++ (tagged (statField r.mean) ++
            (tagged (statField r.variance) ++ (tagged (statField r.stddev) ++
            (tagged (statField r.pearson) ++ (tagged (gridFields r.cellValues) ++ q)))))) := by
    simp [resultFields, tagged]
  rw [e]
  simp only [recvParameter, recvUnsigned_cons, Option.bind_eq_bind, Option.some_bind,
    recvBytes_cons (r.name.data ++ [NUL]) (r.name.length + 1) (strLen_succ r.name),
    cString_terminated r.name hnul, ← h1, ← h2, ← h3, ← h4, ← h5, ← h6,
    recvStat_statField, recvGrid_gridFields]
  simp [resultFields, Payload.signature, ← strLen_succ r.name]

/-! ## Sending: the worker's messages are the wire format of its results -/

/-- Copying a C string of `n` characters with `strncpy(.., n)` copies all of it. -/
theorem strncpy_self (l : List Char) (h : NUL ∉ l) : strncpy l l.length = l := by
  have htw : l.takeWhile (fun c => c != NUL) = l := by
    rw [List.takeWhile_eq_self_iff]
    intro c hc
    have : c ≠ NUL := fun e => h (e ▸ hc)
    simpa using this
  simp [strncpy, htw]

/-- A scalar block that does not fail sends the wire field of the computed value. -/
theorem sendStat_ok {R : Type} (enabled : Bool) (computed : Except Failure R)
    (rest : TxResult R) (hrun : (sendStat enabled computed rest).failure = none) :
    ∃ o : Option R, FieldAgrees enabled computed o ∧ o.isSome = enabled ∧
      rest.failure = none ∧
      (sendStat enabled computed rest).sent = tagged (statField o) ++ rest.sent := by
  cases enabled with
  | false => exact ⟨none, ⟨by simp, by simp⟩, rfl, by simpa [sendStat] using hrun, rfl⟩
  | true =>
    cases computed with
    | error e => simp [sendStat, TxResult.fail] at hrun
    | ok v =>
      refine ⟨some v, ⟨fun _ => ⟨v, rfl, rfl⟩, by simp⟩, rfl, ?_, ?_⟩
      · simpa [sendStat, mpiSend] using hrun
      · simp [sendStat, mpiSend, tagged, statField]

/-- A grid block that does not fail sends the wire fields of the whole series. -/
theorem sendGrid_ok {R : Type} (enabled : Bool) (computed : Except Failure (List R))
    (rest : TxResult R)
    (hsize : enabled = true → ∀ vals, computed = .ok vals → vals.length < 2 ^ 32)
    (hrun : (sendGrid enabled computed rest).failure = none) :
    ∃ o : Option (List R), FieldAgrees enabled computed o ∧ o.isSome = enabled ∧
      rest.failure = none ∧
      (sendGrid enabled computed rest).sent = tagged (gridFields o) ++ rest.sent := by
  cases enabled with
  | false => exact ⟨none, ⟨by simp, by simp⟩, rfl, by simpa [sendGrid] using hrun, rfl⟩
  | true =>
    cases computed with
    | error e => simp [sendGrid, TxResult.fail] at hrun
    | ok g =>
      have hg : toUnsigned g.length = g.length := Nat.mod_eq_of_lt (hsize rfl g rfl)
      by_cases hc : g.length < 2 ^ 31
      · have hm : mpiCount g.length = .ok g.length := by
          simp only [mpiCount, hg]
          rw [if_pos hc]
        refine ⟨some g, ⟨fun _ => ⟨g, rfl, rfl⟩, by simp⟩, rfl, ?_, ?_⟩
        · simpa [sendGrid, mpiSend, hg, hm] using hrun
        · simp [sendGrid, mpiSend, hg, hm, tagged, gridFields]
      · have hm : mpiCount g.length = .error Failure.mpiCount := by
          simp only [mpiCount, hg]
          rw [if_neg hc]
        simp [sendGrid, mpiSend, hg, hm, TxResult.fail] at hrun

/-- An iteration of the worker that does not fail sends the wire fields of the
result it computed, and the rest of the run does not fail either. -/
theorem txParameter_ok {R : Type} [Field R] (sqrt : R → R) (p : UTChemParser R)
    (it : Parameter) (rest : TxResult R) (hs : it.Sendable p)
    (hrun : (txParameter sqrt p it rest).failure = none) :
    ∃ r : Received R, Agrees sqrt p it r ∧ r.WellFormed ∧ rest.failure = none ∧
      (txParameter sqrt p it rest).sent = tagged (resultFields r) ++ rest.sent := by
  obtain ⟨hnul, hlen, hgrid⟩ := hs
  have hdl : it.name.data.length = it.name.length := rfl
  have hu : toUnsigned (it.name.length + 1) = it.name.length + 1 := Nat.mod_eq_of_lt hlen
  have hname : strncpy it.name.data it.name.length = it.name.data := by
    rw [← hdl]
    exact strncpy_self _ hnul
  by_cases hc : it.name.length + 1 < 2 ^ 31
  · have hm : mpiCount (it.name.length + 1) = .ok (it.name.length + 1) := by
      simp only [mpiCount, hu]
      rw [if_pos hc]
    have htake : (it.name.data ++ [NUL]).take (it.name.length + 1) = it.name.data ++ [NUL] := by
      apply List.take_of_length_le
      rw [← strLen_succ]
    have hcs : cString (it.name.data ++ [NUL]) = some it.name := cString_terminated _ hnul
    have hunf : txParameter sqrt p it rest
        = mpiSend (.unsigneds [it.name.length + 1])
          (mpiSend (.bytes (it.name.data ++ [NUL]))
            (mpiSend (.unsigneds [it.stats])
              (sendStat (hasStat it.stats Parameter.SUM) (AnalyzeData.sum p it.name 0)
                (sendStat (hasStat it.stats Parameter.MEAN) (AnalyzeData.mean p it.name 0)
                  (sendStat (hasStat it.stats Parameter.VARIANCE)
                    (AnalyzeData.variance p it.name 0)
                    (sendStat (hasStat it.stats Parameter.STDDEV)
                      (AnalyzeData.stddev sqrt p it.name 0)
                      (sendStat (hasStat it.stats Parameter.PEARSON)
                        (AnalyzeData.pearsons sqrt p it.name it.pearson)
                        (sendGrid (hasStat it.stats Parameter.NORM)
                          (p.getAllValues it.name) rest)))))))) := by
      simp only [txParameter, hname, hm, hu, htake, hcs]
    rw [hunf] at hrun ⊢
    simp only [mpiSend] at hrun
    obtain ⟨o1, a1, w1, hrun, e1⟩ := sendStat_ok _ _ _ hrun
    obtain ⟨o2, a2, w2, hrun, e2⟩ := sendStat_ok _ _ _ hrun
    obtain ⟨o3, a3, w3, hrun, e3⟩ := sendStat_ok _ _ _ hrun
    obtain ⟨o4, a4, w4, hrun, e4⟩ := sendStat_ok _ _ _ hrun
    obtain ⟨o5, a5, w5, hrun, e5⟩ := sendStat_ok _ _ _ hrun
    obtain ⟨o6, a6, w6, hrun, e6⟩ := sendGrid_ok _ _ _ hgrid hrun
    refine ⟨{ name := it.name, stats := it.stats, sum := o1, mean := o2, variance := o3,
              stddev := o4, pearson := o5, cellValues := o6 },
      ⟨rfl, rfl, a1, a2, a3, a4, a5, a6⟩, ⟨hnul, w1, w2, w3, w4, w5, w6⟩, hrun, ?_⟩
    simp only [mpiSend, e1, e2, e3, e4, e5, e6, resultFields, tagged, List.map_append,
      List.map_cons, List.map_nil, List.append_assoc, List.cons_append, List.nil_append]
  · have hm : mpiCount (it.name.length + 1) = .error Failure.mpiCount := by
      simp only [mpiCount, hu]
      rw [if_neg hc]
    simp [txParameter, hm, mpiSend, TxResult.fail] at hrun

/-- The parameter loop of a worker that does not fail sends the wire fields of the
results it computed, in order. -/
theorem txParameters_ok {R : Type} [Field R] (sqrt : R → R) (p : UTChemParser R)
    (params : List Parameter) (hs : ∀ it ∈ params, it.Sendable p)
    (hrun : (txParameters sqrt p params).failure = none) :
    ∃ rs : List (Received R), List.Forall₂ (Agrees sqrt p) params rs ∧
      (∀ r ∈ rs, r.WellFormed) ∧
      (txParameters sqrt p params).sent = tagged (rs.flatMap resultFields) := by
  induction params with
  | nil => exact ⟨[], List.Forall₂.nil, by simp, rfl⟩
  | cons it rest ih =>
    simp only [txParameters] at hrun ⊢
    obtain ⟨r, ha, hw, hrest, hsent⟩ :=
      txParameter_ok sqrt p it _ (hs it (List.mem_cons_self _ _)) hrun
    obtain ⟨rs, hall, hwf, hrs⟩ := ih (fun x hx => hs x (List.mem_cons_of_mem _ hx)) hrest
    refine ⟨r :: rs, List.Forall₂.cons ha hall, ?_, ?_⟩
    · intro x hx
      rcases List.mem_cons.mp hx with h | h
      · exact h ▸ hw
      · exact hwf x h
    · rw [hsent, hrs]
      simp [tagged]

/-- The parameter loop of the coordinator decodes the wire fields of well-formed
results, stores each of them, and leaves the rest of the queue untouched. -/
theorem collectParameters_fields {R : Type} (i : Nat) (rs : List (Received R))
    (hwf : ∀ r ∈ rs, r.WellFormed) (q : List (Msg R)) (log : List (Datatype × Nat))
    (c : Collected R) :
    collectParameters i rs.length
        { queue := tagged (rs.flatMap resultFields) ++ q, log := log } c
      = some ({ queue := q, log := log ++ (rs.flatMap resultFields).map Payload.signature },
          rs.foldl (fun c r => storeParameter i r c) c) := by
  induction rs generalizing log c with
  | nil => simp [collectParameters, tagged]
  | cons r rs ih =>
    have e : tagged ((r :: rs).flatMap resultFields) ++ q
        = tagged (resultFields r) ++ (tagged (rs.flatMap resultFields) ++ q) := by
      simp [tagged]
    rw [e]
    simp only [List.length_cons, collectParameters,
      recvParameter_resultFields r (hwf r (List.mem_cons_self _ _))]
    rw [ih (fun x hx => hwf x (List.mem_cons_of_mem _ hx))]
    simp

/-! ## The work plan in closed form -/

/-- Looking a key up in a list of pairs built from the keys themselves. -/
theorem lookup_map_self {β : Type} (f : Nat → β) (l : List Nat) (r : Nat) :
    List.lookup r (l.map (fun i => (i, f i))) = if r ∈ l then some (f r) else none := by
  induction l with
  | nil => simp
  | cons a l ih =>
    rw [List.map_cons, List.lookup_cons]
    by_cases h : r = a
    · subst h
      simp
    · have hb : (r == a) = false := by simpa using h
      rw [hb, ih]
      simp [h]

/-- The messages of `delegateWork` in closed form. -/
theorem delegateWork_sent {R : Type} [Field R] (N : Nat) (sym : Symmetry) :
    (delegateWork (R := R) N sym).sent
      = (List.range' 1 (N - 1)).map (fun i => (i, some (ladder sym i))) := by
  by_cases hN : 1 ≤ N
  · exact (delegate_fold_inv N sym (N - 1) (by omega) _ rfl).2.2
  · have h0 : N - 1 = 0 := by omega
    simp [delegateWork, h0]

/-- The value sent to an existing rank, in closed form. -/
theorem assignment_eq {R : Type} [Field R] (N : Nat) (sym : Symmetry) (rank : Nat) :
    (delegateWork (R := R) N sym).assignment rank
      = if 1 ≤ rank ∧ rank < N then some (ladder sym rank) else none := by
  rw [WorkPlan.assignment, delegateWork_sent, lookup_map_self]
  by_cases h : 1 ≤ rank ∧ rank < N
  · have hm : rank ∈ List.range' 1 (N - 1) := by
      rw [List.mem_range'_1]
      omega
    rw [if_pos hm, if_pos h]
    rfl
  · have hm : rank ∉ List.range' 1 (N - 1) := by
      rw [List.mem_range'_1]
      omega
    rw [if_neg hm, if_neg h]
    rfl

/-! ## The coordinator on the messages of a completed run -/

/-- Storing results appends one row for each of them. -/
theorem foldl_store_rows {R : Type} (i : Nat) (rs : List (Received R)) (c : Collected R) :
    (rs.foldl (fun c r => storeParameter i r c) c).rows = c.rows ++ rs := by
  induction rs generalizing c with
  | nil => simp
  | cons r rs ih =>
    rw [List.foldl_cons, ih]
    cases h : r.cellValues <;> simp [storeParameter, h]

/-- What the coordinator does with the messages of a worker whose run completed. -/
theorem collectRank_sent {R : Type} [Field R] (sqrt : R → R) (p : UTChemParser R)
    (params : List Parameter) (i : Nat) (c : Collected R)
    (hcount : params.length < 2 ^ 32) (hs : ∀ it ∈ params, it.Sendable p)
    (hrun : (calculateAndTxResults sqrt p params).failure = none) :
    ∃ rs : List (Received R), List.Forall₂ (Agrees sqrt p) params rs ∧
      (calculateAndTxResults sqrt p params).sent
        = tagged (.unsigneds [params.length] :: rs.flatMap resultFields) ∧
      collectRank i (calculateAndTxResults sqrt p params).sent c
        = some ({ queue := [],
                  log := (calculateAndTxResults sqrt p params).sent.map
                    (fun m => m.payload.signature) },
                rs.foldl (fun c r => storeParameter i r c) c) := by
  have hu : toUnsigned params.length = params.length := Nat.mod_eq_of_lt hcount
  have hrun2 : (txParameters sqrt p params).failure = none := hrun
  obtain ⟨rs, hall, hwf, hsent⟩ := txParameters_ok sqrt p params hs hrun2
  have hlen : rs.length = params.length := hall.length_eq.symm
  have hs2 : (calculateAndTxResults sqrt p params).sent
      = tagged (.unsigneds [params.length] :: rs.flatMap resultFields) := by
    simp [calculateAndTxResults, mpiSend, hu, hsent, tagged]
  refine ⟨rs, hall, hs2, ?_⟩
  rw [hs2]
  have hq : tagged (Payload.unsigneds [params.length] :: rs.flatMap resultFields)
      = { tag := 1, payload := .unsigneds [params.length] }
        :: (tagged (rs.flatMap resultFields) ++ []) := by
    simp [tagged]
  have hfatal : ¬ (1 = FATAL_ERROR) := by decide
  rw [hq]
  simp only [collectRank, recvUnsigned_cons, hfatal, if_false]
  rw [← hlen, collectParameters_fields i rs hwf]
  simp [tagged, Payload.signature]

/-! ## The result protocol: C1 to C5 -/

/-- C1. Codec round trip: when the worker's run completes, the coordinator's receive
sequence applied to the messages the worker sent yields one row per parameter, in
order, with the same name, the same stats vector, for every field whose bit is set
exactly the value the worker computed, and no value for a field whose bit is unset. -/
theorem codec_round_trip {R : Type} [Field R] (sqrt : R → R) (p : UTChemParser R)
    (params : List Parameter) (i : Nat) (c : Collected R)
    (hcount : params.length < 2 ^ 32) (hs : ∀ it ∈ params, it.Sendable p)
    (hrun : (calculateAndTxResults sqrt p params).failure = none) :
    ∃ (rs : List (Received R)) (st : RxState R) (c' : Collected R),
      collectRank i (calculateAndTxResults sqrt p params).sent c = some (st, c') ∧
      c'.rows = c.rows ++ rs ∧
      List.Forall₂ (Agrees sqrt p) params rs := by
  obtain ⟨rs, hall, _, hrecv⟩ := collectRank_sent sqrt p params i c hcount hs hrun
  exact ⟨rs, _, _, hrecv, foldl_store_rows i rs c, hall⟩

/-- C2. No desynchronisation: when the worker's run completes, the receives the
coordinator issues for that rank have, position by position and in number, the
datatype and element count of the worker's sends; every message is consumed and no
receive is left waiting. -/
theorem no_desynchronisation {R : Type} [Field R] (sqrt : R → R) (p : UTChemParser R)
    (params : List Parameter) (i : Nat) (c : Collected R)
    (hcount : params.length < 2 ^ 32) (hs : ∀ it ∈ params, it.Sendable p)
    (hrun : (calculateAndTxResults sqrt p params).failure = none) :
    ∃ c' : Collected R,
      collectRank i (calculateAndTxResults sqrt p params).sent c
        = some ({ queue := [],
                  log := (calculateAndTxResults sqrt p params).sent.map
                    (fun m => m.payload.signature) }, c') := by
  obtain ⟨rs, _, _, hrecv⟩ := collectRank_sent sqrt p params i c hcount hs hrun
  exact ⟨_, hrecv⟩

/-- C3. Send-side wire order: a completed run sends `parameterCount` once, then for
each parameter in configuration order `nameLength`, the name, the stats vector, the
values `sum(name)`, `mean(name)`, `variance(name)`, `stddev(name)`,
`pearsons(name, partner)` (sample size 0, the whole series) for exactly the bits set
and in that order, then the grid block exactly when NORM is set. -/
theorem send_wire_order {R : Type} [Field R] (sqrt : R → R) (p : UTChemParser R)
    (params : List Parameter)
    (hcount : params.length < 2 ^ 32) (hs : ∀ it ∈ params, it.Sendable p)
    (hrun : (calculateAndTxResults sqrt p params).failure = none) :
    ∃ rs : List (Received R), List.Forall₂ (Agrees sqrt p) params rs ∧
      (calculateAndTxResults sqrt p params).sent
        = tagged (.unsigneds [params.length] :: rs.flatMap resultFields) := by
  obtain ⟨rs, hall, hsent, _⟩ :=
    collectRank_sent sqrt p params 0 { rows := [], fullGrids := [], gridNames := [] }
      hcount hs hrun
  exact ⟨rs, hall, hsent⟩

/-- C4. For a name that is a C string of fewer than `2 ^ 31 - 1` characters, the
worker sends `nameLength = length + 1` and then the characters of the name followed
by one terminator, from which the coordinator reads the name back. -/
theorem name_field {R : Type} [Field R] (sqrt : R → R) (p : UTChemParser R)
    (it : Parameter) (rest : TxResult R)
    (hnul : NUL ∉ it.name.data) (hlen : it.name.length + 1 < 2 ^ 31) :
    (∃ tail : List (Msg R), (txParameter sqrt p it rest).sent
        = { tag := 1, payload := .unsigneds [it.name.length + 1] }
          :: { tag := 1, payload := .bytes (it.name.data ++ [NUL]) } :: tail) ∧
      (it.name.data ++ [NUL]).length = it.name.length + 1 ∧
      (it.name.data ++ [NUL]).count NUL = 1 ∧
      cString (it.name.data ++ [NUL]) = some it.name := by
  have hdl : it.name.data.length = it.name.length := rfl
  have hu : toUnsigned (it.name.length + 1) = it.name.length + 1 :=
    Nat.mod_eq_of_lt (by omega)
  have hname : strncpy it.name.data it.name.length = it.name.data := by
    rw [← hdl]
    exact strncpy_self _ hnul
  have hm : mpiCount (it.name.length + 1) = .ok (it.name.length + 1) := by
    simp only [mpiCount, hu]
    rw [if_pos hlen]
  have htake : (it.name.data ++ [NUL]).take (it.name.length + 1) = it.name.data ++ [NUL] := by
    apply List.take_of_length_le
    rw [← strLen_succ]
  refine ⟨?_, (strLen_succ it.name).symm, ?_, cString_terminated _ hnul⟩
  · simp only [txParameter, hname, hm, hu, htake, mpiSend]
    exact ⟨_, rfl⟩
  · rw [List.count_append, List.count_eq_zero_of_not_mem hnul]
    simp

/-- C5. Grid block: for a parameter whose run completes, when NORM is set the fields
of the parameter end with `gridCount`, the length of `getAllValues(name)`, and that
whole series in order, and the coordinator pushes one grid with those values and
the name; when NORM is not set no grid block is sent and nothing is pushed. -/
theorem grid_block {R : Type} [Field R] (sqrt : R → R) (p : UTChemParser R)
    (it : Parameter) (rest : TxResult R) (i : Nat) (c : Collected R)
    (hs : it.Sendable p) (hrun : (txParameter sqrt p it rest).failure = none) :
    ∃ r : Received R,
      (txParameter sqrt p it rest).sent = tagged (resultFields r) ++ rest.sent ∧
      (∀ q log, recvParameter { queue := tagged (resultFields r) ++ q, log := log }
        = some (r, { queue := q, log := log ++ (resultFields r).map Payload.signature })) ∧
      (hasStat it.stats Parameter.NORM = true →
        ∃ vals, p.getAllValues it.name = .ok vals ∧
          gridFields r.cellValues = [.unsigneds [vals.length], .doubles vals] ∧
          (storeParameter i r c).fullGrids
            = c.fullGrids ++ [{ stats := it.stats, id := i - 1, values := vals }] ∧
          (storeParameter i r c).gridNames = c.gridNames ++ [it.name]) ∧
      (hasStat it.stats Parameter.NORM = false →
        gridFields r.cellValues = [] ∧
          (storeParameter i r c).fullGrids = c.fullGrids ∧
          (storeParameter i r c).gridNames = c.gridNames) := by
  obtain ⟨r, ha, hw, _, hsent⟩ := txParameter_ok sqrt p it rest hs hrun
  obtain ⟨hn, hst, _, _, _, _, _, hg⟩ := ha
  refine ⟨r, hsent, fun q log => recvParameter_resultFields r hw q log, ?_, ?_⟩
  · intro hb
    obtain ⟨vals, hv, hcv⟩ := hg.1 hb
    exact ⟨vals, hv, by simp [hcv, gridFields], by simp [storeParameter, hcv, hst],
      by simp [storeParameter, hcv, hn]⟩
  · intro hb
    have hcv := hg.2 hb
    exact ⟨by simp [hcv, gridFields], by simp [storeParameter, hcv],
      by simp [storeParameter, hcv]⟩

/-! ## The work plan: C6 to C10 -/

/-- C6. For every `N ≥ 2` and every symmetry mode, `delegateWork` sends exactly
`N - 1` assignments, one to each of the ranks `1 .. N - 1` in order, rank 1 is
assigned 0, and in SYMMETRIC mode every odd rank `i > 2` is assigned the negation
of the assignment of rank `i - 1`. -/
theorem delegateWork_plan {R : Type} [Field R] (N : Nat) (sym : Symmetry) (hN : 2 ≤ N) :
    (delegateWork (R := R) N sym).sent.length = N - 1 ∧
    (delegateWork (R := R) N sym).sent.map Prod.fst = List.range' 1 (N - 1) ∧
    (delegateWork (R := R) N sym).assignment 1 = some 0 ∧
    (sym = Configuration.SYMMETRIC → ∀ i, 2 < i → i % 2 = 1 → i < N →
      ∃ v, (delegateWork (R := R) N sym).assignment (i - 1) = some v ∧
        (delegateWork (R := R) N sym).assignment i = some (-v)) := by
  refine ⟨by simp [delegateWork_sent], ?_, ?_, ?_⟩
  · rw [delegateWork_sent, List.map_map]
    exact List.map_id _
  · rw [assignment_eq, if_pos ⟨le_refl 1, by omega⟩]
    simp [ladder]
  · intro hsym i h2 hodd hi
    refine ⟨ladder sym (i - 1), ?_, ?_⟩
    · rw [assignment_eq, if_pos ⟨by omega, by omega⟩]
    · rw [assignment_eq, if_pos ⟨by omega, hi⟩]
      have hi1 : i ≠ 1 := by omega
      have he : ¬ (i % 2 = 0) := by omega
      have hp1 : i - 1 ≠ 1 := by omega
      have hpe : (i - 1) % 2 = 0 := by omega
      simp [ladder, hsym, Configuration.SYMMETRIC, Configuration.POSITIVE,
        Configuration.NEGATIVE, hi1, he, hp1, hpe]

/-- C7. In POSITIVE mode every rank `i > 1` is assigned `1 / (i - 1)`, in NEGATIVE
mode `-1 / (i - 1)`, and at every rank the NEGATIVE assignment is the negation of
the POSITIVE one. -/
theorem positive_negative_plan {R : Type} [Field R] (N i : Nat) (h1 : 1 < i) (hi : i < N) :
    (delegateWork (R := R) N Configuration.POSITIVE).assignment i
      = some ((1 : R) / (((i : Int) - 1 : Int) : R)) ∧
    (delegateWork (R := R) N Configuration.NEGATIVE).assignment i
      = some ((-1 : R) / (((i : Int) - 1 : Int) : R)) ∧
    ∀ rank, (delegateWork (R := R) N Configuration.NEGATIVE).assignment rank
      = ((delegateWork (R := R) N Configuration.POSITIVE).assignment rank).map
          (fun v => -v) := by
  have hi1 : i ≠ 1 := by omega
  refine ⟨?_, ?_, ?_⟩
  · rw [assignment_eq, if_pos ⟨by omega, hi⟩]
    simp [ladder, hi1]
  · rw [assignment_eq, if_pos ⟨by omega, hi⟩]
    simp [ladder, hi1, Configuration.NEGATIVE, Configuration.POSITIVE]
  · intro rank
    rw [assignment_eq, assignment_eq]
    by_cases h : 1 ≤ rank ∧ rank < N
    · rw [if_pos h, if_pos h]
      by_cases hr : rank = 1
      · simp [ladder, hr]
      · simp [ladder, hr, Configuration.NEGATIVE, Configuration.POSITIVE, neg_div]
    · rw [if_neg h, if_neg h]
      rfl

/-- C8. In SYMMETRIC mode, and for every mode value that is neither POSITIVE nor
NEGATIVE, every even rank `i ≥ 2` is assigned `1 / (i - 1)` and every odd rank
`i ≥ 3` is assigned the negation of the assignment of rank `i - 1`, which is
`-1 / (i - 2)`. -/
theorem symmetric_plan {R : Type} [Field R] (N : Nat) (sym : Symmetry)
    (hp : sym ≠ Configuration.POSITIVE) (hq : sym ≠ Configuration.NEGATIVE) :
    (∀ i, 2 ≤ i → i % 2 = 0 → i < N →
      (delegateWork (R := R) N sym).assignment i
        = some ((1 : R) / (((i : Int) - 1 : Int) : R))) ∧
    (∀ i, 3 ≤ i → i % 2 = 1 → i < N →
      ∃ v, (delegateWork (R := R) N sym).assignment (i - 1) = some v ∧
        (delegateWork (R := R) N sym).assignment i = some (-v) ∧
        -v = (-1 : R) / (((i : Int) - 2 : Int) : R)) := by
  refine ⟨?_, ?_⟩
  · intro i h2 he hi
    have hi1 : i ≠ 1 := by omega
    rw [assignment_eq, if_pos ⟨by omega, hi⟩]
    simp [ladder, hi1, hp, hq, he]
  · intro i h3 hodd hi
    have hi1 : i ≠ 1 := by omega
    have he : ¬ (i % 2 = 0) := by omega
    have hp1 : i - 1 ≠ 1 := by omega
    have hpe : (i - 1) % 2 = 0 := by omega
    have hcast : (((i - 1 : Nat) : Int) - 1 : Int) = (i : Int) - 2 := by omega
    refine ⟨ladder sym (i - 1), ?_, ?_, ?_⟩
    · rw [assignment_eq, if_pos ⟨by omega, by omega⟩]
    · rw [assignment_eq, if_pos ⟨by omega, hi⟩]
      simp [ladder, hp, hq, hi1, he, hp1, hpe]
    · simp only [ladder, hp, hq, hp1, hpe, if_true, if_false, hcast]
      rw [neg_div]

/-- C9 as stated fails: with six processes in SYMMETRIC mode rank 4 is assigned
`1 / 3` and rank 5 is assigned `-1 / 3`, not `0.5` and `-0.5`. -/
theorem symmetric_ladder_counterexample :
    (delegateWork (R := ℚ) 6 Configuration.SYMMETRIC).assignment 4 = some (1 / 3) ∧
    (delegateWork (R := ℚ) 6 Configuration.SYMMETRIC).assignment 5 = some (-1 / 3) ∧
    ¬ ((delegateWork (R := ℚ) 6 Configuration.SYMMETRIC).assignment 4 = some (1 / 2) ∧
       (delegateWork (R := ℚ) 6 Configuration.SYMMETRIC).assignment 5 = some (-1 / 2)) := by
  have h4 : (delegateWork (R := ℚ) 6 Configuration.SYMMETRIC).assignment 4 = some (1 / 3) := by
    rw [assignment_eq]
    norm_num [ladder, Configuration.SYMMETRIC, Configuration.POSITIVE, Configuration.NEGATIVE]
  have h5 : (delegateWork (R := ℚ) 6 Configuration.SYMMETRIC).assignment 5 = some (-1 / 3) := by
    rw [assignment_eq]
    norm_num [ladder, Configuration.SYMMETRIC, Configuration.POSITIVE, Configuration.NEGATIVE]
  refine ⟨h4, h5, ?_⟩
  rw [h4]
  intro h
  have h' := Option.some.inj h.1
  norm_num at h'

/-- C9, amended. In SYMMETRIC mode the assignments of the ranks 1, 2, 3, 4, 5 are
0, 1, -1, 1/3, -1/3, each for every worker count for which the rank exists. -/
theorem symmetric_ladder (N : Nat) :
    (1 < N → (delegateWork (R := ℚ) N Configuration.SYMMETRIC).assignment 1 = some 0) ∧
    (2 < N → (delegateWork (R := ℚ) N Configuration.SYMMETRIC).assignment 2 = some 1) ∧
    (3 < N → (delegateWork (R := ℚ) N Configuration.SYMMETRIC).assignment 3 = some (-1)) ∧
    (4 < N → (delegateWork (R := ℚ) N Configuration.SYMMETRIC).assignment 4 = some (1 / 3)) ∧
    (5 < N → (delegateWork (R := ℚ) N Configuration.SYMMETRIC).assignment 5
      = some (-1 / 3)) := by
  refine ⟨?_, ?_, ?_, ?_, ?_⟩ <;> intro h <;> rw [assignment_eq, if_pos ⟨by omega, h⟩] <;>
    norm_num [ladder, Configuration.SYMMETRIC, Configuration.POSITIVE, Configuration.NEGATIVE]

/-- C10. For a communicator of at most one process the loop of `delegateWork` does
not run: nothing is sent, no rank has an assignment, and `work` holds only the
initial `work[0] = 0`. -/
theorem empty_plan {R : Type} [Field R] (N : Nat) (sym : Symmetry) (hN : N ≤ 1) :
    (delegateWork (R := R) N sym).sent = [] ∧
    (∀ rank, (delegateWork (R := R) N sym).assignment rank = none) ∧
    (delegateWork (R := R) N sym).work = (List.replicate N none).set 0 (some 0) := by
  have h0 : N - 1 = 0 := by omega
  refine ⟨by simp [delegateWork, h0], ?_, by simp [delegateWork, h0]⟩
  intro rank
  rw [assignment_eq, if_neg (by omega)]

/-! ## Instances on sample data -/

/-- The sample parameter fits the wire. -/
theorem sampleParameter_sendable : sampleParameter.Sendable sampleParser := by
  refine ⟨by decide, by decide, fun _ vals h => ?_⟩
  have hv : sampleParser.getAllValues sampleParameter.name = .ok [2, 4, 6] := rfl
  rw [hv] at h
  cases h
  decide

/-- Every parameter of the sample list fits the wire. -/
theorem sampleParams_sendable : ∀ it ∈ [sampleParameter], it.Sendable sampleParser := by
  intro it hit
  rw [List.mem_singleton] at hit
  subst hit
  exact sampleParameter_sendable

/-- A parameter with SUM and MEAN over the series 2, 4, 6 makes the worker send the
sum 12 and the mean 4 and no other scalar. -/
theorem sum_mean_scenario :
    (calculateAndTxResults Rat.sqrt sampleParser
        [{ name := "PERM", pearson := "", stats := 0x03 }]).sent.map (fun m => m.payload)
      = [.unsigneds [1], .unsigneds [5], .bytes ['P', 'E', 'R', 'M', NUL], .unsigneds [3],
         .doubles [12], .doubles [4]] := by
  have hv : sampleParser.getAllValues "PERM" = .ok [2, 4, 6] := rfl
  have hsum : AnalyzeData.sum sampleParser "PERM" 0 = .ok 12 := by
    simp only [AnalyzeData.sum, hv]
    norm_num [AnalyzeData.sumVec, bind, Except.bind, pure, Except.pure]
  have hmean : AnalyzeData.mean sampleParser "PERM" 0 = .ok 4 := by
    simp only [AnalyzeData.mean, AnalyzeData.sum, hv]
    norm_num [AnalyzeData.sumVec, bind, Except.bind, pure, Except.pure]
  have hname : strncpy "PERM".data 4 ++ [NUL] = ['P', 'E', 'R', 'M', NUL] := by decide
  have hm : mpiCount 5 = .ok 5 := rfl
  have h1 : hasStat 3 Parameter.SUM = true := by decide
  have h2 : hasStat 3 Parameter.MEAN = true := by decide
  have h3 : hasStat 3 Parameter.VARIANCE = false := by decide
  have h4 : hasStat 3 Parameter.STDDEV = false := by decide
  have h5 : hasStat 3 Parameter.PEARSON = false := by decide
  have h6 : hasStat 3 Parameter.NORM = false := by decide
  have hl : "PERM".length = 4 := by decide
  simp [calculateAndTxResults, txParameters, txParameter, mpiSend, sendStat, sendGrid,
    hsum, hmean, hname, hm, h1, h2, h3, h4, h5, h6, hl, toUnsigned]

/-- The round trip of C1 on the sample parser and parameter. -/
theorem codec_round_trip_witness :
    ∃ (rs : List (Received ℚ)) (st : RxState ℚ) (c' : Collected ℚ),
      collectRank 1 (calculateAndTxResults Rat.sqrt sampleParser [sampleParameter]).sent
          { rows := [], fullGrids := [], gridNames := [] } = some (st, c') ∧
      c'.rows = [] ++ rs ∧
      List.Forall₂ (Agrees Rat.sqrt sampleParser) [sampleParameter] rs :=
  codec_round_trip Rat.sqrt sampleParser [sampleParameter] 1
    { rows := [], fullGrids := [], gridNames := [] } (by decide) sampleParams_sendable rfl

/-- The receive log of C2 on the sample parser and parameter. -/
theorem no_desynchronisation_witness :
    ∃ c' : Collected ℚ,
      collectRank 1 (calculateAndTxResults Rat.sqrt sampleParser [sampleParameter]).sent
          { rows := [], fullGrids := [], gridNames := [] }
        = some ({ queue := [],
                  log := (calculateAndTxResults Rat.sqrt sampleParser
                    [sampleParameter]).sent.map (fun m => m.payload.signature) }, c') :=
  no_desynchronisation Rat.sqrt sampleParser [sampleParameter] 1
    { rows := [], fullGrids := [], gridNames := [] } (by decide) sampleParams_sendable rfl

/-- The wire order of C3 on the sample parser and parameter. -/
theorem send_wire_order_witness :
    ∃ rs : List (Received ℚ), List.Forall₂ (Agrees Rat.sqrt sampleParser) [sampleParameter] rs ∧
      (calculateAndTxResults Rat.sqrt sampleParser [sampleParameter]).sent
        = tagged (.unsigneds [[sampleParameter].length] :: rs.flatMap resultFields) :=
  send_wire_order Rat.sqrt sampleParser [sampleParameter] (by decide) sampleParams_sendable rfl

/-- The name fields of C4 for the name PERM. -/
theorem name_field_witness :
    (∃ tail : List (Msg ℚ),
      (txParameter Rat.sqrt sampleParser sampleParameter { sent := [], failure := none }).sent
        = { tag := 1, payload := .unsigneds [sampleParameter.name.length + 1] }
          :: { tag := 1, payload := .bytes (sampleParameter.name.data ++ [NUL]) } :: tail) ∧
      (sampleParameter.name.data ++ [NUL]).length = sampleParameter.name.length + 1 ∧
      (sampleParameter.name.data ++ [NUL]).count NUL = 1 ∧
      cString (sampleParameter.name.data ++ [NUL]) = some sampleParameter.name :=
  name_field Rat.sqrt sampleParser sampleParameter { sent := [], failure := none }
    (by decide) (by decide)

/-- The plan of C6 for four processes in SYMMETRIC mode. -/
theorem delegateWork_plan_witness :
    (delegateWork (R := ℚ) 4 Configuration.SYMMETRIC).sent.length = 4 - 1 ∧
    (delegateWork (R := ℚ) 4 Configuration.SYMMETRIC).sent.map Prod.fst
      = List.range' 1 (4 - 1) ∧
    (delegateWork (R := ℚ) 4 Configuration.SYMMETRIC).assignment 1 = some 0 ∧
    (Configuration.SYMMETRIC = Configuration.SYMMETRIC → ∀ i, 2 < i → i % 2 = 1 → i < 4 →
      ∃ v, (delegateWork (R := ℚ) 4 Configuration.SYMMETRIC).assignment (i - 1) = some v ∧
        (delegateWork (R := ℚ) 4 Configuration.SYMMETRIC).assignment i = some (-v)) :=
  delegateWork_plan 4 Configuration.SYMMETRIC (by decide)

/-- The assignments of C7 for rank 3 of five processes. -/
theorem positive_negative_plan_witness :
    (delegateWork (R := ℚ) 5 Configuration.POSITIVE).assignment 3
      = some ((1 : ℚ) / (((3 : Nat) : Int) - 1 : Int)) ∧
    (delegateWork (R := ℚ) 5 Configuration.NEGATIVE).assignment 3
      = some ((-1 : ℚ) / (((3 : Nat) : Int) - 1 : Int)) ∧
    ∀ rank, (delegateWork (R := ℚ) 5 Configuration.NEGATIVE).assignment rank
      = ((delegateWork (R := ℚ) 5 Configuration.POSITIVE).assignment rank).map
          (fun v => -v) :=
  positive_negative_plan 5 3 (by decide) (by decide)

/-- The amended ladder of C9 at ranks 4 and 5 of six processes. -/
theorem symmetric_ladder_witness :
    (delegateWork (R := ℚ) 6 Configuration.SYMMETRIC).assignment 4 = some (1 / 3) ∧
    (delegateWork (R := ℚ) 6 Configuration.SYMMETRIC).assignment 5 = some (-1 / 3) :=
  ⟨(symmetric_ladder 6).2.2.2.1 (by decide), (symmetric_ladder 6).2.2.2.2 (by decide)⟩

/-- The empty plan of C10 for a single process. -/
theorem empty_plan_witness :
    (delegateWork (R := ℚ) 1 Configuration.NEGATIVE).sent = [] ∧
    (∀ rank, (delegateWork (R := ℚ) 1 Configuration.NEGATIVE).assignment rank = none) ∧
    (delegateWork (R := ℚ) 1 Configuration.NEGATIVE).work
      = (List.replicate 1 none).set 0 (some 0) :=
  empty_plan 1 Configuration.NEGATIVE (by decide)

/-- The grid block of C5 for the sample parameter, received from rank 2. -/
theorem grid_block_witness :
    ∃ r : Received ℚ,
      (txParameter Rat.sqrt sampleParser sampleParameter { sent := [], failure := none }).sent
        = tagged (resultFields r) ++ [] ∧
      (∀ q log, recvParameter { queue := tagged (resultFields r) ++ q, log := log }
        = some (r, { queue := q, log := log ++ (resultFields r).map Payload.signature })) ∧
      (hasStat sampleParameter.stats Parameter.NORM = true →
        ∃ vals, sampleParser.getAllValues sampleParameter.name = .ok vals ∧
          gridFields r.cellValues = [.unsigneds [vals.length], .doubles vals] ∧
          (storeParameter 2 r { rows := [], fullGrids := [], gridNames := [] }).fullGrids
            = [] ++ [{ stats := sampleParameter.stats, id := 2 - 1, values := vals }] ∧
          (storeParameter 2 r { rows := [], fullGrids := [], gridNames := [] }).gridNames
            = [] ++ [sampleParameter.name]) ∧
      (hasStat sampleParameter.stats Parameter.NORM = false →
        gridFields r.cellValues = [] ∧
          (storeParameter 2 r { rows := [], fullGrids := [], gridNames := [] }).fullGrids = [] ∧
          (storeParameter 2 r { rows := [], fullGrids := [], gridNames := [] }).gridNames
            = []) :=
  grid_block Rat.sqrt sampleParser sampleParameter { sent := [], failure := none } 2
    { rows := [], fullGrids := [], gridNames := [] } sampleParameter_sendable rfl

/-- The assignments of C8 for six processes in SYMMETRIC mode. -/
theorem symmetric_plan_witness :
    (∀ i, 2 ≤ i → i % 2 = 0 → i < 6 →
      (delegateWork (R := ℚ) 6 Configuration.SYMMETRIC).assignment i
        = some ((1 : ℚ) / (((i : Int) - 1 : Int) : ℚ))) ∧
    (∀ i, 3 ≤ i → i % 2 = 1 → i < 6 →
      ∃ v, (delegateWork (R := ℚ) 6 Configuration.SYMMETRIC).assignment (i - 1) = some v ∧
        (delegateWork (R := ℚ) 6 Configuration.SYMMETRIC).assignment i = some (-v) ∧
        -v = (-1 : ℚ) / (((i : Int) - 2 : Int) : ℚ)) :=
  symmetric_plan 6 Configuration.SYMMETRIC (by decide) (by decide)

/-! ## computeNorm: C14 and C15 -/

/-- The loop of `computeNorm` adds the squared differences to its start value. -/
theorem normLoop_eq {R : Type} [Field R] (l : List (R × R)) (a : R) :
    l.foldl (fun ret xy =>
      let tmp := xy.1 - xy.2
      let tmp := tmp * tmp
      ret + tmp) a = a + (l.map (fun xy => (xy.1 - xy.2) ^ 2)).sum := by
  induction l generalizing a with
  | nil => simp
  | cons p l ih =>
    simp only [List.foldl_cons, List.map_cons, List.sum_cons]
    rw [ih]
    ring

/-- The squared differences of two series of equal length, summed over the zipped
pairs, is the sum over all indices. -/
theorem zip_sum_eq_index_sum {R : Type} [Field R] (x y : List R) (h : x.length = y.length) :
    ((List.zip x y).map (fun xy => (xy.1 - xy.2) ^ 2)).sum
      = ∑ i in Finset.range x.length, (x.getD i 0 - y.getD i 0) ^ 2 := by
  induction x generalizing y with
  | nil => simp
  | cons a xs ih =>
    cases y with
    | nil => simp at h
    | cons b ys =>
      have h' : xs.length = ys.length := by simpa using h
      simp only [List.zip_cons_cons, List.map_cons, List.sum_cons, List.length_cons]
      rw [Finset.sum_range_succ', ih ys h']
      simp [add_comm]

/-- The value `computeNorm` returns for series of equal length. -/
theorem computeNorm_ok {R : Type} [Field R] (sqrt : R → R) (x y : List R)
    (h : x.length = y.length) :
    AnalyzeData.computeNorm sqrt x y
      = .ok (sqrt (∑ i in Finset.range x.length, (x.getD i 0 - y.getD i 0) ^ 2)) := by
  have hne : ¬ (x.length ≠ y.length) := fun hn => hn h
  simp only [AnalyzeData.computeNorm, hne, if_false]
  rw [normLoop_eq, zero_add, zip_sum_eq_index_sum x y h]

/-- With the real square root, `computeNorm [1,2,3] [1,2,5]` is 2. -/
theorem computeNorm_example :
    AnalyzeData.computeNorm Real.sqrt [1, 2, 3] [1, 2, 5] = .ok (2 : ℝ) := by
  rw [computeNorm_ok Real.sqrt [1, 2, 3] [1, 2, 5] rfl]
  have h4 : (∑ i in Finset.range ([1, 2, 3] : List ℝ).length,
      (([1, 2, 3] : List ℝ).getD i 0 - ([1, 2, 5] : List ℝ).getD i 0) ^ 2) = 2 ^ 2 := by
    simp [Finset.sum_range_succ]
    norm_num
  rw [h4, Real.sqrt_sq (by norm_num)]

/-- C14. For two series of equal length `computeNorm` is the square root of the sum,
over all indices `i`, of `(x[i] - y[i])^2`; with the real square root,
`computeNorm [1,2,3] [1,2,5]` is 2. -/
theorem computeNorm_formula {R : Type} [Field R] (sqrt : R → R) (x y : List R)
    (h : x.length = y.length) :
    AnalyzeData.computeNorm sqrt x y
      = .ok (sqrt (∑ i in Finset.range x.length, (x.getD i 0 - y.getD i 0) ^ 2)) ∧
    AnalyzeData.computeNorm Real.sqrt [1, 2, 3] [1, 2, 5] = .ok (2 : ℝ) := by
  exact ⟨computeNorm_ok sqrt x y h, computeNorm_example⟩

/-- C15. With a square root that maps 0 to 0, `computeNorm x x` is 0 for every
series `x`, the empty one included. -/
theorem computeNorm_self {R : Type} [Field R] (sqrt : R → R) (hs : sqrt 0 = 0)
    (x : List R) : AnalyzeData.computeNorm sqrt x x = .ok 0 := by
  rw [computeNorm_ok sqrt x x rfl]
  simp [hs]

/-- Whether `computeNorm` fails is decided by the two lengths alone. -/
theorem computeNorm_error_iff {R : Type} [Field R] (sqrt : R → R) (x y : List R) :
    (x.length ≠ y.length → AnalyzeData.computeNorm sqrt x y = .error Failure.assertion) ∧
    (x.length = y.length → ∃ v, AnalyzeData.computeNorm sqrt x y = .ok v) := by
  refine ⟨fun hne => ?_, fun h => ⟨_, computeNorm_ok sqrt x y h⟩⟩
  simp [AnalyzeData.computeNorm, hne]

/-! ## The statistics: C17 to C20 -/

/-- A left-to-right running sum is the sum of the list. -/
theorem foldl_add_eq_sum {R : Type} [Field R] (l : List R) (a : R) :
    l.foldl (fun ret x => ret + x) a = a + l.sum := by
  induction l generalizing a with
  | nil => simp
  | cons b l ih =>
    simp only [List.foldl_cons, List.sum_cons]
    rw [ih]
    ring

/-- The sample size a statistic uses: the whole series when `n` is 0 or exceeds the
length, and `n` otherwise. -/
theorem window_idem (len n : Nat) :
    (if (if n = 0 ∨ n > len then len else n) = 0 ∨ (if n = 0 ∨ n > len then len else n) > len
      then len else (if n = 0 ∨ n > len then len else n))
      = if n = 0 ∨ n > len then len else n := by
  split_ifs <;> omega

/-- The value of `sum(key, n)` as the source computes it, and the same value as the
sum of the window. -/
theorem sum_eq {R : Type} [Field R] (data : UTChemParser R) (key : String) (n : Nat)
    (vals : List R) (h : data.getAllValues key = .ok vals) :
    AnalyzeData.sum data key n
      = .ok ((vals.take (if n = 0 ∨ n > vals.length then vals.length else n)).foldl
          (fun ret x => ret + x) 0) ∧
    (vals.take (if n = 0 ∨ n > vals.length then vals.length else n)).foldl
        (fun ret x => ret + x) 0
      = (vals.take (if n = 0 ∨ n > vals.length then vals.length else n)).sum := by
  refine ⟨?_, ?_⟩
  · simp only [AnalyzeData.sum, h, AnalyzeData.sumVec]
    rfl
  · rw [foldl_add_eq_sum, zero_add]

/-- C17. `sum(key, n)` adds, from left to right, the first `m` elements of
`getAllValues(key)`, where `m` is the length when `n = 0` or `n` exceeds it and `n`
otherwise; the result is the sum of those elements. -/
theorem sum_window {R : Type} [Field R] (data : UTChemParser R) (key : String) (n : Nat)
    (vals : List R) (h : data.getAllValues key = .ok vals) :
    AnalyzeData.sum data key n
      = .ok ((vals.take (if n = 0 ∨ n > vals.length then vals.length else n)).foldl
          (fun ret x => ret + x) 0) ∧
    (vals.take (if n = 0 ∨ n > vals.length then vals.length else n)).foldl
        (fun ret x => ret + x) 0
      = (vals.take (if n = 0 ∨ n > vals.length then vals.length else n)).sum := by
  refine ⟨?_, ?_⟩
  · simp only [AnalyzeData.sum, h, AnalyzeData.sumVec]
    rfl
  · rw [foldl_add_eq_sum, zero_add]

/-- The value of `mean` in closed form. -/
theorem mean_eq {R : Type} [Field R] (data : UTChemParser R) (key : String) (n : Nat)
    (vals : List R) (h : data.getAllValues key = .ok vals) :
    AnalyzeData.mean data key n
      = .ok ((vals.take (if n = 0 ∨ n > vals.length then vals.length else n)).sum
          / ((if n = 0 ∨ n > vals.length then vals.length else n : Nat) : R)) := by
  have hw : (if n < 1 ∨ n > vals.length then vals.length else n)
      = (if n = 0 ∨ n > vals.length then vals.length else n) := by
    split_ifs <;> omega
  have hs := (sum_eq data key (if n = 0 ∨ n > vals.length then vals.length else n)
    vals h)
  rw [window_idem] at hs
  unfold AnalyzeData.mean
  rw [h]
  simp only [bind, Except.bind]
  rw [hw, hs.1]
  simp only [hs.2]
  rfl

/-- C18. For a non-empty series, `mean(key, n)` is `sum(key, m) / m` for the resolved
window `m` (the length when `n = 0` or `n` exceeds it, `n` otherwise, never 0); the
mean of the series 2, 4, 6 is 4. -/
theorem mean_window {R : Type} [Field R] (data : UTChemParser R) (key : String) (n : Nat)
    (vals : List R) (h : data.getAllValues key = .ok vals) (hne : vals ≠ []) :
    (∃ s, AnalyzeData.sum data key (if n = 0 ∨ n > vals.length then vals.length else n)
        = .ok s ∧
      AnalyzeData.mean data key n
        = .ok (s / ((if n = 0 ∨ n > vals.length then vals.length else n : Nat) : R))) ∧
    0 < (if n = 0 ∨ n > vals.length then vals.length else n) ∧
    AnalyzeData.mean sampleParser "PERM" 0 = .ok 4 := by
  have hlen : 0 < vals.length := List.length_pos.mpr hne
  have hs := (sum_eq data key (if n = 0 ∨ n > vals.length then vals.length else n)
    vals h)
  rw [window_idem] at hs
  refine ⟨⟨_, hs.1, ?_⟩, by split_ifs <;> omega, ?_⟩
  · rw [hs.2]
    exact mean_eq data key n vals h
  · have hv : sampleParser.getAllValues "PERM" = .ok [2, 4, 6] := rfl
    rw [mean_eq sampleParser "PERM" 0 [2, 4, 6] hv]
    norm_num

/-- The value of `variance` in closed form. -/
theorem variance_eq {R : Type} [Field R] (data : UTChemParser R) (key : String) (n : Nat)
    (vals : List R) (h : data.getAllValues key = .ok vals) :
    AnalyzeData.variance data key n
      = .ok (((vals.take (if n = 0 ∨ n > vals.length then vals.length else n)).map
            (fun x => x * x)).sum
          / ((if n = 0 ∨ n > vals.length then vals.length else n : Nat) : R)
          - (vals.take (if n = 0 ∨ n > vals.length then vals.length else n)).sum
              / ((if n = 0 ∨ n > vals.length then vals.length else n : Nat) : R)
            * ((vals.take (if n = 0 ∨ n > vals.length then vals.length else n)).sum
              / ((if n = 0 ∨ n > vals.length then vals.length else n : Nat) : R))) := by
  have hsq : ∀ (l : List R) (a : R),
      l.foldl (fun ret x => ret + x * x) a = a + (l.map (fun x => x * x)).sum := by
    intro l
    induction l with
    | nil => intro a; simp
    | cons b l ih =>
      intro a
      simp only [List.foldl_cons, List.map_cons, List.sum_cons]
      rw [ih]
      ring
  unfold AnalyzeData.variance
  rw [mean_eq data key n vals h, h]
  simp only [bind, Except.bind, hsq, zero_add]
  rfl

/-- C19. For a non-empty series, `variance(key, n)` is the sum of the squares of the
first `m` elements divided by `m`, minus the square of `mean(key, n)`, and that mean
is the sum of the same first `m` elements divided by `m`. -/
theorem variance_window {R : Type} [Field R] (data : UTChemParser R) (key : String)
    (n : Nat) (vals : List R) (h : data.getAllValues key = .ok vals) (hne : vals ≠ []) :
    ∃ mval, AnalyzeData.mean data key n = .ok mval ∧
      mval = (vals.take (if n = 0 ∨ n > vals.length then vals.length else n)).sum
          / ((if n = 0 ∨ n > vals.length then vals.length else n : Nat) : R) ∧
      AnalyzeData.variance data key n
        = .ok (((vals.take (if n = 0 ∨ n > vals.length then vals.length else n)).map
              (fun x => x * x)).sum
            / ((if n = 0 ∨ n > vals.length then vals.length else n : Nat) : R)
            - mval * mval) ∧
      0 < (if n = 0 ∨ n > vals.length then vals.length else n) := by
  have hlen : 0 < vals.length := List.length_pos.mpr hne
  exact ⟨_, mean_eq data key n vals h, rfl, variance_eq data key n vals h,
    by split_ifs <;> omega⟩

/-- C20. Whenever `variance(key, n)` returns a value, `stddev(key, n)` returns the
square root of that value. -/
theorem stddev_sqrt {R : Type} [Field R] (sqrt : R → R) (data : UTChemParser R)
    (key : String) (n : Nat) (v : R) (h : AnalyzeData.variance data key n = .ok v) :
    AnalyzeData.stddev sqrt data key n = .ok (sqrt v) := by
  simp only [AnalyzeData.stddev, h]
  rfl

/-! ## The similarity loops as a list of attempts -/

/-- Clearing NORM clears it. -/
theorem hasStat_clearNorm (s : Nat) : hasStat (clearNorm s) Parameter.NORM = false := by
  have h : (2 ^ 32 - 1 - Parameter.NORM) &&& Parameter.NORM = 0 := by decide
  unfold hasStat clearNorm
  rw [Nat.and_assoc, h, Nat.and_zero]
  rfl

/-- An entry the outer loop has passed no longer carries NORM. -/
theorem hasStat_clearedEntry {R : Type} (e : GridEntry R) :
    hasStat (clearedEntry e).stats Parameter.NORM = false := by
  unfold clearedEntry
  split
  · exact hasStat_clearNorm _
  · simpa using ‹¬ hasStat e.stats Parameter.NORM = true›

/-- After a failure no attempt has any effect. -/
theorem absorb_failed {α : Type} (as : List (Except Failure α)) (o : List α × Option Failure)
    (h : o.2.isSome = true) : as.foldl absorbStep o = o := by
  induction as with
  | nil => rfl
  | cons a as ih =>
    rw [List.foldl_cons]
    have : absorbStep o a = o := by simp [absorbStep, h]
    rw [this, ih]

/-- One iteration of the inner loop performs its attempt and leaves the grids. -/
theorem innerStep_out {R : Type} [Field R] (sqrt : R → R) (N : List String) (i : Nat)
    (it : GridEntry R) (st : SimilarityState R) (j : Nat) :
    (similarityInnerStep sqrt N i it st j).fullGrids = st.fullGrids ∧
    (similarityInnerStep sqrt N i it st j).out
      = match innerAttempt sqrt N st.fullGrids i it j with
        | none => st.out
        | some a => absorbStep st.out a := by
  unfold similarityInnerStep innerAttempt
  by_cases hf : st.failure.isSome = true
  · simp only [hf, if_true, true_and]
    cases hg : st.fullGrids.get? j with
    | none => rfl
    | some itt =>
      simp only []
      split_ifs
      · rfl
      · simp [absorbStep, SimilarityState.out, hf]
  · simp only [hf, Bool.false_eq_true, if_false]
    cases hg : st.fullGrids.get? j with
    | none => exact ⟨rfl, rfl⟩
    | some itt =>
      simp only []
      split_ifs
      · exact ⟨rfl, rfl⟩
      · cases hc : AnalyzeData.computeNorm sqrt it.values itt.values <;>
          simp [absorbStep, SimilarityState.out, hf]

/-- The inner loop performs, in order, the attempts of its iterations. -/
theorem innerLoop_out {R : Type} [Field R] (sqrt : R → R) (N : List String) (i : Nat)
    (it : GridEntry R) (l : List Nat) (st : SimilarityState R) :
    (l.foldl (similarityInnerStep sqrt N i it) st).fullGrids = st.fullGrids ∧
    (l.foldl (similarityInnerStep sqrt N i it) st).out
      = (l.filterMap (innerAttempt sqrt N st.fullGrids i it)).foldl absorbStep st.out := by
  induction l generalizing st with
  | nil => exact ⟨rfl, rfl⟩
  | cons j l ih =>
    obtain ⟨hg, ho⟩ := innerStep_out sqrt N i it st j
    obtain ⟨hg2, ho2⟩ := ih (similarityInnerStep sqrt N i it st j)
    rw [List.foldl_cons]
    refine ⟨hg2.trans hg, ?_⟩
    rw [ho2, hg, ho, List.filterMap_cons]
    cases innerAttempt sqrt N st.fullGrids i it j <;> rfl

/-- Liveness of an existing entry is its NORM bit. -/
theorem liveAt_some {R : Type} (G : List (GridEntry R)) (i : Nat) (e : GridEntry R)
    (h : G.get? i = some e) : liveAt G i = hasStat e.stats Parameter.NORM := by
  unfold liveAt
  rw [h]

/-- There is no live entry outside the vector. -/
theorem liveAt_none {R : Type} (G : List (GridEntry R)) (i : Nat)
    (h : G.get? i = none) : liveAt G i = false := by
  unfold liveAt
  rw [h]

/-- The pairing condition spelled out. -/
theorem pairsWith_iff {R : Type} (G : List (GridEntry R)) (N : List String) (i j : Nat) :
    pairsWith G N i j = true
      ↔ i < j ∧ liveAt G i = true ∧ liveAt G j = true ∧ N.getD i "" = N.getD j "" := by
  unfold pairsWith
  rw [Bool.and_eq_true, Bool.and_eq_true, Bool.and_eq_true, decide_eq_true_iff,
    decide_eq_true_iff]

/-- The attempt at a pair of existing entries. -/
theorem attemptAt_some {R : Type} [Field R] (sqrt : R → R) (G : List (GridEntry R))
    (N : List String) (i j : Nat) (e1 e2 : GridEntry R)
    (h1 : G.get? i = some e1) (h2 : G.get? j = some e2) :
    attemptAt sqrt G N (i, j)
      = match AnalyzeData.computeNorm sqrt e1.values e2.values with
        | .ok norm => .ok (i, j, { name := N.getD i "", id1 := e1.id, id2 := e2.id,
                                   norm := norm })
        | .error e => .error e := by
  unfold attemptAt
  simp only [h1, h2]

/-- Inside iteration `i` of the outer loop, the inner iteration `j` attempts
exactly the pair `(i, j)` when the pass pairs `i` with `j`. -/
theorem innerAttempt_eq {R : Type} [Field R] (sqrt : R → R) (G : List (GridEntry R))
    (N : List String) (i : Nat) (e : GridEntry R) (grids : List (GridEntry R))
    (hi : G.get? i = some e) (hlive : hasStat e.stats Parameter.NORM = true)
    (hgrids : ∀ j, grids.get? j
      = if j = i then some { e with stats := clearNorm e.stats }
        else if j < i then (G.get? j).map clearedEntry else G.get? j)
    (j : Nat) :
    innerAttempt sqrt N grids i { e with stats := clearNorm e.stats } j
      = (if pairsWith G N i j then some (i, j) else none).map (attemptAt sqrt G N) := by
  have hli : liveAt G i = true := by rw [liveAt_some G i e hi, hlive]
  have hskip : ∀ (hp : pairsWith G N i j = false),
      (if pairsWith G N i j then some (i, j) else none).map (attemptAt sqrt G N) = none := by
    intro hp
    rw [hp]
    rfl
  unfold innerAttempt
  rw [hgrids j]
  by_cases hji : j = i
  · have hp : pairsWith G N i j = false := by
      rw [Bool.eq_false_iff, Ne, pairsWith_iff]
      omega
    rw [hskip hp, if_pos hji]
    simp only []
    rw [if_pos (Or.inl hji)]
  · rw [if_neg hji]
    by_cases hlt : j < i
    · have hp : pairsWith G N i j = false := by
        rw [Bool.eq_false_iff, Ne, pairsWith_iff]
        omega
      rw [hskip hp, if_pos hlt]
      cases hj : G.get? j with
      | none => rfl
      | some e2 =>
        simp only [Option.map_some']
        rw [if_pos (Or.inr (Or.inl (hasStat_clearedEntry e2)))]
    · rw [if_neg hlt]
      have hij : i < j := by omega
      cases hj : G.get? j with
      | none =>
        have hp : pairsWith G N i j = false := by
          rw [Bool.eq_false_iff, Ne, pairsWith_iff, liveAt_none G j hj]
          simp
        rw [hskip hp]
      | some e2 =>
        simp only []
        by_cases hc : j = i ∨ hasStat e2.stats Parameter.NORM = false
            ∨ N.getD i "" ≠ N.getD j ""
        · have hp : pairsWith G N i j = false := by
            rw [Bool.eq_false_iff, Ne, pairsWith_iff, liveAt_some G j e2 hj]
            rintro ⟨_, _, h2, hn⟩
            rcases hc with h | h | h
            · exact hji h
            · rw [h2] at h
              exact Bool.noConfusion h
            · exact h hn
          rw [hskip hp, if_pos hc]
        · have hp : pairsWith G N i j = true := by
            rw [pairsWith_iff, liveAt_some G j e2 hj]
            refine ⟨hij, hli, ?_, ?_⟩
            · cases h : hasStat e2.stats Parameter.NORM
              · exact absurd (Or.inr (Or.inl h)) hc
              · rfl
            · by_contra hn
              exact hc (Or.inr (Or.inr hn))
          rw [if_neg hc, hp, if_pos rfl, Option.map_some', attemptAt_some sqrt G N i j e e2 hi hj]

/-- The attempts of iteration `i` of the outer loop. -/
theorem stepAttempts_eq {R : Type} [Field R] (sqrt : R → R) (G : List (GridEntry R))
    (N : List String) (i : Nat) (e : GridEntry R) (grids : List (GridEntry R))
    (hi : G.get? i = some e) (hlive : hasStat e.stats Parameter.NORM = true)
    (hgrids : ∀ j, grids.get? j
      = if j = i then some { e with stats := clearNorm e.stats }
        else if j < i then (G.get? j).map clearedEntry else G.get? j)
    (l : List Nat) :
    l.filterMap (innerAttempt sqrt N grids i { e with stats := clearNorm e.stats })
      = (l.filterMap (fun j => if pairsWith G N i j then some (i, j) else none)).map
          (attemptAt sqrt G N) := by
  rw [List.map_filterMap]
  apply List.filterMap_congr
  intro j _
  exact innerAttempt_eq sqrt G N i e grids hi hlive hgrids j

/-- The grids after the iterations before `i`: the entries before `i` cleared. -/
theorem cleared_succ {R : Type} (G : List (GridEntry R)) (i : Nat) (e : GridEntry R)
    (he : G.get? i = some e) (x : Option (GridEntry R)) (hx : x = some (clearedEntry e))
    (j : Nat) :
    (if j = i then x else if j < i then (G.get? j).map clearedEntry else G.get? j)
      = if j < i + 1 then (G.get? j).map clearedEntry else G.get? j := by
  by_cases hji : j = i
  · subst hji
    rw [if_pos rfl, if_pos (Nat.lt_succ_self j), he, hx]
    rfl
  · rw [if_neg hji]
    by_cases hlt : j < i
    · rw [if_pos hlt, if_pos (by omega)]
    · rw [if_neg hlt, if_neg (by omega)]

/-- One iteration of the outer loop, started without failure on grids whose
entries before `i` are cleared, performs the attempts of the pairs `(i, j)` and
leaves the entries up to `i` cleared. -/
theorem similarityStep_out {R : Type} [Field R] (sqrt : R → R) (G : List (GridEntry R))
    (N : List String) (i : Nat) (st : SimilarityState R) (hi : i < G.length)
    (hf : st.failure = none) (hlen : st.fullGrids.length = G.length)
    (hgrids : ∀ j, st.fullGrids.get? j
      = if j < i then (G.get? j).map clearedEntry else G.get? j) :
    (similarityStep sqrt N st i).fullGrids.length = G.length ∧
    (∀ j, (similarityStep sqrt N st i).fullGrids.get? j
      = if j < i + 1 then (G.get? j).map clearedEntry else G.get? j) ∧
    (similarityStep sqrt N st i).out
      = (((List.range G.length).filterMap
            (fun j => if pairsWith G N i j then some (i, j) else none)).map
          (attemptAt sqrt G N)).foldl absorbStep st.out := by
  obtain ⟨e, he⟩ : ∃ e, G.get? i = some e := ⟨G.get ⟨i, hi⟩, List.get?_eq_get hi⟩
  have hsti : st.fullGrids.get? i = some e := by
    rw [hgrids i, if_neg (Nat.lt_irrefl i), he]
  have hfs : st.failure.isSome = false := by rw [hf]; rfl
  unfold similarityStep
  rw [hfs, hsti]
  simp only [Bool.false_eq_true, if_false]
  by_cases hlive : hasStat e.stats Parameter.NORM = true
  · rw [if_pos hlive]
    have hset : ∀ j, (st.fullGrids.set i { e with stats := clearNorm e.stats }).get? j
        = if j = i then some { e with stats := clearNorm e.stats }
          else if j < i then (G.get? j).map clearedEntry else G.get? j := by
      intro j
      rw [List.get?_eq_getElem?, List.getElem?_set]
      by_cases hji : i = j
      · subst hji
        rw [if_pos rfl, if_pos rfl, if_pos (by omega)]
      · have hji' : ¬ j = i := fun h => hji h.symm
        rw [if_neg hji, if_neg hji', ← List.get?_eq_getElem?, hgrids j]
    have hce : (some { e with stats := clearNorm e.stats } : Option (GridEntry R))
        = some (clearedEntry e) := by
      unfold clearedEntry
      rw [if_pos hlive]
    obtain ⟨hg, ho⟩ := innerLoop_out sqrt N i { e with stats := clearNorm e.stats }
      (List.range (st.fullGrids.set i { e with stats := clearNorm e.stats }).length)
      { st with fullGrids := st.fullGrids.set i { e with stats := clearNorm e.stats } }
    refine ⟨?_, ?_, ?_⟩
    · rw [hg]
      simp only [List.length_set]
      exact hlen
    · intro j
      rw [hg]
      simp only []
      rw [hset j]
      exact cleared_succ G i e he _ hce j
    · rw [ho]
      simp only []
      rw [stepAttempts_eq sqrt G N i e _ he hlive hset, List.length_set, hlen]
      rfl
  · rw [if_neg hlive]
    have hce : (some e : Option (GridEntry R)) = some (clearedEntry e) := by
      unfold clearedEntry
      rw [if_neg hlive]
    refine ⟨hlen, ?_, ?_⟩
    · intro j
      rw [hgrids j, ← cleared_succ G i e he (some e) hce j]
      by_cases hji : j = i
      · subst hji
        rw [if_neg (Nat.lt_irrefl j), if_pos rfl, he]
      · rw [if_neg hji]
    · have hnone : (List.range G.length).filterMap
          (fun j => if pairsWith G N i j then some (i, j) else none) = [] := by
        rw [List.filterMap_eq_nil_iff]
        intro j _
        have hp : pairsWith G N i j = false := by
          rw [Bool.eq_false_iff, Ne, pairsWith_iff, liveAt_some G i e he]
          rintro ⟨_, h, _⟩
          exact hlive h
        rw [hp]
        rfl
      rw [hnone]
      rfl

/-- An iteration of the outer loop does nothing after a failure. -/
theorem similarityStep_failed {R : Type} [Field R] (sqrt : R → R) (N : List String)
    (st : SimilarityState R) (i : Nat) (h : st.failure.isSome = true) :
    similarityStep sqrt N st i = st := by
  unfold similarityStep
  rw [if_pos h]

/-- Invariant of the outer loop after the iterations `0 .. m - 1`. -/
theorem similarityLoop_inv {R : Type} [Field R] (sqrt : R → R) (G : List (GridEntry R))
    (N : List String) (m : Nat) (hm : m ≤ G.length) :
    ((List.range m).foldl (similarityStep sqrt N)
        { fullGrids := G, rows := [], failure := none }).out
      = (((List.range m).flatMap (fun i => (List.range G.length).filterMap
            (fun j => if pairsWith G N i j then some (i, j) else none))).map
          (attemptAt sqrt G N)).foldl absorbStep ([], none) ∧
    (((List.range m).foldl (similarityStep sqrt N)
        { fullGrids := G, rows := [], failure := none }).failure = none →
      ((List.range m).foldl (similarityStep sqrt N)
        { fullGrids := G, rows := [], failure := none }).fullGrids.length = G.length ∧
      ∀ j, ((List.range m).foldl (similarityStep sqrt N)
        { fullGrids := G, rows := [], failure := none }).fullGrids.get? j
          = if j < m then (G.get? j).map clearedEntry else G.get? j) := by
  induction m with
  | zero =>
    refine ⟨rfl, fun _ => ⟨rfl, fun j => ?_⟩⟩
    rw [if_neg (Nat.not_lt_zero j)]
    rfl
  | succ m ih =>
    obtain ⟨hout, hinv⟩ := ih (by omega)
    rw [List.range_succ, List.foldl_append, List.flatMap_append, List.map_append,
      List.foldl_append, ← hout]
    simp only [List.foldl_cons, List.foldl_nil, List.flatMap_cons, List.flatMap_nil,
      List.append_nil]
    generalize (List.range m).foldl (similarityStep sqrt N)
      { fullGrids := G, rows := [], failure := none } = st at hout hinv
    cases hf : st.failure with
    | some e =>
      have hs : st.failure.isSome = true := by rw [hf]; rfl
      rw [similarityStep_failed sqrt N st m hs]
      refine ⟨?_, fun h => ?_⟩
      · rw [absorb_failed _ st.out hs]
      · rw [hf] at h
        exact Option.noConfusion h
    | none =>
      obtain ⟨hlen, hgrids⟩ := hinv hf
      obtain ⟨h1, h2, h3⟩ := similarityStep_out sqrt G N m st (by omega) hf hlen hgrids
      exact ⟨h3, fun _ => ⟨h1, h2⟩⟩

/-- The similarity pass performs, in the order of its loops, the attempts at the
pairs it pairs, up to the first failure. -/
theorem similarityPass_out {R : Type} [Field R] (sqrt : R → R) (G : List (GridEntry R))
    (N : List String) :
    (similarityPass sqrt G N).out
      = ((similarityPairs G N).map (attemptAt sqrt G N)).foldl absorbStep ([], none) :=
  (similarityLoop_inv sqrt G N G.length (le_refl _)).1

/-- Every row written comes from a successful attempt. -/
theorem absorb_rows_sound {α : Type} (as : List (Except Failure α))
    (o : List α × Option Failure) (r : α) (hr : r ∈ (as.foldl absorbStep o).1) :
    r ∈ o.1 ∨ Except.ok r ∈ as := by
  induction as generalizing o with
  | nil => exact Or.inl hr
  | cons a as ih =>
    rw [List.foldl_cons] at hr
    rcases ih (absorbStep o a) hr with h | h
    · unfold absorbStep at h
      split at h
      · exact Or.inl h
      · cases a with
        | error e => exact Or.inl h
        | ok row =>
          simp only [List.mem_append, List.mem_singleton] at h
          rcases h with h | h
          · exact Or.inl h
          · exact Or.inr (h ▸ List.mem_cons_self _ _)
    · exact Or.inr (List.mem_cons_of_mem _ h)

/-- When no failure is left at the end, every attempt succeeded and the rows
written are the results of all attempts, in order. -/
theorem absorb_complete {α : Type} (as : List (Except Failure α))
    (o : List α × Option Failure) (h : (as.foldl absorbStep o).2 = none) :
    o.2 = none ∧ ∃ rs : List α, as = rs.map Except.ok ∧ (as.foldl absorbStep o).1 = o.1 ++ rs := by
  induction as generalizing o with
  | nil => exact ⟨h, [], rfl, by simp⟩
  | cons a as ih =>
    rw [List.foldl_cons] at h ⊢
    obtain ⟨h1, rs, hrs, hrows⟩ := ih (absorbStep o a) h
    have ho : o.2 = none := by
      cases ho : o.2 with
      | none => rfl
      | some e =>
        have : absorbStep o a = o := by simp [absorbStep, ho]
        rw [this, ho] at h1
        exact Option.noConfusion h1
    have hs : o.2.isSome = false := by rw [ho]; rfl
    cases a with
    | error e =>
      have : (absorbStep o (Except.error e)).2 = some e := by
        simp [absorbStep, hs]
      rw [this] at h1
      exact Option.noConfusion h1
    | ok row =>
      have hstep : absorbStep o (Except.ok row) = (o.1 ++ [row], o.2) := by
        simp [absorbStep, hs]
      refine ⟨ho, row :: rs, by rw [hrs]; rfl, ?_⟩
      rw [hrows, hstep]
      simp

/-- What a successful attempt writes. -/
theorem attemptAt_ok {R : Type} [Field R] (sqrt : R → R) (G : List (GridEntry R))
    (N : List String) (p : Nat × Nat) (r : Nat × Nat × SimilarityRecord R)
    (h : attemptAt sqrt G N p = .ok r) :
    ∃ e1 e2 norm, G.get? p.1 = some e1 ∧ G.get? p.2 = some e2 ∧
      AnalyzeData.computeNorm sqrt e1.values e2.values = .ok norm ∧
      r = (p.1, p.2, { name := N.getD p.1 "", id1 := e1.id, id2 := e2.id, norm := norm }) := by
  cases h1 : G.get? p.1 with
  | none =>
    simp only [attemptAt, h1] at h
    exact Except.noConfusion h
  | some e1 =>
    cases h2 : G.get? p.2 with
    | none =>
      simp only [attemptAt, h1, h2] at h
      exact Except.noConfusion h
    | some e2 =>
      have hp : p = (p.1, p.2) := rfl
      rw [hp, attemptAt_some sqrt G N p.1 p.2 e1 e2 h1 h2] at h
      cases hc : AnalyzeData.computeNorm sqrt e1.values e2.values with
      | error e =>
        rw [hc] at h
        exact Except.noConfusion h
      | ok norm =>
        rw [hc] at h
        exact ⟨e1, e2, norm, rfl, rfl, hc, (Except.ok.inj h).symm⟩

/-- Which pairs the pass pairs. -/
theorem mem_similarityPairs {R : Type} (G : List (GridEntry R)) (N : List String)
    (i j : Nat) :
    (i, j) ∈ similarityPairs G N ↔ pairsWith G N i j = true := by
  unfold similarityPairs
  simp only [List.mem_flatMap, List.mem_filterMap, List.mem_range]
  constructor
  · rintro ⟨a, _, b, _, hb⟩
    by_cases hp : pairsWith G N a b = true
    · rw [if_pos hp] at hb
      cases hb
      exact hp
    · rw [if_neg hp] at hb
      exact Option.noConfusion hb
  · intro hp
    obtain ⟨hij, hli, hlj, _⟩ := (pairsWith_iff G N i j).mp hp
    have hlt : ∀ k, liveAt G k = true → k < G.length := by
      intro k hk
      by_contra hge
      have : G.get? k = none := List.get?_eq_none.mpr (by omega)
      rw [liveAt_none G k this] at hk
      exact Bool.noConfusion hk
    exact ⟨i, hlt i hli, j, hlt j hlj, by rw [if_pos hp]⟩

/-- The pass reaches no pair twice. -/
theorem similarityPairs_nodup {R : Type} (G : List (GridEntry R)) (N : List String) :
    (similarityPairs G N).Nodup := by
  unfold similarityPairs
  rw [List.nodup_flatMap]
  refine ⟨fun i _ => ?_, ?_⟩
  · apply List.Nodup.filterMap _ (List.nodup_range _)
    intro a a' b hb hb'
    by_cases hp : pairsWith G N i a = true
    · by_cases hp' : pairsWith G N i a' = true
      · rw [if_pos hp] at hb
        rw [if_pos hp'] at hb'
        simp only [Option.mem_def, Option.some.injEq] at hb hb'
        rw [← hb'] at hb
        exact (Prod.mk.inj hb).2
      · rw [if_neg hp'] at hb'
        exact Option.noConfusion hb'
    · rw [if_neg hp] at hb
      exact Option.noConfusion hb
  · apply List.Pairwise.imp_of_mem _ (List.nodup_range G.length)
    intro a b _ _ hab
    simp only [Function.onFun, List.Disjoint]
    intro p hpa hpb
    rw [List.mem_filterMap] at hpa hpb
    obtain ⟨x, _, hx⟩ := hpa
    obtain ⟨y, _, hy⟩ := hpb
    by_cases hp : pairsWith G N a x = true
    · by_cases hp' : pairsWith G N b y = true
      · rw [if_pos hp] at hx
        rw [if_pos hp'] at hy
        cases hx
        cases hy
        exact hab rfl
      · rw [if_neg hp'] at hy
        exact Option.noConfusion hy
    · rw [if_neg hp] at hx
      exact Option.noConfusion hx

/-! ## What the similarity pass writes -/

/-- Every row the pass writes was written for a pair it pairs, from the two entries
at those positions. -/
theorem similarityPass_sound {R : Type} [Field R] (sqrt : R → R) (G : List (GridEntry R))
    (N : List String) (row : Nat × Nat × SimilarityRecord R)
    (hrow : row ∈ (similarityPass sqrt G N).rows) :
    pairsWith G N row.1 row.2.1 = true ∧
    ∃ e1 e2 norm, G.get? row.1 = some e1 ∧ G.get? row.2.1 = some e2 ∧
      AnalyzeData.computeNorm sqrt e1.values e2.values = .ok norm ∧
      row.2.2 = { name := N.getD row.1 "", id1 := e1.id, id2 := e2.id, norm := norm } := by
  have hout := similarityPass_out sqrt G N
  have hrow' : row ∈ (((similarityPairs G N).map (attemptAt sqrt G N)).foldl absorbStep
      ([], none)).1 := by
    rw [← hout]
    exact hrow
  rcases absorb_rows_sound _ _ row hrow' with h | h
  · exact absurd h (List.not_mem_nil _)
  · rw [List.mem_map] at h
    obtain ⟨p, hp, hpr⟩ := h
    obtain ⟨e1, e2, norm, h1, h2, hc, hr⟩ := attemptAt_ok sqrt G N p row hpr
    have hp' : pairsWith G N p.1 p.2 = true := (mem_similarityPairs G N p.1 p.2).mp hp
    subst hr
    exact ⟨hp', e1, e2, norm, h1, h2, hc, rfl⟩

/-- Results of attempts that all succeeded sit at the pairs attempted. -/
theorem positions_of_ok {R : Type} [Field R] (sqrt : R → R) (G : List (GridEntry R))
    (N : List String) (rs : List (Nat × Nat × SimilarityRecord R)) (ps : List (Nat × Nat))
    (h : ps.map (attemptAt sqrt G N) = rs.map Except.ok) :
    rs.map (fun t => (t.1, t.2.1)) = ps ∧
    rs.map (fun t => t.2.2.name) = ps.map (fun p => N.getD p.1 "") := by
  induction ps generalizing rs with
  | nil =>
    cases rs with
    | nil => exact ⟨rfl, rfl⟩
    | cons r rs => simp at h
  | cons p ps ih =>
    cases rs with
    | nil => simp at h
    | cons r rs =>
      simp only [List.map_cons, List.cons.injEq] at h
      obtain ⟨ih1, ih2⟩ := ih rs h.2
      obtain ⟨e1, e2, norm, _, _, _, hr⟩ := attemptAt_ok sqrt G N p r h.1
      subst hr
      rw [List.map_cons, List.map_cons, List.map_cons, ih1, ih2]
      exact ⟨rfl, rfl⟩

/-- A pass that ends without failure has written one row for each pair it pairs,
in the order of the loops. -/
theorem similarityPass_complete {R : Type} [Field R] (sqrt : R → R) (G : List (GridEntry R))
    (N : List String) (hrun : (similarityPass sqrt G N).failure = none) :
    (similarityPass sqrt G N).rows.map (fun t => (t.1, t.2.1)) = similarityPairs G N ∧
    (similarityPass sqrt G N).rows.map (fun t => t.2.2.name)
      = (similarityPairs G N).map (fun p => N.getD p.1 "") := by
  have hout := similarityPass_out sqrt G N
  have h2 : (((similarityPairs G N).map (attemptAt sqrt G N)).foldl absorbStep
      ([], none)).2 = none := by
    rw [← hout]
    exact hrun
  obtain ⟨_, rs, hrs, hrows⟩ := absorb_complete _ _ h2
  have hr : (similarityPass sqrt G N).rows = rs := by
    have : (similarityPass sqrt G N).rows
        = (((similarityPairs G N).map (attemptAt sqrt G N)).foldl absorbStep ([], none)).1 := by
      rw [← hout]
      rfl
    rw [this, hrows]
    rfl
  rw [hr]
  exact positions_of_ok sqrt G N rs _ hrs

/-- An existing position of `gridNames` holds the name `getD` reads there. -/
theorem get?_eq_some_getD (N : List String) (i : Nat) (h : i < N.length) :
    N.get? i = some (N.getD i "") := by
  rw [List.get?_eq_getElem?, List.getD_eq_getElem?_getD, List.getElem?_eq_getElem h]
  rfl

/-- When every entry carries NORM, every existing position is live. -/
theorem liveAt_of_all {R : Type} (G : List (GridEntry R))
    (hnorm : ∀ e ∈ G, hasStat e.stats Parameter.NORM = true) (i : Nat) (hi : i < G.length) :
    liveAt G i = true := by
  have he : G.get? i = some (G.get ⟨i, hi⟩) := List.get?_eq_get hi
  rw [liveAt_some G i _ he]
  exact hnorm _ (List.get_mem G i hi)

/-! ## Counting the rows of one name -/

/-- Counting in a concatenation of lists counts in each of them. -/
theorem countP_flatMap_sum {α β : Type} (p : β → Bool) (l : List α) (f : α → List β) :
    (l.flatMap f).countP p = (l.map (fun a => (f a).countP p)).sum := by
  induction l with
  | nil => rfl
  | cons a l ih =>
    rw [List.flatMap_cons, List.countP_append, ih, List.map_cons, List.sum_cons]

/-- The positions holding the name `s` are as many as `s` occurs. -/
theorem count_names_range (N : List String) (s : String) :
    (List.range N.length).countP (fun j => decide (N.getD j "" = s)) = N.count s := by
  induction N with
  | nil => rfl
  | cons a N ih =>
    rw [List.length_cons, List.range_succ_eq_map, List.countP_cons, List.countP_map,
      List.count_cons]
    have hf : ((fun j => decide ((a :: N).getD j "" = s)) ∘ Nat.succ)
        = fun j => decide (N.getD j "" = s) := by
      funext j
      simp
    rw [hf, ih]
    by_cases h : a = s
    · simp [h]
    · have h' : ¬ s = a := fun e => h e.symm
      simp [h, h']

/-- Among `k` positions holding the name `s` there are `k choose 2` pairs of an
earlier and a later position. -/
theorem pair_count (N : List String) (s : String) :
    ((List.range N.length).map (fun i => (List.range N.length).countP
        (fun j => decide (i < j ∧ N.getD i "" = s ∧ N.getD j "" = s)))).sum
      = (N.count s).choose 2 := by
  induction N with
  | nil => rfl
  | cons a N ih =>
    rw [List.length_cons, List.range_succ_eq_map, List.map_cons, List.sum_cons,
      List.map_map, List.countP_cons, List.countP_map, List.count_cons]
    have htail : ((fun i => ((0 :: List.map Nat.succ (List.range N.length))).countP
          (fun j => decide (i < j ∧ (a :: N).getD i "" = s ∧ (a :: N).getD j "" = s)))
          ∘ Nat.succ)
        = fun i => (List.range N.length).countP
            (fun j => decide (i < j ∧ N.getD i "" = s ∧ N.getD j "" = s)) := by
      funext i
      simp only [Function.comp, List.countP_cons, List.countP_map]
      have hf : ((fun j => decide (i.succ < j ∧ (a :: N).getD i.succ "" = s
            ∧ (a :: N).getD j "" = s)) ∘ Nat.succ)
          = fun j => decide (i < j ∧ N.getD i "" = s ∧ N.getD j "" = s) := by
        funext j
        simp
      rw [hf]
      simp
    have hhead : ((fun j => decide (0 < j ∧ (a :: N).getD 0 "" = s ∧ (a :: N).getD j "" = s))
          ∘ Nat.succ)
        = fun j => decide (a = s) && decide (N.getD j "" = s) := by
      funext j
      simp
    rw [htail, ih, hhead]
    by_cases h : a = s
    · have hc : (List.range N.length).countP
          (fun j => decide (a = s) && decide (N.getD j "" = s)) = N.count s := by
        rw [← count_names_range N s]
        simp [h]
      rw [hc]
      simp only [h, beq_self_eq_true, if_true, lt_self_iff_false, false_and, decide_False,
        Bool.false_eq_true, if_false, Nat.add_zero]
      rw [Nat.choose_succ_succ, Nat.choose_one_right]
    · have hc : (List.range N.length).countP
          (fun j => decide (a = s) && decide (N.getD j "" = s)) = 0 := by
        simp [h]
      have h' : ¬ s = a := fun e => h e.symm
      rw [hc]
      simp [h, h']

/-- When every entry carries NORM and every entry has a name, the rows of the name
`s` are as many as the pairs of positions holding `s`. -/
theorem pairs_name_count {R : Type} (G : List (GridEntry R)) (N : List String) (s : String)
    (hlen : N.length = G.length)
    (hnorm : ∀ e ∈ G, hasStat e.stats Parameter.NORM = true) :
    ((similarityPairs G N).map (fun p => N.getD p.1 "")).count s = (N.count s).choose 2 := by
  rw [← pair_count N s, hlen]
  unfold List.count similarityPairs
  rw [List.countP_map, countP_flatMap_sum]
  apply congrArg
  apply List.map_congr_left
  intro i hi
  rw [List.countP_filterMap]
  apply List.countP_congr
  intro j hj
  rw [List.mem_range] at hi hj
  have hli := liveAt_of_all G hnorm i hi
  have hlj := liveAt_of_all G hnorm j hj
  by_cases hp : pairsWith G N i j = true
  · obtain ⟨hij, _, _, hn⟩ := (pairsWith_iff G N i j).mp hp
    rw [if_pos hp]
    simp only [Option.map_some', Option.getD_some, Function.comp, beq_iff_eq,
      decide_eq_true_eq]
    constructor
    · intro h
      exact ⟨hij, h, hn ▸ h⟩
    · intro h
      exact h.2.1
  · rw [if_neg hp]
    simp only [Option.map_none', Option.getD_none, Bool.false_eq_true, false_iff,
      decide_eq_true_eq]
    rintro ⟨hij, h1, h2⟩
    exact hp ((pairsWith_iff G N i j).mpr ⟨hij, hli, hlj, h1.trans h2.symm⟩)

/-- An element of a list without duplicates occurs once in it. -/
theorem count_one_of_nodup {α : Type} [BEq α] [LawfulBEq α] (l : List α) (a : α)
    (hd : l.Nodup) (ha : a ∈ l) : l.count a = 1 := by
  induction l with
  | nil => exact absurd ha (List.not_mem_nil a)
  | cons b l ih =>
    obtain ⟨hb, hl⟩ := List.nodup_cons.mp hd
    rw [List.count_cons]
    by_cases hba : b = a
    · subst hba
      rw [List.count_eq_zero_of_not_mem hb]
      simp
    · have hal : a ∈ l := by
        rcases List.mem_cons.mp ha with h | h
        · exact absurd h.symm hba
        · exact h
      rw [ih hl hal]
      simp [hba]

/-! ## The similarity pass: C11 to C13 -/

/-- C11. Similarity exactly-once: when every stored grid carries NORM and has its
name, and the pass ends without failure, every two distinct positions with equal
names have exactly one row between them, no row pairs a position with itself, and a
name held by `k` contributions has exactly `k (k - 1) / 2` rows. -/
theorem similarity_exactly_once {R : Type} [Field R] (sqrt : R → R)
    (G : List (GridEntry R)) (N : List String) (hlen : N.length = G.length)
    (hnorm : ∀ e ∈ G, hasStat e.stats Parameter.NORM = true)
    (hrun : (similarityPass sqrt G N).failure = none) :
    (∀ i j, i < G.length → j < G.length → i ≠ j → N.get? i = N.get? j →
      ((similarityPass sqrt G N).rows.map (fun t => (t.1, t.2.1))).count (i, j)
        + ((similarityPass sqrt G N).rows.map (fun t => (t.1, t.2.1))).count (j, i) = 1) ∧
    (∀ i, ((similarityPass sqrt G N).rows.map (fun t => (t.1, t.2.1))).count (i, i) = 0) ∧
    (∀ s, ((similarityPass sqrt G N).rows.map (fun t => t.2.2.name)).count s
      = N.count s * (N.count s - 1) / 2) := by
  obtain ⟨hpos, hnames⟩ := similarityPass_complete sqrt G N hrun
  rw [hpos, hnames]
  have hone : ∀ i j, i < G.length → j < G.length → i < j → N.get? i = N.get? j →
      (similarityPairs G N).count (i, j) + (similarityPairs G N).count (j, i) = 1 := by
    intro i j hi hj hij hn
    have hn' : N.getD i "" = N.getD j "" := by
      rw [get?_eq_some_getD N i (by omega), get?_eq_some_getD N j (by omega)] at hn
      exact Option.some.inj hn
    have hmem : (i, j) ∈ similarityPairs G N :=
      (mem_similarityPairs G N i j).mpr ((pairsWith_iff G N i j).mpr
        ⟨hij, liveAt_of_all G hnorm i hi, liveAt_of_all G hnorm j hj, hn'⟩)
    have hnot : (j, i) ∉ similarityPairs G N := by
      intro h
      have := ((pairsWith_iff G N j i).mp ((mem_similarityPairs G N j i).mp h)).1
      omega
    rw [count_one_of_nodup _ _ (similarityPairs_nodup G N) hmem,
      List.count_eq_zero_of_not_mem hnot]
  refine ⟨?_, ?_, ?_⟩
  · intro i j hi hj hne hn
    rcases Nat.lt_or_gt_of_ne hne with h | h
    · exact hone i j hi hj h hn
    · rw [Nat.add_comm]
      exact hone j i hj hi h hn.symm
  · intro i
    apply List.count_eq_zero_of_not_mem
    intro h
    have := ((pairsWith_iff G N i i).mp ((mem_similarityPairs G N i i).mp h)).1
    omega
  · intro s
    rw [pairs_name_count G N s hlen hnorm, Nat.choose_two_right]

/-- C12 as stated fails: a worker at rank 2 whose parameter list names PERM twice
makes the coordinator store two grids of id 1, and the pass writes a row whose two
ids are both 1. -/
theorem similarity_same_rank_counterexample :
    ∃ (st : RxState ℚ) (c : Collected ℚ),
      collectRank 2
          (calculateAndTxResults Rat.sqrt sampleParser [sampleParameter, sampleParameter]).sent
          { rows := [], fullGrids := [], gridNames := [] } = some (st, c) ∧
      ∃ row ∈ (similarityPass Rat.sqrt c.fullGrids c.gridNames).rows,
        row.2.2.id1 = 1 ∧ row.2.2.id2 = 1 := by
  refine ⟨_, ⟨_, [{ stats := 0x23, id := 1, values := [2, 4, 6] },
      { stats := 0x23, id := 1, values := [2, 4, 6] }], ["PERM", "PERM"]⟩, rfl, ?_⟩
  have hrun : (similarityPass Rat.sqrt
      [{ stats := 0x23, id := 1, values := ([2, 4, 6] : List ℚ) },
       { stats := 0x23, id := 1, values := [2, 4, 6] }] ["PERM", "PERM"]).failure = none := rfl
  have hpairs : similarityPairs
      [{ stats := 0x23, id := 1, values := ([2, 4, 6] : List ℚ) },
       { stats := 0x23, id := 1, values := [2, 4, 6] }] ["PERM", "PERM"] = [(0, 1)] := by
    decide
  have hpos := (similarityPass_complete Rat.sqrt _ _ hrun).1
  rw [hpairs] at hpos
  have hmem : (0, 1) ∈ (similarityPass Rat.sqrt
      [{ stats := 0x23, id := 1, values := ([2, 4, 6] : List ℚ) },
       { stats := 0x23, id := 1, values := [2, 4, 6] }] ["PERM", "PERM"]).rows.map
        (fun t => (t.1, t.2.1)) := by
    rw [hpos]
    exact List.mem_singleton.mpr rfl
  obtain ⟨row, hrow, hp⟩ := List.mem_map.mp hmem
  obtain ⟨_, e1, e2, norm, h1, h2, _, hr⟩ := similarityPass_sound Rat.sqrt _ _ row hrow
  have hp1 : row.1 = 0 := (Prod.mk.inj hp).1
  have hp2 : row.2.1 = 1 := (Prod.mk.inj hp).2
  rw [hp1] at h1
  rw [hp2] at h2
  cases h1
  cases h2
  exact ⟨row, hrow, by rw [hr], by rw [hr]⟩

/-- C12, amended. Every row the pass writes pairs the entries at two different
positions, the first before the second, and its two ids differ exactly when the
ranks those two entries came from differ. -/
theorem similarity_ids {R : Type} [Field R] (sqrt : R → R) (G : List (GridEntry R))
    (N : List String) (row : Nat × Nat × SimilarityRecord R)
    (hrow : row ∈ (similarityPass sqrt G N).rows) :
    row.1 < row.2.1 ∧
    ∃ e1 e2, G.get? row.1 = some e1 ∧ G.get? row.2.1 = some e2 ∧
      row.2.2.id1 = e1.id ∧ row.2.2.id2 = e2.id ∧
      (row.2.2.id1 ≠ row.2.2.id2 ↔ e1.id ≠ e2.id) := by
  obtain ⟨hp, e1, e2, norm, h1, h2, _, hr⟩ := similarityPass_sound sqrt G N row hrow
  refine ⟨((pairsWith_iff G N _ _).mp hp).1, e1, e2, h1, h2, ?_, ?_, ?_⟩ <;> rw [hr]

/-- C13. Every row the pass writes comes from two entries at distinct positions
whose names are identical, and carries that name, the ids of the two entries and
`computeNorm` of their values; a position whose name no other position has occurs
in no row. -/
theorem similarity_record_content {R : Type} [Field R] (sqrt : R → R)
    (G : List (GridEntry R)) (N : List String) (hlen : N.length = G.length)
    (row : Nat × Nat × SimilarityRecord R)
    (hrow : row ∈ (similarityPass sqrt G N).rows) :
    row.1 ≠ row.2.1 ∧
    (∃ e1 e2, G.get? row.1 = some e1 ∧ G.get? row.2.1 = some e2 ∧
      N.get? row.1 = some row.2.2.name ∧ N.get? row.2.1 = some row.2.2.name ∧
      row.2.2.id1 = e1.id ∧ row.2.2.id2 = e2.id ∧
      AnalyzeData.computeNorm sqrt e1.values e2.values = .ok row.2.2.norm) ∧
    (∀ k, (∀ k', k' < G.length → k' ≠ k → N.get? k' ≠ N.get? k) →
      row.1 ≠ k ∧ row.2.1 ≠ k) := by
  obtain ⟨hp, e1, e2, norm, h1, h2, hc, hr⟩ := similarityPass_sound sqrt G N row hrow
  obtain ⟨hij, _, _, hn⟩ := (pairsWith_iff G N _ _).mp hp
  have hb1 : row.1 < G.length := by
    by_contra hge
    rw [List.get?_eq_none.mpr (by omega)] at h1
    exact Option.noConfusion h1
  have hb2 : row.2.1 < G.length := by
    by_contra hge
    rw [List.get?_eq_none.mpr (by omega)] at h2
    exact Option.noConfusion h2
  have hn1 : N.get? row.1 = some row.2.2.name := by
    rw [get?_eq_some_getD N _ (by omega), hr]
  have hn2 : N.get? row.2.1 = some row.2.2.name := by
    rw [get?_eq_some_getD N _ (by omega), hr, hn]
  refine ⟨by omega, ⟨e1, e2, h1, h2, hn1, hn2, by rw [hr], by rw [hr], by rw [hr]; exact hc⟩, ?_⟩
  intro k hk
  constructor
  · intro h1k
    have := hk row.2.1 hb2 (by omega)
    rw [← h1k, hn1, hn2] at this
    exact this rfl
  · intro h2k
    have := hk row.1 hb1 (by omega)
    rw [← h2k, hn1, hn2] at this
    exact this rfl

/-! ## The grids the coordinator stores -/

/-- The grid block of the coordinator yields cell values exactly when it runs. -/
theorem recvGrid_isSome {R : Type} (enabled : Bool) (st st' : RxState R)
    (o : Option (List R)) (h : recvGrid enabled st = some (o, st')) : o.isSome = enabled := by
  unfold recvGrid at h
  cases enabled with
  | false =>
    simp only [Bool.false_eq_true, if_false, Option.some.injEq, Prod.mk.injEq] at h
    rw [← h.1]
    rfl
  | true =>
    simp only [if_true] at h
    cases h1 : recvUnsigned st with
    | none => rw [h1] at h; exact Option.noConfusion h
    | some x =>
      obtain ⟨numElems, m, st1⟩ := x
      rw [h1] at h
      simp only [] at h
      cases h2 : recvDoubles numElems st1 with
      | none => rw [h2] at h; exact Option.noConfusion h
      | some y =>
        obtain ⟨dVals, st2⟩ := y
        rw [h2] at h
        simp only [Option.some.injEq, Prod.mk.injEq] at h
        rw [← h.1]
        rfl

/-- A received parameter holds cell values exactly when its stats carry NORM. -/
theorem recvParameter_cells {R : Type} (st st' : RxState R) (r : Received R)
    (h : recvParameter st = some (r, st')) :
    r.cellValues.isSome = hasStat r.stats Parameter.NORM := by
  unfold recvParameter at h
  simp only [Option.bind_eq_bind, Option.bind_eq_some, Option.pure_def, Option.some.injEq,
    Prod.mk.injEq, Prod.exists] at h
  obtain ⟨nSize, m1, st1, _, buf, st2, _, stats, m2, st3, _, name, _, sum, st4, _, mean, st5, _,
    variance, st6, _, stddev, st7, _, pearson, st8, _, cells, st9, hg, hr, _⟩ := h
  rw [← hr]
  exact recvGrid_isSome _ _ _ _ hg

/-- Storing a received parameter keeps the stored grids consistent. -/
theorem storeParameter_consistent {R : Type} (i : Nat) (r : Received R) (c : Collected R)
    (hr : r.cellValues.isSome = hasStat r.stats Parameter.NORM) (hc : c.Consistent) :
    (storeParameter i r c).Consistent := by
  obtain ⟨hlen, hnorm⟩ := hc
  unfold storeParameter
  cases hcv : r.cellValues with
  | none => exact ⟨hlen, hnorm⟩
  | some cellValues =>
    rw [hcv] at hr
    refine ⟨?_, ?_⟩
    · simp only [List.length_append, List.length_singleton, hlen]
    · intro e he
      simp only [List.mem_append, List.mem_singleton] at he
      rcases he with h | h
      · exact hnorm e h
      · rw [h]
        exact hr.symm

/-- The parameter loop of the coordinator keeps the stored grids consistent. -/
theorem collectParameters_consistent {R : Type} (i count : Nat) (st st' : RxState R)
    (c c' : Collected R) (hc : c.Consistent)
    (h : collectParameters i count st c = some (st', c')) : c'.Consistent := by
  induction count generalizing st c with
  | zero =>
    simp only [collectParameters, Option.some.injEq, Prod.mk.injEq] at h
    rw [← h.2]
    exact hc
  | succ count ih =>
    unfold collectParameters at h
    cases hp : recvParameter st with
    | none => rw [hp] at h; exact Option.noConfusion h
    | some x =>
      obtain ⟨r, st1⟩ := x
      rw [hp] at h
      exact ih st1 (storeParameter i r c)
        (storeParameter_consistent i r c (recvParameter_cells st st1 r hp) hc) h

/-- Whatever messages rank `i` sends, collecting them keeps the stored grids
consistent: each grid has its name and carries NORM. -/
theorem collectRank_consistent {R : Type} (i : Nat) (queue : List (Msg R))
    (st : RxState R) (c c' : Collected R) (hc : c.Consistent)
    (h : collectRank i queue c = some (st, c')) : c'.Consistent := by
  unfold collectRank at h
  cases hu : recvUnsigned { queue := queue, log := [] } with
  | none => rw [hu] at h; exact Option.noConfusion h
  | some x =>
    obtain ⟨count, status, st1⟩ := x
    rw [hu] at h
    simp only [] at h
    by_cases hfat : status.tag = FATAL_ERROR
    · rw [if_pos hfat] at h
      simp only [Option.some.injEq, Prod.mk.injEq] at h
      rw [← h.2]
      exact hc
    · rw [if_neg hfat] at h
      exact collectParameters_consistent i count st1 st c c' hc h

/-! ## Instances of C11 to C20 on sample data -/

/-- Three contributions named POROSITY from the ranks 2, 3 and 4 give exactly three
rows, one for each pair, none with equal ids. -/
theorem porosity_scenario :
    (similarityPass Rat.sqrt porosityGrids porosityNames).rows.map
        (fun t => (t.2.2.name, t.2.2.id1, t.2.2.id2))
      = [("POROSITY", 1, 2), ("POROSITY", 1, 3), ("POROSITY", 2, 3)] ∧
    (similarityPass Rat.sqrt porosityGrids porosityNames).failure = none := by
  constructor
  · rfl
  · rfl

/-- Two contributions named PERM with the values 1, 2, 3 and 1, 2, 5, from the
ranks 1 and 2, give one row, of norm 2. -/
theorem perm_scenario :
    (similarityPass Real.sqrt
        [{ stats := 0x20, id := 0, values := [1, 2, 3] },
         { stats := 0x20, id := 1, values := [1, 2, 5] }] ["PERM", "PERM"]).out
      = ([(0, 1, { name := "PERM", id1 := 0, id2 := 1, norm := 2 })], none) := by
  have hpairs : similarityPairs
      [{ stats := 0x20, id := 0, values := ([1, 2, 3] : List ℝ) },
       { stats := 0x20, id := 1, values := [1, 2, 5] }] ["PERM", "PERM"] = [(0, 1)] := by
    decide
  have hatt : attemptAt Real.sqrt
      [{ stats := 0x20, id := 0, values := ([1, 2, 3] : List ℝ) },
       { stats := 0x20, id := 1, values := [1, 2, 5] }] ["PERM", "PERM"] (0, 1)
      = .ok (0, 1, { name := "PERM", id1 := 0, id2 := 1, norm := 2 }) := by
    rw [attemptAt_some Real.sqrt
      [{ stats := 0x20, id := 0, values := ([1, 2, 3] : List ℝ) },
       { stats := 0x20, id := 1, values := [1, 2, 5] }] ["PERM", "PERM"] 0 1
      { stats := 0x20, id := 0, values := [1, 2, 3] }
      { stats := 0x20, id := 1, values := [1, 2, 5] } rfl rfl]
    simp only [computeNorm_example]
    rfl
  rw [similarityPass_out, hpairs, List.map_cons, List.map_nil, hatt]
  rfl

/-- The exactly-once property of C11 on three grids named POROSITY. -/
theorem similarity_exactly_once_witness :
    (∀ i j, i < porosityGrids.length → j < porosityGrids.length → i ≠ j →
      porosityNames.get? i = porosityNames.get? j →
      ((similarityPass Rat.sqrt porosityGrids porosityNames).rows.map
          (fun t => (t.1, t.2.1))).count (i, j)
        + ((similarityPass Rat.sqrt porosityGrids porosityNames).rows.map
          (fun t => (t.1, t.2.1))).count (j, i) = 1) ∧
    (∀ i, ((similarityPass Rat.sqrt porosityGrids porosityNames).rows.map
        (fun t => (t.1, t.2.1))).count (i, i) = 0) ∧
    (∀ s, ((similarityPass Rat.sqrt porosityGrids porosityNames).rows.map
        (fun t => t.2.2.name)).count s
      = porosityNames.count s * (porosityNames.count s - 1) / 2) :=
  similarity_exactly_once Rat.sqrt porosityGrids porosityNames rfl (by decide) rfl

/-- The row of the PERM scenario belongs to the rows the pass writes. -/
theorem perm_row_mem :
    ((0, 1, { name := "PERM", id1 := 0, id2 := 1, norm := 2 }) :
        Nat × Nat × SimilarityRecord ℝ)
      ∈ (similarityPass Real.sqrt
          [{ stats := 0x20, id := 0, values := [1, 2, 3] },
           { stats := 0x20, id := 1, values := [1, 2, 5] }] ["PERM", "PERM"]).rows := by
  have h := congrArg Prod.fst perm_scenario
  simp only [SimilarityState.out] at h
  rw [h]
  exact List.mem_singleton.mpr rfl

/-- The amended C12 on the row of the PERM scenario. -/
theorem similarity_ids_witness :
    (0 : Nat) < 1 ∧
    ∃ e1 e2 : GridEntry ℝ,
      ([{ stats := 0x20, id := 0, values := [1, 2, 3] },
        { stats := 0x20, id := 1, values := [1, 2, 5] }] : List (GridEntry ℝ)).get? 0
          = some e1 ∧
      ([{ stats := 0x20, id := 0, values := [1, 2, 3] },
        { stats := 0x20, id := 1, values := [1, 2, 5] }] : List (GridEntry ℝ)).get? 1
          = some e2 ∧
      0 = e1.id ∧ 1 = e2.id ∧ ((0 : Nat) ≠ 1 ↔ e1.id ≠ e2.id) :=
  similarity_ids Real.sqrt _ _ (0, 1, { name := "PERM", id1 := 0, id2 := 1, norm := 2 })
    perm_row_mem

/-- The content of C13 on the row of the PERM scenario. -/
theorem similarity_record_content_witness :
    (0 : Nat) ≠ 1 ∧
    (∃ e1 e2 : GridEntry ℝ,
      ([{ stats := 0x20, id := 0, values := [1, 2, 3] },
        { stats := 0x20, id := 1, values := [1, 2, 5] }] : List (GridEntry ℝ)).get? 0
          = some e1 ∧
      ([{ stats := 0x20, id := 0, values := [1, 2, 3] },
        { stats := 0x20, id := 1, values := [1, 2, 5] }] : List (GridEntry ℝ)).get? 1
          = some e2 ∧
      ["PERM", "PERM"].get? 0 = some "PERM" ∧ ["PERM", "PERM"].get? 1 = some "PERM" ∧
      0 = e1.id ∧ 1 = e2.id ∧
      AnalyzeData.computeNorm Real.sqrt e1.values e2.values = .ok 2) ∧
    (∀ k, (∀ k', k' < 2 → k' ≠ k → ["PERM", "PERM"].get? k' ≠ ["PERM", "PERM"].get? k) →
      0 ≠ k ∧ 1 ≠ k) :=
  similarity_record_content Real.sqrt _ _ rfl
    (0, 1, { name := "PERM", id1 := 0, id2 := 1, norm := 2 }) perm_row_mem

/-- The formula of C14 on the series 1, 2, 3 and 1, 2, 5. -/
theorem computeNorm_formula_witness :
    AnalyzeData.computeNorm Real.sqrt [1, 2, 3] [1, 2, 5]
      = .ok (Real.sqrt (∑ i in Finset.range ([1, 2, 3] : List ℝ).length,
          (([1, 2, 3] : List ℝ).getD i 0 - ([1, 2, 5] : List ℝ).getD i 0) ^ 2)) ∧
    AnalyzeData.computeNorm Real.sqrt [1, 2, 3] [1, 2, 5] = .ok (2 : ℝ) :=
  computeNorm_formula Real.sqrt [1, 2, 3] [1, 2, 5] rfl

/-- The self-distance of C15 with the real square root, on a series and on the
empty series. -/
theorem computeNorm_self_witness :
    AnalyzeData.computeNorm Real.sqrt [1, 2, 3] [1, 2, 3] = .ok (0 : ℝ) ∧
    AnalyzeData.computeNorm Real.sqrt [] [] = .ok (0 : ℝ) :=
  ⟨computeNorm_self Real.sqrt Real.sqrt_zero [1, 2, 3],
   computeNorm_self Real.sqrt Real.sqrt_zero []⟩

/-- The window of C17 on the sample series with sample size 2. -/
theorem sum_window_witness :
    AnalyzeData.sum sampleParser "PERM" 2
      = .ok ((([2, 4, 6] : List ℚ).take
          (if 2 = 0 ∨ 2 > ([2, 4, 6] : List ℚ).length then ([2, 4, 6] : List ℚ).length
            else 2)).foldl (fun ret x => ret + x) 0) ∧
    (([2, 4, 6] : List ℚ).take
        (if 2 = 0 ∨ 2 > ([2, 4, 6] : List ℚ).length then ([2, 4, 6] : List ℚ).length
          else 2)).foldl (fun ret x => ret + x) 0
      = (([2, 4, 6] : List ℚ).take
        (if 2 = 0 ∨ 2 > ([2, 4, 6] : List ℚ).length then ([2, 4, 6] : List ℚ).length
          else 2)).sum :=
  sum_window sampleParser "PERM" 2 [2, 4, 6] rfl

/-- The mean of C18 on the sample series with sample size 2. -/
theorem mean_window_witness :
    (∃ s, AnalyzeData.sum sampleParser "PERM"
          (if 2 = 0 ∨ 2 > ([2, 4, 6] : List ℚ).length then ([2, 4, 6] : List ℚ).length
            else 2) = .ok s ∧
      AnalyzeData.mean sampleParser "PERM" 2
        = .ok (s / ((if 2 = 0 ∨ 2 > ([2, 4, 6] : List ℚ).length
            then ([2, 4, 6] : List ℚ).length else 2 : Nat) : ℚ))) ∧
    0 < (if 2 = 0 ∨ 2 > ([2, 4, 6] : List ℚ).length then ([2, 4, 6] : List ℚ).length
      else 2) ∧
    AnalyzeData.mean sampleParser "PERM" 0 = .ok 4 :=
  mean_window sampleParser "PERM" 2 [2, 4, 6] rfl (by decide)

/-- The variance of C19 on the sample series: a value exists. -/
theorem variance_window_witness :
    ∃ mval, AnalyzeData.mean sampleParser "PERM" 0 = .ok mval ∧
      mval = (([2, 4, 6] : List ℚ).take
          (if 0 = 0 ∨ 0 > ([2, 4, 6] : List ℚ).length then ([2, 4, 6] : List ℚ).length
            else 0)).sum
          / ((if 0 = 0 ∨ 0 > ([2, 4, 6] : List ℚ).length then ([2, 4, 6] : List ℚ).length
            else 0 : Nat) : ℚ) ∧
      AnalyzeData.variance sampleParser "PERM" 0
        = .ok (((([2, 4, 6] : List ℚ).take
              (if 0 = 0 ∨ 0 > ([2, 4, 6] : List ℚ).length then ([2, 4, 6] : List ℚ).length
                else 0)).map (fun x => x * x)).sum
            / ((if 0 = 0 ∨ 0 > ([2, 4, 6] : List ℚ).length then ([2, 4, 6] : List ℚ).length
              else 0 : Nat) : ℚ)
            - mval * mval) ∧
      0 < (if 0 = 0 ∨ 0 > ([2, 4, 6] : List ℚ).length then ([2, 4, 6] : List ℚ).length
        else 0) :=
  variance_window sampleParser "PERM" 0 [2, 4, 6] rfl (by decide)

/-- The variance of the sample series is 8/3. -/
theorem sample_variance : AnalyzeData.variance sampleParser "PERM" 0 = .ok (8 / 3) := by
  have hv : sampleParser.getAllValues "PERM" = .ok [2, 4, 6] := rfl
  rw [variance_eq sampleParser "PERM" 0 [2, 4, 6] hv]
  norm_num

/-- The standard deviation of C20 on the sample series, with the real-valued data
replaced by rationals: the square root applied to the variance 8/3. -/
theorem stddev_sqrt_witness :
    AnalyzeData.stddev Rat.sqrt sampleParser "PERM" 0 = .ok (Rat.sqrt (8 / 3)) :=
  stddev_sqrt Rat.sqrt sampleParser "PERM" 0 (8 / 3) sample_variance

/-! # Statistics of two series, the parser, and the loop over ranks -/

/-! ## getAllValues -/

/-- Pushing every element of `vec` onto `ret` appends `vec`. -/
theorem foldl_push_eq {α : Type} (vec ret : List α) :
    vec.foldl (fun ret v => ret ++ [v]) ret = ret ++ vec := by
  induction vec generalizing ret with
  | nil => simp
  | cons a vec ih => simp [ih]

/-- Pushing every value of every layer onto `ret` appends the layers in turn. -/
theorem foldl_layers_eq {α : Type} (container : List (List α)) (ret : List α) :
    container.foldl (fun ret vec => vec.foldl (fun ret v => ret ++ [v]) ret) ret
      = ret ++ container.flatten := by
  have hf : (fun (ret : List α) (vec : List α) => vec.foldl (fun ret v => ret ++ [v]) ret)
      = fun ret vec => ret ++ vec := by
    funext ret vec
    exact foldl_push_eq vec ret
  rw [hf]
  induction container generalizing ret with
  | nil => simp
  | cons vec container ih =>
    rw [List.foldl_cons, ih, List.flatten_cons, List.append_assoc]

/-- For a key of the map, `getAllValues` is the concatenation of its layers. -/
theorem getAllValues_present {R : Type} (p : UTChemParser R) (key : String)
    (container : List (List R)) (h : p.values.lookup key = some container) :
    p.getAllValues key = .ok container.flatten := by
  simp only [UTChemParser.getAllValues, h, foldl_layers_eq, List.nil_append]

/-- For a key that is not in the map, `values.at(key)` throws. -/
theorem getAllValues_absent {R : Type} (p : UTChemParser R) (key : String)
    (h : p.values.lookup key = none) :
    p.getAllValues key = .error Failure.outOfRange := by
  simp only [UTChemParser.getAllValues, h]

/-- C29. `getAllValues(key)` is the concatenation of the layers of `key` in layer
order when the key is in the map (the empty vector when it has no layer or only empty
ones), but for a key that is not in the map it throws `out_of_range` instead of
returning the empty vector: so it does on the sample parser for the key POROSITY. -/
theorem getAllValues_layers {R : Type} (p : UTChemParser R) (key : String) :
    (∀ container, p.values.lookup key = some container →
      p.getAllValues key = .ok container.flatten) ∧
    (p.values.lookup key = none → p.getAllValues key = .error Failure.outOfRange) ∧
    sampleParser.values.lookup "POROSITY" = none ∧
    sampleParser.getAllValues "POROSITY" = .error Failure.outOfRange :=
  ⟨fun container h => getAllValues_present p key container h,
   getAllValues_absent p key, rfl, rfl⟩

/-- The concatenation of C29 on the sample parser, and the failure for a key that was
never parsed. -/
theorem getAllValues_layers_witness :
    sampleParser.getAllValues "PERM" = .ok ([[2, 4, 6]] : List (List ℚ)).flatten ∧
    sampleParser.getAllValues "POROSITY" = .error Failure.outOfRange :=
  ⟨(getAllValues_layers sampleParser "PERM").1 [[2, 4, 6]] rfl,
   (getAllValues_layers sampleParser "POROSITY").2.1 rfl⟩

/-! ## pearsons -/

/-- The private `sum` over a whole vector. -/
theorem sumVec_zero {R : Type} [Field R] (vec : List R) :
    AnalyzeData.sumVec vec 0 = vec.sum := by
  simp [AnalyzeData.sumVec, foldl_add_eq_sum]

/-- The value of `pearsons` in closed form: the sums of squares run over the whole
series, squared up to the sample size only. -/
theorem pearsons_eq {R : Type} [Field R] (sqrt : R → R) (data : UTChemParser R)
    (key1 key2 : String) (xs ys : List R) (h1 : data.getAllValues key1 = .ok xs)
    (h2 : data.getAllValues key2 = .ok ys) (hx : xs ≠ []) (hy : ys ≠ []) :
    AnalyzeData.pearsons sqrt data key1 key2
      = .ok (((min xs.length ys.length : Nat) * (List.zipWith (fun x t => x * t)
              (xs.take (min xs.length ys.length)) (ys.take (min xs.length ys.length))).sum
            - (xs.take (min xs.length ys.length)).sum
              * (ys.take (min xs.length ys.length)).sum)
          / sqrt (((min xs.length ys.length : Nat)
                * (((xs.take (min xs.length ys.length)).map (fun x => x * x)).sum
                    + (xs.drop (min xs.length ys.length)).sum)
                - (xs.take (min xs.length ys.length)).sum
                  * (xs.take (min xs.length ys.length)).sum)
              * ((min xs.length ys.length : Nat)
                * (((ys.take (min xs.length ys.length)).map (fun y => y * y)).sum
                    + (ys.drop (min xs.length ys.length)).sum)
                - (ys.take (min xs.length ys.length)).sum
                  * (ys.take (min xs.length ys.length)).sum))) := by
  have hlx : 0 < xs.length := List.length_pos.mpr hx
  have hly : 0 < ys.length := List.length_pos.mpr hy
  have hn : (if xs.length < ys.length then xs.length else ys.length)
      = min xs.length ys.length := by
    split_ifs <;> omega
  have hn0 : ¬ (min xs.length ys.length = 0) := by omega
  have hwx : (if min xs.length ys.length = 0 ∨ min xs.length ys.length > xs.length
      then xs.length else min xs.length ys.length) = min xs.length ys.length := by
    split_ifs <;> omega
  have hwy : (if min xs.length ys.length = 0 ∨ min xs.length ys.length > ys.length
      then ys.length else min xs.length ys.length) = min xs.length ys.length := by
    split_ifs <;> omega
  have hsx := sum_eq data key1 (min xs.length ys.length) xs h1
  have hsy := sum_eq data key2 (min xs.length ys.length) ys h2
  rw [hwx] at hsx
  rw [hwy] at hsy
  unfold AnalyzeData.pearsons
  rw [h1, h2]
  simp only [bind, Except.bind]
  rw [hn, if_neg hn0]
  simp only [bind, Except.bind, pure, Except.pure]
  rw [hsx.1, hsy.1]
  simp only [sumVec_zero, hsx.2, hsy.2, List.sum_append]

/-- The only failure of `getAllValues` is the one of `values.at(key)`. -/
theorem getAllValues_error {R : Type} (p : UTChemParser R) (key : String) (e : Failure)
    (h : p.getAllValues key = .error e) : e = Failure.outOfRange := by
  unfold UTChemParser.getAllValues at h
  cases hl : p.values.lookup key with
  | none =>
    rw [hl] at h
    injection h with h
    exact h.symm
  | some container =>
    rw [hl] at h
    exact Except.noConfusion h

/-- With a key that is not in the map, `pearsons` fails as `getAllValues` does. -/
theorem pearsons_absent {R : Type} [Field R] (sqrt : R → R) (data : UTChemParser R)
    (key1 key2 : String) (e : Failure)
    (h : data.getAllValues key1 = .error e ∨ data.getAllValues key2 = .error e) :
    AnalyzeData.pearsons sqrt data key1 key2 = .error Failure.outOfRange := by
  unfold AnalyzeData.pearsons
  cases h1 : data.getAllValues key1 with
  | error e1 =>
    rw [getAllValues_error data key1 e1 h1]
    rfl
  | ok xs =>
    cases h2 : data.getAllValues key2 with
    | error e2 =>
      rw [getAllValues_error data key2 e2 h2]
      rfl
    | ok ys =>
      rw [h1, h2] at h
      rcases h with h | h <;> exact Except.noConfusion h

/-- With an empty series on either side, `pearsons` stops on `assert(n != 0)`. -/
theorem pearsons_empty {R : Type} [Field R] (sqrt : R → R) (data : UTChemParser R)
    (key1 key2 : String) (xs ys : List R) (h1 : data.getAllValues key1 = .ok xs)
    (h2 : data.getAllValues key2 = .ok ys) (h : xs = [] ∨ ys = []) :
    AnalyzeData.pearsons sqrt data key1 key2 = .error Failure.assertion := by
  have hn : (if xs.length < ys.length then xs.length else ys.length) = 0 := by
    rcases h with h | h
    · subst h
      simp
    · subst h
      simp
  unfold AnalyzeData.pearsons
  rw [h1, h2]
  simp only [bind, Except.bind]
  rw [hn]
  rfl

/-- Exchanging the keys does not change what `pearsons` returns, a value or a
failure. -/
theorem pearsons_comm {R : Type} [Field R] (sqrt : R → R) (data : UTChemParser R)
    (key1 key2 : String) :
    AnalyzeData.pearsons sqrt data key1 key2 = AnalyzeData.pearsons sqrt data key2 key1 := by
  cases h1 : data.getAllValues key1 with
  | error e1 =>
    rw [pearsons_absent sqrt data key1 key2 e1 (Or.inl h1),
      pearsons_absent sqrt data key2 key1 e1 (Or.inr h1)]
  | ok xs =>
    cases h2 : data.getAllValues key2 with
    | error e2 =>
      rw [pearsons_absent sqrt data key1 key2 e2 (Or.inr h2),
        pearsons_absent sqrt data key2 key1 e2 (Or.inl h2)]
    | ok ys =>
      by_cases h : xs = [] ∨ ys = []
      · rw [pearsons_empty sqrt data key1 key2 xs ys h1 h2 h,
          pearsons_empty sqrt data key2 key1 ys xs h2 h1 h.symm]
      · have hx : xs ≠ [] := fun hx => h (Or.inl hx)
        have hy : ys ≠ [] := fun hy => h (Or.inr hy)
        rw [pearsons_eq sqrt data key1 key2 xs ys h1 h2 hx hy,
          pearsons_eq sqrt data key2 key1 ys xs h2 h1 hy hx]
        have hz : ∀ a b : List R, List.zipWith (fun x t => x * t) a b
            = List.zipWith (fun x t => x * t) b a := by
          intro a b
          exact List.zipWith_comm_of_comm _ (fun x y => mul_comm x y) a b
        rw [Nat.min_comm ys.length xs.length,
          hz (ys.take (min xs.length ys.length)) (xs.take (min xs.length ys.length))]
        congr 1
        congr 1
        · ring
        · congr 1
          ring

/-- For series of one length the value of `pearsons` is the formula over the whole
series. -/
theorem pearsons_equal_length {R : Type} [Field R] (sqrt : R → R) (data : UTChemParser R)
    (key1 key2 : String) (xs ys : List R) (h1 : data.getAllValues key1 = .ok xs)
    (h2 : data.getAllValues key2 = .ok ys) (hx : xs ≠ []) (hlen : xs.length = ys.length) :
    AnalyzeData.pearsons sqrt data key1 key2 = .ok (pearsonsFormula sqrt xs ys) := by
  have hy : ys ≠ [] := by
    intro hy
    subst hy
    exact hx (List.length_eq_zero.mp hlen)
  rw [pearsons_eq sqrt data key1 key2 xs ys h1 h2 hx hy]
  have hm : min xs.length ys.length = xs.length := by omega
  have hdx : xs.drop xs.length = [] := List.drop_length xs
  have hdy : ys.drop xs.length = [] := by
    rw [hlen]
    exact List.drop_length ys
  unfold pearsonsFormula
  simp only [hm, hdx, hdy, List.sum_nil, add_zero]

/-- On the series A = 1, 2, 4 and B = 1, 3 the sample size is 2 and `sum(xsq)` is
1 + 4 + 4: the radicand is 36 where the formula over the first two elements has 4. -/
theorem pearsons_unequal_example (sqrt : ℚ → ℚ) :
    AnalyzeData.pearsons sqrt unequalParser "A" "B" = .ok (2 / sqrt 36) ∧
    pearsonsFormula sqrt [1, 2, 4] [1, 3] = 2 / sqrt 4 := by
  have hA : unequalParser.getAllValues "A" = .ok [1, 2, 4] := rfl
  have hB : unequalParser.getAllValues "B" = .ok [1, 3] := rfl
  refine ⟨?_, ?_⟩
  · rw [pearsons_eq sqrt unequalParser "A" "B" [1, 2, 4] [1, 3] hA hB (by simp) (by simp)]
    norm_num
  · unfold pearsonsFormula
    norm_num

/-- C21. `pearsons` does not ignore the elements of the longer series beyond the
sample size: with B = 1, 3 the series A = 1, 2, 4 gives 1/3 and A = 1, 2, 12 gives
1/5, where the formula over the first two elements of each gives 1 both times. The
third element of A reaches the result through `sum(xsq)`, which runs over the whole
vector. -/
theorem pearsons_tail_influence :
    AnalyzeData.pearsons Rat.sqrt unequalParser "A" "B" = .ok (1 / 3) ∧
    AnalyzeData.pearsons Rat.sqrt
      { values := [("A", [[1, 2, 12]]), ("B", [[1, 3]])] } "A" "B" = .ok (1 / 5) ∧
    pearsonsFormula Rat.sqrt [1, 2, 4] [1, 3] = 1 ∧
    pearsonsFormula Rat.sqrt [1, 2, 12] [1, 3] = 1 := by
  have h4 : Rat.sqrt 4 = 2 := by
    rw [show (4 : ℚ) = 2 * 2 by norm_num, Rat.sqrt_eq]
    norm_num
  have h36 : Rat.sqrt 36 = 6 := by
    rw [show (36 : ℚ) = 6 * 6 by norm_num, Rat.sqrt_eq]
    norm_num
  have h100 : Rat.sqrt 100 = 10 := by
    rw [show (100 : ℚ) = 10 * 10 by norm_num, Rat.sqrt_eq]
    norm_num
  refine ⟨?_, ?_, ?_, ?_⟩
  · rw [(pearsons_unequal_example Rat.sqrt).1, h36]
    norm_num
  · have hA : (UTChemParser.getAllValues
        ({ values := [("A", [[1, 2, 12]]), ("B", [[1, 3]])] } : UTChemParser ℚ) "A")
        = .ok [1, 2, 12] := rfl
    have hB : (UTChemParser.getAllValues
        ({ values := [("A", [[1, 2, 12]]), ("B", [[1, 3]])] } : UTChemParser ℚ) "B")
        = .ok [1, 3] := rfl
    rw [pearsons_eq Rat.sqrt _ "A" "B" [1, 2, 12] [1, 3] hA hB (by simp) (by simp)]
    norm_num [h100]
  · rw [(pearsons_unequal_example Rat.sqrt).2, h4]
    norm_num
  · unfold pearsonsFormula
    norm_num [h4]

/-- C22. For two non-empty series, of equal or different lengths, `pearsons(a, b)`
and `pearsons(b, a)` return the same value. -/
theorem pearsons_symmetric {R : Type} [Field R] (sqrt : R → R) (data : UTChemParser R)
    (key1 key2 : String) (xs ys : List R) (h1 : data.getAllValues key1 = .ok xs)
    (h2 : data.getAllValues key2 = .ok ys) (hx : xs ≠ []) (hy : ys ≠ []) :
    ∃ r, AnalyzeData.pearsons sqrt data key1 key2 = .ok r ∧
      AnalyzeData.pearsons sqrt data key2 key1 = .ok r := by
  refine ⟨_, pearsons_eq sqrt data key1 key2 xs ys h1 h2 hx hy, ?_⟩
  rw [← pearsons_comm sqrt data key1 key2]
  exact pearsons_eq sqrt data key1 key2 xs ys h1 h2 hx hy

/-- The symmetry of C22 on two series of different lengths. -/
theorem pearsons_symmetric_witness :
    ∃ r, AnalyzeData.pearsons Rat.sqrt unequalParser "A" "B" = .ok r ∧
      AnalyzeData.pearsons Rat.sqrt unequalParser "B" "A" = .ok r :=
  pearsons_symmetric Rat.sqrt unequalParser "A" "B" [1, 2, 4] [1, 3] rfl rfl
    (by simp) (by simp)

/-- C23, as stated, fails: for the key EMPTY, parsed with no value, `sum` returns 0
and `mean` returns the quotient of 0 by the window size 0; neither fails. -/
theorem empty_series_counterexample :
    emptyParser.getAllValues "EMPTY" = .ok [] ∧
    AnalyzeData.sum emptyParser "EMPTY" 0 = .ok 0 ∧
    AnalyzeData.mean emptyParser "EMPTY" 0 = .ok (0 / ((0 : Nat) : ℚ)) := by
  have hv : emptyParser.getAllValues "EMPTY" = .ok [] := rfl
  refine ⟨hv, ?_, ?_⟩
  · rw [(sum_eq emptyParser "EMPTY" 0 [] hv).1]
    rfl
  · rw [mean_eq emptyParser "EMPTY" 0 [] hv]
    rfl

/-- C23. For a key whose series is empty, `sum` returns 0 for every sample size, and
`pearsons` with a key that has a series, on either side, stops on its assertion that
the sample size is not 0. -/
theorem empty_series {R : Type} [Field R] (sqrt : R → R) (data : UTChemParser R)
    (key key2 : String) (ys : List R) (h : data.getAllValues key = .ok [])
    (h2 : data.getAllValues key2 = .ok ys) :
    (∀ n, AnalyzeData.sum data key n = .ok 0) ∧
    AnalyzeData.pearsons sqrt data key key2 = .error Failure.assertion ∧
    AnalyzeData.pearsons sqrt data key2 key = .error Failure.assertion := by
  refine ⟨?_, pearsons_empty sqrt data key key2 [] ys h h2 (Or.inl rfl),
    pearsons_empty sqrt data key2 key ys [] h2 h (Or.inr rfl)⟩
  intro n
  rw [(sum_eq data key n [] h).1]
  simp

/-- The empty series of C23 in the parser that holds the key EMPTY with no value. -/
theorem empty_series_witness :
    (∀ n, AnalyzeData.sum emptyParser "EMPTY" n = .ok 0) ∧
    AnalyzeData.pearsons Rat.sqrt emptyParser "EMPTY" "PERM" = .error Failure.assertion ∧
    AnalyzeData.pearsons Rat.sqrt emptyParser "PERM" "EMPTY" = .error Failure.assertion :=
  empty_series Rat.sqrt emptyParser "EMPTY" "PERM" [2, 4, 6] rfl rfl

/-! ## filter -/

/-- The loop of `filter` from counter `k` on: the pairs pushed are those of the
elements in range, in order, each with the coordinate of its index. -/
theorem filter_loop_eq {R C : Type} [LinearOrder R] (getCoordinate : Nat → C)
    (lower upper : R) (vals : List R) (k : Nat) (ret : List (R × C)) :
    (vals.enumFrom k).foldl
        (fun ret iv =>
          if iv.2 ≥ lower ∧ iv.2 ≤ upper then ret ++ [(iv.2, getCoordinate iv.1)] else ret)
        ret
      = ret ++ ((vals.enumFrom k).filter
          (fun iv => decide (lower ≤ iv.2 ∧ iv.2 ≤ upper))).map
          (fun iv => (iv.2, getCoordinate iv.1)) := by
  induction vals generalizing k ret with
  | nil => simp
  | cons v vals ih =>
    rw [List.enumFrom_cons, List.foldl_cons, ih]
    by_cases h : lower ≤ v ∧ v ≤ upper
    · simp [h, List.filter_cons]
    · simp [h, List.filter_cons]

/-- Dropping the indices after filtering the indexed series leaves the filtered
series. -/
theorem filter_enumFrom_values {R : Type} (q : R → Bool) (vals : List R) (k : Nat) :
    (((vals.enumFrom k).filter (fun iv => q iv.2)).map (fun iv => iv.2)) = vals.filter q := by
  induction vals generalizing k with
  | nil => simp
  | cons v vals ih =>
    rw [List.enumFrom_cons]
    by_cases h : q v = true
    · simp [List.filter_cons, h, ih]
    · simp [List.filter_cons, h, ih]

/-- C30. `filter(key, lower, upper)` returns, in series order, the values `v` of
`getAllValues(key)` with `lower <= v <= upper`, each paired with `getCoordinate` of
its index in the unfiltered series. -/
theorem filter_in_range {R C : Type} [LinearOrder R] (getCoordinate : Nat → C)
    (data : UTChemParser R) (key : String) (lower upper : R) (vals : List R)
    (h : data.getAllValues key = .ok vals) :
    AnalyzeData.filter getCoordinate data key lower upper
      = .ok ((vals.enum.filter (fun iv => decide (lower ≤ iv.2 ∧ iv.2 ≤ upper))).map
          (fun iv => (iv.2, getCoordinate iv.1))) ∧
    ((vals.enum.filter (fun iv => decide (lower ≤ iv.2 ∧ iv.2 ≤ upper))).map
        (fun iv => (iv.2, getCoordinate iv.1))).map (fun vc => vc.1)
      = vals.filter (fun v => decide (lower ≤ v ∧ v ≤ upper)) ∧
    ∀ vc ∈ (vals.enum.filter (fun iv => decide (lower ≤ iv.2 ∧ iv.2 ≤ upper))).map
        (fun iv => (iv.2, getCoordinate iv.1)),
      ∃ i, vals.get? i = some vc.1 ∧ vc.2 = getCoordinate i ∧ lower ≤ vc.1 ∧ vc.1 ≤ upper := by
  refine ⟨?_, ?_, ?_⟩
  · unfold AnalyzeData.filter
    rw [h]
    simp only [bind, Except.bind, pure, Except.pure]
    rw [List.enum, filter_loop_eq, List.nil_append]
  · rw [List.map_map]
    exact filter_enumFrom_values (fun v => decide (lower ≤ v ∧ v ≤ upper)) vals 0
  · intro vc hvc
    rw [List.mem_map] at hvc
    obtain ⟨iv, hiv, rfl⟩ := hvc
    rw [List.mem_filter] at hiv
    obtain ⟨hmem, hq⟩ := hiv
    have hget : vals.get? iv.1 = some iv.2 := by
      rw [List.get?_eq_getElem?]
      exact List.mk_mem_enum_iff_getElem?.mp hmem
    have hq2 : lower ≤ iv.2 ∧ iv.2 ≤ upper := of_decide_eq_true hq
    exact ⟨iv.1, hget, rfl, hq2.1, hq2.2⟩

/-- The filter of C30 on the sample series 2, 4, 6 with the range [3, 6] and the
index itself as coordinate: the values 4 and 6 with the indices 1 and 2. -/
theorem filter_in_range_witness :
    AnalyzeData.filter (fun i => i) sampleParser "PERM" 3 6 = .ok [(4, 1), (6, 2)] := by
  have h := (filter_in_range (fun i => i) sampleParser "PERM" 3 6 [2, 4, 6] rfl).1
  rw [h]
  norm_num [List.enum, List.enumFrom, List.filter]

/-! ## The receives of the coordinator: tags and the receive log -/

/-- The message `takeTagged` finds carries the tag asked for. -/
theorem takeTagged_tag {R : Type} (tag : Nat) (q q' : List (Msg R)) (m : Msg R)
    (h : takeTagged tag q = some (m, q')) : m.tag = tag := by
  induction q generalizing q' with
  | nil => exact Option.noConfusion h
  | cons a q ih =>
    unfold takeTagged at h
    by_cases ha : a.tag = tag
    · rw [if_pos ha] at h
      simp only [Option.some.injEq, Prod.mk.injEq] at h
      rw [← h.1]
      exact ha
    · rw [if_neg ha] at h
      cases ht : takeTagged tag q with
      | none => rw [ht] at h; exact Option.noConfusion h
      | some r =>
        obtain ⟨m1, q1⟩ := r
        rw [ht] at h
        simp only [Option.map_some', Option.some.injEq, Prod.mk.injEq] at h
        exact ih q1 (by rw [ht, h.1])

/-- A completed receive is of a message of tag 1 and adds one entry to the log. -/
theorem mpiRecv_some {R : Type} (type : Datatype) (count : Nat) (st st' : RxState R)
    (m : Msg R) (h : mpiRecv type count st = some (m, st')) :
    m.tag = 1 ∧ st'.log = st.log ++ [(type, count)] := by
  unfold mpiRecv at h
  cases ht : takeTagged 1 st.queue with
  | none => rw [ht] at h; exact Option.noConfusion h
  | some r =>
    obtain ⟨m1, q⟩ := r
    rw [ht] at h
    simp only [] at h
    by_cases hs : m1.payload.signature = (type, count)
    · rw [if_pos hs] at h
      simp only [Option.some.injEq, Prod.mk.injEq] at h
      rw [← h.1, ← h.2]
      exact ⟨takeTagged_tag 1 _ _ _ ht, rfl⟩
    · rw [if_neg hs] at h
      exact Option.noConfusion h

/-- The status of a completed receive of one `unsigned` carries tag 1, and the receive
is logged. -/
theorem recvUnsigned_some {R : Type} (st st' : RxState R) (v : Nat) (status : Msg R)
    (h : recvUnsigned st = some (v, status, st')) :
    status.tag = 1 ∧ st'.log = st.log ++ [(Datatype.MPI_UNSIGNED, 1)] := by
  unfold recvUnsigned at h
  cases hm : mpiRecv Datatype.MPI_UNSIGNED 1 st with
  | none => rw [hm] at h; exact Option.noConfusion h
  | some r =>
    obtain ⟨m, st1⟩ := r
    rw [hm] at h
    simp only [] at h
    have hr := mpiRecv_some _ _ _ _ _ hm
    split at h
    · simp only [Option.some.injEq, Prod.mk.injEq] at h
      rw [← h.2.1, ← h.2.2]
      exact hr
    · exact Option.noConfusion h

/-- A completed receive of bytes extends the log. -/
theorem recvBytes_log {R : Type} (count : Nat) (st st' : RxState R) (cs : List Char)
    (h : recvBytes count st = some (cs, st')) : ∃ l, st'.log = st.log ++ l := by
  unfold recvBytes at h
  cases hm : mpiRecv Datatype.MPI_BYTE count st with
  | none => rw [hm] at h; exact Option.noConfusion h
  | some r =>
    obtain ⟨m, st1⟩ := r
    rw [hm] at h
    simp only [] at h
    have hr := mpiRecv_some _ _ _ _ _ hm
    split at h
    · simp only [Option.some.injEq, Prod.mk.injEq] at h
      rw [← h.2]
      exact ⟨_, hr.2⟩
    · exact Option.noConfusion h

/-- A completed receive of doubles extends the log. -/
theorem recvDoubles_log {R : Type} (count : Nat) (st st' : RxState R) (ds : List R)
    (h : recvDoubles count st = some (ds, st')) : ∃ l, st'.log = st.log ++ l := by
  unfold recvDoubles at h
  cases hm : mpiRecv Datatype.MPI_DOUBLE count st with
  | none => rw [hm] at h; exact Option.noConfusion h
  | some r =>
    obtain ⟨m, st1⟩ := r
    rw [hm] at h
    simp only [] at h
    have hr := mpiRecv_some _ _ _ _ _ hm
    split at h
    · simp only [Option.some.injEq, Prod.mk.injEq] at h
      rw [← h.2]
      exact ⟨_, hr.2⟩
    · exact Option.noConfusion h

/-- A scalar block extends the log, and its column holds a value exactly when the
block ran. -/
theorem recvStat_some {R : Type} (enabled : Bool) (st st' : RxState R) (o : Option R)
    (h : recvStat enabled st = some (o, st')) :
    o.isSome = enabled ∧ ∃ l, st'.log = st.log ++ l := by
  unfold recvStat at h
  cases enabled with
  | false =>
    simp only [Bool.false_eq_true, if_false, Option.some.injEq, Prod.mk.injEq] at h
    rw [← h.1, ← h.2]
    exact ⟨rfl, [], (List.append_nil _).symm⟩
  | true =>
    simp only [if_true] at h
    cases hd : recvDoubles 1 st with
    | none => rw [hd] at h; exact Option.noConfusion h
    | some r =>
      obtain ⟨ds, st1⟩ := r
      rw [hd] at h
      have hl := recvDoubles_log _ _ _ _ hd
      split at h
      · rename_i heq
        simp only [Option.some.injEq, Prod.mk.injEq] at h heq
        rw [← h.1, ← h.2, ← heq.2]
        exact ⟨rfl, hl⟩
      · exact Option.noConfusion h

/-- The grid block extends the log. -/
theorem recvGrid_log {R : Type} (enabled : Bool) (st st' : RxState R)
    (o : Option (List R)) (h : recvGrid enabled st = some (o, st')) :
    ∃ l, st'.log = st.log ++ l := by
  unfold recvGrid at h
  cases enabled with
  | false =>
    simp only [Bool.false_eq_true, if_false, Option.some.injEq, Prod.mk.injEq] at h
    rw [← h.2]
    exact ⟨[], (List.append_nil _).symm⟩
  | true =>
    simp only [if_true] at h
    cases h1 : recvUnsigned st with
    | none => rw [h1] at h; exact Option.noConfusion h
    | some x =>
      obtain ⟨numElems, m, st1⟩ := x
      rw [h1] at h
      simp only [] at h
      cases h2 : recvDoubles numElems st1 with
      | none => rw [h2] at h; exact Option.noConfusion h
      | some y =>
        obtain ⟨dVals, st2⟩ := y
        rw [h2] at h
        simp only [Option.some.injEq, Prod.mk.injEq] at h
        obtain ⟨l2, hl2⟩ := recvDoubles_log _ _ _ _ h2
        rw [← h.2, hl2, (recvUnsigned_some _ _ _ _ h1).2, List.append_assoc]
        exact ⟨_, rfl⟩

/-- The receives of one parameter extend the log, and each of the five columns holds
a value exactly when its bit is set in the received stats vector. -/
theorem recvParameter_some {R : Type} (st st' : RxState R) (r : Received R)
    (h : recvParameter st = some (r, st')) :
    (r.sum.isSome = hasStat r.stats Parameter.SUM ∧
      r.mean.isSome = hasStat r.stats Parameter.MEAN ∧
      r.variance.isSome = hasStat r.stats Parameter.VARIANCE ∧
      r.stddev.isSome = hasStat r.stats Parameter.STDDEV ∧
      r.pearson.isSome = hasStat r.stats Parameter.PEARSON) ∧
    ∃ l, st'.log = st.log ++ l := by
  unfold recvParameter at h
  simp only [Option.bind_eq_bind, Option.bind_eq_some, Option.pure_def, Option.some.injEq,
    Prod.mk.injEq, Prod.exists] at h
  obtain ⟨nSize, m1, st1, h1, buf, st2, h2, stats, m2, st3, h3, name, _, sum, st4, h4, mean,
    st5, h5, variance, st6, h6, stddev, st7, h7, pearson, st8, h8, cells, st9, h9, hr, hst⟩ := h
  have e1 := (recvUnsigned_some _ _ _ _ h1).2
  obtain ⟨l2, e2⟩ := recvBytes_log _ _ _ _ h2
  have e3 := (recvUnsigned_some _ _ _ _ h3).2
  obtain ⟨b4, l4, e4⟩ := recvStat_some _ _ _ _ h4
  obtain ⟨b5, l5, e5⟩ := recvStat_some _ _ _ _ h5
  obtain ⟨b6, l6, e6⟩ := recvStat_some _ _ _ _ h6
  obtain ⟨b7, l7, e7⟩ := recvStat_some _ _ _ _ h7
  obtain ⟨b8, l8, e8⟩ := recvStat_some _ _ _ _ h8
  obtain ⟨l9, e9⟩ := recvGrid_log _ _ _ _ h9
  refine ⟨?_, ?_⟩
  · rw [← hr]
    exact ⟨b4, b5, b6, b7, b8⟩
  · rw [← hst, e9, e8, e7, e6, e5, e4, e3, e2, e1]
    simp only [List.append_assoc]
    exact ⟨_, rfl⟩

/-- The parameter loop extends the log. -/
theorem collectParameters_log {R : Type} (i count : Nat) (st st' : RxState R)
    (c c' : Collected R) (h : collectParameters i count st c = some (st', c')) :
    ∃ l, st'.log = st.log ++ l := by
  induction count generalizing st c with
  | zero =>
    simp only [collectParameters, Option.some.injEq, Prod.mk.injEq] at h
    rw [← h.1]
    exact ⟨[], (List.append_nil _).symm⟩
  | succ count ih =>
    unfold collectParameters at h
    cases hp : recvParameter st with
    | none => rw [hp] at h; exact Option.noConfusion h
    | some x =>
      obtain ⟨r, st1⟩ := x
      rw [hp] at h
      simp only [] at h
      obtain ⟨l1, e1⟩ := (recvParameter_some _ _ _ hp).2
      obtain ⟨l2, e2⟩ := ih st1 _ h
      rw [e2, e1, List.append_assoc]
      exact ⟨_, rfl⟩

/-! ## The loop over ranks -/

/-- The receive of protocol step 1 never reports `FATAL_ERROR`: it is posted for
tag 1. -/
theorem recvUnsigned_not_fatal {R : Type} (st st' : RxState R) (v : Nat) (status : Msg R)
    (h : recvUnsigned st = some (v, status, st')) : ¬ (status.tag = FATAL_ERROR) := by
  rw [(recvUnsigned_some st st' v status h).1]
  decide

/-- One completed iteration of the loop over ranks: the receives of rank `i`, the
first of them for `count`, follow those logged before, and one entry with the id
`i - 1` is added to the report. -/
theorem collectStep_some {R : Type} [Field R] (work : List (Option R))
    (chan : Nat → List (Msg R)) (ms ms' : MasterState R) (i : Nat)
    (h : collectStep work chan ms i = some ms') :
    ∃ l rows closed,
      ms'.recvLog = ms.recvLog ++ ((Datatype.MPI_UNSIGNED, 1) :: l).map (fun s => (i, s)) ∧
      ms'.report = ms.report ++
        [{ id := i - 1, percent := (readWork work (i - 1)).map (fun w => w * 100),
           rows := rows, closed := closed }] := by
  unfold collectStep at h
  cases hu : recvUnsigned { queue := chan i, log := ([] : List (Datatype × Nat)) } with
  | none => rw [hu] at h; exact Option.noConfusion h
  | some x =>
    obtain ⟨count, status, st⟩ := x
    rw [hu] at h
    simp only [] at h
    have hlog := (recvUnsigned_some _ _ _ _ hu).2
    have hfat := recvUnsigned_not_fatal _ _ _ _ hu
    unfold collectAfterCount at h
    rw [if_neg hfat] at h
    cases hp : collectParameters i count st
        { rows := [], fullGrids := ms.fullGrids, gridNames := ms.gridNames } with
    | none => rw [hp] at h; exact Option.noConfusion h
    | some y =>
      obtain ⟨st2, c2⟩ := y
      rw [hp] at h
      simp only [Option.some.injEq] at h
      obtain ⟨l, hl⟩ := collectParameters_log _ _ _ _ _ _ hp
      rw [hlog, List.nil_append, List.singleton_append] at hl
      refine ⟨l, c2.rows, true, ?_, ?_⟩
      · rw [← h, hl]
      · rw [← h]

/-- Loop invariant of the loop over ranks after the iterations `i = 1 .. n`: the
logged receives are in ascending rank order, they are from the ranks `1 .. n`, each
of these ranks had its `count` received, and the report has one entry per rank. -/
theorem collectLoop_inv {R : Type} [Field R] (work : List (Option R))
    (chan : Nat → List (Msg R)) (n : Nat) (ms : MasterState R)
    (h : (List.range' 1 n).foldlM (collectStep work chan)
      { report := [], fullGrids := [], gridNames := [], recvLog := [] } = some ms) :
    List.Pairwise (fun a b => a.1 ≤ b.1) ms.recvLog ∧
    (∀ e ∈ ms.recvLog, 1 ≤ e.1 ∧ e.1 ≤ n) ∧
    (∀ i, 1 ≤ i → i ≤ n → (i, Datatype.MPI_UNSIGNED, 1) ∈ ms.recvLog) ∧
    ms.report.map (fun e => e.id) = List.range n := by
  induction n generalizing ms with
  | zero =>
    simp only [List.range'_zero, List.foldlM_nil, Option.pure_def, Option.some.injEq] at h
    rw [← h]
    refine ⟨List.Pairwise.nil, ?_, ?_, rfl⟩
    · intro e he
      exact absurd he (List.not_mem_nil e)
    · intro i h1 h0
      omega
  | succ n ih =>
    rw [List.range'_concat, List.foldlM_append] at h
    cases h0 : (List.range' 1 n).foldlM (collectStep work chan)
        { report := [], fullGrids := [], gridNames := [], recvLog := [] } with
    | none =>
      rw [h0] at h
      exact Option.noConfusion h
    | some ms0 =>
      rw [h0] at h
      simp only [Option.bind_eq_bind, Option.some_bind, List.foldlM_cons, List.foldlM_nil,
        one_mul, Option.pure_def, Option.bind_some] at h
      obtain ⟨hpw, hrange, hcount, hrep⟩ := ih ms0 h0
      obtain ⟨l, rows, closed, hlog, hreport⟩ := collectStep_some work chan ms0 ms (1 + n) h
      refine ⟨?_, ?_, ?_, ?_⟩
      · rw [hlog, List.pairwise_append]
        refine ⟨hpw, ?_, ?_⟩
        · rw [List.pairwise_map]
          exact List.pairwise_of_forall (fun _ _ => le_refl _)
        · intro a ha b hb
          rw [List.mem_map] at hb
          obtain ⟨s, _, rfl⟩ := hb
          have := (hrange a ha).2
          show a.1 ≤ 1 + n
          omega
      · intro e he
        rw [hlog, List.mem_append] at he
        rcases he with he | he
        · have := hrange e he
          omega
        · rw [List.mem_map] at he
          obtain ⟨s, _, rfl⟩ := he
          show 1 ≤ 1 + n ∧ 1 + n ≤ n + 1
          omega
      · intro i h1 hi
        rw [hlog, List.mem_append]
        by_cases hin : i ≤ n
        · exact Or.inl (hcount i h1 hin)
        · have hi2 : i = 1 + n := by omega
          subst hi2
          exact Or.inr (List.mem_map.mpr ⟨_, List.mem_cons_self _ _, rfl⟩)
      · rw [hreport, List.map_append, hrep, List.range_succ]
        simp

/-! ## The claims on the loop over ranks and on the report -/

/-- The sample array `work` is the one `delegateWork` computes. -/
theorem sampleWork_eq : sampleWork = (delegateWork 3 Configuration.SYMMETRIC).work := by
  norm_num [sampleWork, delegateWork, delegateStep, List.range', readWork,
    Configuration.SYMMETRIC, Configuration.POSITIVE, Configuration.NEGATIVE]
  rfl

/-- The run of three processes in which both workers send the PERM report. -/
theorem sample_run :
    collectResults 3 sampleWork sampleChannels
      = some
        { report :=
            [{ id := 0, percent := some (0 * 100),
               rows := [{ name := "PERM", stats := 3, sum := some 12, mean := some 4,
                          variance := none, stddev := none, pearson := none,
                          cellValues := none }],
               closed := true },
             { id := 1, percent := some (1 * 100),
               rows := [{ name := "PERM", stats := 3, sum := some 12, mean := some 4,
                          variance := none, stddev := none, pearson := none,
                          cellValues := none }],
               closed := true }],
          fullGrids := [],
          gridNames := [],
          recvLog :=
            [(1, Datatype.MPI_UNSIGNED, 1), (1, Datatype.MPI_UNSIGNED, 1),
             (1, Datatype.MPI_BYTE, 5), (1, Datatype.MPI_UNSIGNED, 1),
             (1, Datatype.MPI_DOUBLE, 1), (1, Datatype.MPI_DOUBLE, 1),
             (2, Datatype.MPI_UNSIGNED, 1), (2, Datatype.MPI_UNSIGNED, 1),
             (2, Datatype.MPI_BYTE, 5), (2, Datatype.MPI_UNSIGNED, 1),
             (2, Datatype.MPI_DOUBLE, 1), (2, Datatype.MPI_DOUBLE, 1)] } :=
  rfl

/-- C27. The report row of a decoded parameter is the name followed by five
comma-separated columns in the order SUM, MEAN, VARIANCE, STDDEV, PEARSON; a column
reads NA when its bit is unset in the received stats vector and is the text of the
received value when it is set. For the mask SUM | MEAN with sum 12 and mean 4 the
columns read 12,4,NA,NA,NA. -/
theorem report_row_columns {R : Type} [Field R] (fmt : R → String) (st st' : RxState R)
    (r : Received R) (h : recvParameter st = some (r, st')) :
    (∃ c1 c2 c3 c4 c5 : String,
      reportRow fmt r = r.name ++ "," ++ c1 ++ "," ++ c2 ++ "," ++ c3 ++ "," ++ c4 ++ "," ++ c5 ∧
      ColumnShows fmt (hasStat r.stats Parameter.SUM) r.sum c1 ∧
      ColumnShows fmt (hasStat r.stats Parameter.MEAN) r.mean c2 ∧
      ColumnShows fmt (hasStat r.stats Parameter.VARIANCE) r.variance c3 ∧
      ColumnShows fmt (hasStat r.stats Parameter.STDDEV) r.stddev c4 ∧
      ColumnShows fmt (hasStat r.stats Parameter.PEARSON) r.pearson c5) ∧
    (∀ name : String, fmt 12 = "12" → fmt 4 = "4" →
      reportRow fmt { name := name, stats := Parameter.SUM ||| Parameter.MEAN,
                      sum := some 12, mean := some 4, variance := none, stddev := none,
                      pearson := none, cellValues := none }
        = name ++ "," ++ "12,4,NA,NA,NA") := by
  have hcol : ∀ (enabled : Bool) (field : Option R), field.isSome = enabled →
      ColumnShows fmt enabled field (reportColumn fmt field) := by
    intro enabled field hf
    cases field with
    | none =>
      refine ⟨fun _ => rfl, fun he => ?_⟩
      rw [he] at hf
      exact Bool.noConfusion hf
    | some val =>
      refine ⟨fun he => ?_, fun _ => ⟨val, rfl, rfl⟩⟩
      rw [he] at hf
      exact Bool.noConfusion hf
  obtain ⟨⟨h1, h2, h3, h4, h5⟩, _⟩ := recvParameter_some st st' r h
  refine ⟨⟨_, _, _, _, _, rfl, hcol _ _ h1, hcol _ _ h2, hcol _ _ h3, hcol _ _ h4,
    hcol _ _ h5⟩, ?_⟩
  intro name h12 h4
  simp only [reportRow, reportColumn, h12, h4, String.append_assoc]
  rfl

/-- The row of C27 for the parameter decoded from the PERM report, with a format that
writes 12 and 4 as the source does. -/
theorem report_row_columns_witness :
    reportRow (fun q : ℚ => if q = 12 then "12" else "4")
        { name := "PERM", stats := Parameter.SUM ||| Parameter.MEAN,
          sum := some 12, mean := some 4, variance := none, stddev := none,
          pearson := none, cellValues := none }
      = "PERM" ++ "," ++ "12,4,NA,NA,NA" :=
  (report_row_columns (fun q : ℚ => if q = 12 then "12" else "4")
    { queue := permReport.drop 1, log := [] } { queue := [], log := _ }
    { name := "PERM", stats := 3, sum := some 12, mean := some 4, variance := none,
      stddev := none, pearson := none, cellValues := none } rfl).2 "PERM"
    (by norm_num) (by norm_num)

/-- C28. The coordinator collects the ranks in ascending order: in the log of a
completed collection every receive for a rank comes before every receive for a
higher rank, all receives are for the ranks `1 .. size - 1`, each of these ranks has
its parameter count received, and the report has one entry per rank, with the ids
`0 .. size - 2` in order. -/
theorem collectResults_sequential {R : Type} [Field R] (size : Nat)
    (work : List (Option R)) (chan : Nat → List (Msg R)) (ms : MasterState R)
    (h : collectResults size work chan = some ms) :
    List.Pairwise (fun a b => a.1 ≤ b.1) ms.recvLog ∧
    (∀ e ∈ ms.recvLog, 1 ≤ e.1 ∧ e.1 ≤ size - 1) ∧
    (∀ i, 1 ≤ i → i ≤ size - 1 → (i, Datatype.MPI_UNSIGNED, 1) ∈ ms.recvLog) ∧
    ms.report.map (fun e => e.id) = List.range (size - 1) :=
  collectLoop_inv work chan (size - 1) ms h

/-- The order of C28 in the run of three processes in which both workers send the
PERM report: six receives for rank 1, then six for rank 2. -/
theorem collectResults_sequential_witness :
    ∃ ms, collectResults 3 sampleWork sampleChannels = some ms ∧
      ms.recvLog.map (fun e => e.1) = [1, 1, 1, 1, 1, 1, 2, 2, 2, 2, 2, 2] ∧
      List.Pairwise (fun a b => a.1 ≤ b.1) ms.recvLog ∧
      ms.report.map (fun e => e.id) = List.range (3 - 1) :=
  ⟨_, sample_run, rfl,
    (collectResults_sequential 3 sampleWork sampleChannels _ sample_run).1,
    (collectResults_sequential 3 sampleWork sampleChannels _ sample_run).2.2.2⟩

/-! # The configuration, the coordinates, the ranges of the statistics and the ids -/

/-! ## The configuration: C31 and C39 -/

/-- The test after the loop of `parse` lets the states NONE and PARAMETER pass and
throws for the four others. -/
theorem unfinishedBlock_ok_iff (s : Configuration.ParserState) :
    Configuration.unfinishedBlock s = .ok s
      ↔ s.parserState = Configuration.PARSESTATE.NONE
        ∨ s.parserState = Configuration.PARSESTATE.PARAMETER := by
  unfold Configuration.unfinishedBlock
  cases h : s.parserState <;> simp

/-- C31. `parse` throws when the input ends in one of the states MAIN, RULES, FILE and
ANALYSIS, but not when it ends in the state PARAMETER: the test after the loop has no
case for it. A file that ends inside a parameter block is parsed without an
exception and leaves the state PARAMETER. -/
theorem parse_unclosed_parameter :
    Configuration.parse openParameterFile
      = .ok { parserState := Configuration.PARSESTATE.PARAMETER, lineno := 3,
              mainOpen := false, rulesOpen := false, fileOpen := false,
              analysisOpen := true, parameterOpen := true } ∧
    Configuration.parse closedFile
      = .ok { parserState := Configuration.PARSESTATE.NONE, lineno := 5,
              mainOpen := false, rulesOpen := false, fileOpen := false,
              analysisOpen := false, parameterOpen := false } ∧
    Configuration.parse ["main \x7b", "exe = \"run\""]
      = .error (Configuration.DCException.unclosed "main") ∧
    Configuration.parse ["rules \x7b"]
      = .error (Configuration.DCException.unclosed "rules") ∧
    Configuration.parse openFileBlock
      = .error (Configuration.DCException.unclosed "file") ∧
    Configuration.parse ["analysis \x7b"]
      = .error (Configuration.DCException.unclosed "analysis") ∧
    ∀ s : Configuration.ParserState,
      (s.parserState = Configuration.PARSESTATE.PARAMETER →
        Configuration.unfinishedBlock s = .ok s) ∧
      (s.parserState ≠ Configuration.PARSESTATE.NONE →
        s.parserState ≠ Configuration.PARSESTATE.PARAMETER →
        ∃ block, Configuration.unfinishedBlock s
          = .error (Configuration.DCException.unclosed block)) := by
  refine ⟨rfl, rfl, rfl, rfl, rfl, rfl, fun s => ⟨fun h => ?_, fun h1 h2 => ?_⟩⟩
  · exact (unfinishedBlock_ok_iff s).mpr (Or.inr h)
  · unfold Configuration.unfinishedBlock
    cases h : s.parserState with
    | NONE => exact absurd h h1
    | MAIN => exact ⟨"main", by simp⟩
    | RULES => exact ⟨"rules", by simp⟩
    | FILE => exact ⟨"file", by simp⟩
    | ANALYSIS => exact ⟨"analysis", by simp⟩
    | PARAMETER => exact absurd h h2

/-- The inner loop of `updateParams` for the parameter `it`. -/
theorem updateParams_inner (it : Parameter) (keys : List String) (acc : List Parameter) :
    keys.foldl (fun newParams itt =>
        if it.name != itt && DCUtil.startsWith itt it.name then
          newParams ++ [({ name := itt, pearson := it.pearson, stats := it.stats } : Parameter)]
        else newParams) acc
      = acc ++ (keys.filter (fun k => it.name != k && DCUtil.startsWith k it.name)).map
          (fun k => { name := k, pearson := it.pearson, stats := it.stats }) := by
  induction keys generalizing acc with
  | nil => simp
  | cons k keys ih =>
    rw [List.foldl_cons, ih]
    by_cases h : (it.name != k && DCUtil.startsWith k it.name) = true
    · rw [if_pos h, List.filter_cons, if_pos h, List.map_cons, List.append_assoc]
      rfl
    · rw [if_neg h, List.filter_cons, if_neg h]

/-- The parameters `updateParams` derives from the parameter `p`. -/
theorem updateParams_outer (params : List Parameter) (keys : List String)
    (acc : List Parameter) :
    params.foldl (fun newParams it =>
        if hasStat it.stats Parameter.ALL_SIMILAR then
          keys.foldl (fun newParams itt =>
            if it.name != itt && DCUtil.startsWith itt it.name then
              newParams ++ [({ name := itt, pearson := it.pearson, stats := it.stats } : Parameter)]
            else newParams) newParams
        else newParams) acc
      = acc ++ params.flatMap (fun p =>
          if hasStat p.stats Parameter.ALL_SIMILAR then
            (keys.filter (fun k => p.name != k && DCUtil.startsWith k p.name)).map
              (fun k => { name := k, pearson := p.pearson, stats := p.stats })
          else []) := by
  induction params generalizing acc with
  | nil => simp
  | cons p params ih =>
    rw [List.foldl_cons, ih, List.flatMap_cons]
    by_cases h : hasStat p.stats Parameter.ALL_SIMILAR = true
    · rw [if_pos h, if_pos h, updateParams_inner, List.append_assoc]
    · rw [if_neg h, if_neg h, List.nil_append]

/-- The value of `updateParams` in closed form. -/
theorem updateParams_eq (params : List Parameter) (keys : List String) :
    Configuration.updateParams params keys
      = params ++ params.flatMap (fun p =>
          if hasStat p.stats Parameter.ALL_SIMILAR then
            (keys.filter (fun k => p.name != k && DCUtil.startsWith k p.name)).map
              (fun k => { name := k, pearson := p.pearson, stats := p.stats })
          else []) := by
  unfold Configuration.updateParams
  simp only []
  rw [updateParams_outer, List.nil_append, foldl_push_eq]

/-- C39. `updateParams(keys)` keeps the existing parameters, unchanged and in order,
at the head of the list, and appends, parameter by parameter and key by key, one
parameter for each pair of an existing parameter `p` with ALL_SIMILAR and a key `k`
that differs from `p.name` and starts with it (`DCUtil::startsWith`); the appended
parameter has the name `k` and the stats vector and correlation partner of `p`. A
list without ALL_SIMILAR is left unchanged. -/
theorem updateParams_appends (params : List Parameter) (keys : List String) :
    Configuration.updateParams params keys
      = params ++ params.flatMap (fun p =>
          if hasStat p.stats Parameter.ALL_SIMILAR then
            (keys.filter (fun k => p.name != k && DCUtil.startsWith k p.name)).map
              (fun k => { name := k, pearson := p.pearson, stats := p.stats })
          else []) ∧
    (Configuration.updateParams params keys).take params.length = params ∧
    ((∀ p ∈ params, hasStat p.stats Parameter.ALL_SIMILAR = false) →
      Configuration.updateParams params keys = params) := by
  refine ⟨updateParams_eq params keys, ?_, ?_⟩
  · rw [updateParams_eq, List.take_left]
  · intro h
    rw [updateParams_eq]
    have : params.flatMap (fun p =>
          if hasStat p.stats Parameter.ALL_SIMILAR then
            (keys.filter (fun k => p.name != k && DCUtil.startsWith k p.name)).map
              (fun k => ({ name := k, pearson := p.pearson, stats := p.stats } : Parameter))
          else []) = [] := by
      rw [List.flatMap_eq_nil_iff]
      intro p hp
      rw [h p hp]
      rfl
    rw [this, List.append_nil]

/-- The parameters of C39 for the parameter PERM with SUM and ALL_SIMILAR and the
parsed keys PERM, PERMX, PERMY and PORO: PERMX and PERMY are appended. -/
theorem updateParams_appends_witness :
    (Configuration.updateParams
        [{ name := "PERM", pearson := "PORO", stats := 0x41 },
         { name := "PORO", pearson := "", stats := 0x01 }]
        ["PERM", "PERMX", "PERMY", "PORO"]).map (fun p => (p.name, p.pearson, p.stats))
      = [("PERM", "PORO", 0x41), ("PORO", "", 0x01), ("PERMX", "PORO", 0x41),
         ("PERMY", "PORO", 0x41)] ∧
    Configuration.updateParams [sampleParameter] ["PERM", "PERMX"] = [sampleParameter] :=
  ⟨by rw [(updateParams_appends _ _).1]; decide,
   (updateParams_appends [sampleParameter] ["PERM", "PERMX"]).2.2 (by decide)⟩

/-! ## getCoordinate: C38 -/

/-- Within the range of `unsigned` no operation of `getCoordinate` wraps: the result
is the quotient and the two remainders of the cell id. -/
theorem getCoordinate_eq {α : Type} [Field α] (nx ny id : Nat) (hx : 1 ≤ nx) (hy : 1 ≤ ny)
    (hxy : nx * ny < 2 ^ 32) (hid : id < 2 ^ 32) :
    UTChemParser.getCoordinate (α := α) nx ny id
      = some { xCoord := ((id % (nx * ny) % nx : Nat) : α),
               yCoord := ((id % (nx * ny) / nx : Nat) : α),
               zCoord := ((id / (nx * ny) : Nat) : α) } := by
  have hpos : 0 < nx * ny := Nat.mul_pos hx hy
  have hm : (nx * ny) % 2 ^ 32 = nx * ny := Nat.mod_eq_of_lt hxy
  have hk : id / (nx * ny) * (nx * ny) ≤ id := Nat.div_mul_le_self id (nx * ny)
  have hkx : id / (nx * ny) * nx ≤ id / (nx * ny) * (nx * ny) :=
    Nat.mul_le_mul_left _ (Nat.le_mul_of_pos_right nx hy)
  have hkx2 : (id / (nx * ny) * nx) % 2 ^ 32 = id / (nx * ny) * nx :=
    Nat.mod_eq_of_lt (by omega)
  have hassoc : id / (nx * ny) * nx * ny = id / (nx * ny) * (nx * ny) := Nat.mul_assoc _ _ _
  have hkxy : (id / (nx * ny) * nx * ny) % 2 ^ 32 = id / (nx * ny) * (nx * ny) := by
    rw [hassoc]
    exact Nat.mod_eq_of_lt (by omega)
  have hrem : id - id / (nx * ny) * (nx * ny) = id % (nx * ny) := by
    have := Nat.div_add_mod id (nx * ny)
    rw [Nat.mul_comm] at this
    omega
  have hsub : (id + 2 ^ 32 - id / (nx * ny) * (nx * ny)) % 2 ^ 32 = id % (nx * ny) := by
    have h1 : id + 2 ^ 32 - id / (nx * ny) * (nx * ny) = id % (nx * ny) + 2 ^ 32 := by omega
    rw [h1, Nat.add_mod_right]
    exact Nat.mod_eq_of_lt (by omega)
  have hj : id % (nx * ny) / nx * nx ≤ id % (nx * ny) := Nat.div_mul_le_self _ _
  have hjm : (id % (nx * ny) / nx * nx) % 2 ^ 32 = id % (nx * ny) / nx * nx :=
    Nat.mod_eq_of_lt (by omega)
  have hi : (id % (nx * ny) + 2 ^ 32 - id % (nx * ny) / nx * nx) % 2 ^ 32
      = id % (nx * ny) % nx := by
    have h2 := Nat.div_add_mod (id % (nx * ny)) nx
    rw [Nat.mul_comm] at h2
    have h1 : id % (nx * ny) + 2 ^ 32 - id % (nx * ny) / nx * nx
        = id % (nx * ny) % nx + 2 ^ 32 := by omega
    rw [h1, Nat.add_mod_right]
    exact Nat.mod_eq_of_lt (by omega)
  have hx0 : ¬ (nx = 0) := by omega
  have hxy0 : ¬ (nx * ny = 0) := by omega
  unfold UTChemParser.getCoordinate
  simp only [hm, hxy0, hx0, if_false, hkx2, hkxy, hsub, hjm, hi]

/-- C38. For `nx >= 1`, `ny >= 1`, with `nx * ny` and the cell id within the range of
`unsigned`, `getCoordinate(id)` is `(i, j, k)` with `i + j * nx + k * nx * ny = id`,
`i < nx` and `j < ny`; hence cell ids with the same coordinate are equal. -/
theorem getCoordinate_decomposition {α : Type} [Field α] [CharZero α] (nx ny id : Nat)
    (hx : 1 ≤ nx) (hy : 1 ≤ ny) (hxy : nx * ny < 2 ^ 32) (hid : id < 2 ^ 32) :
    (∃ i j k : Nat,
      UTChemParser.getCoordinate (α := α) nx ny id
        = some { xCoord := (i : α), yCoord := (j : α), zCoord := (k : α) } ∧
      i + j * nx + k * nx * ny = id ∧ i < nx ∧ j < ny) ∧
    ∀ id2, id2 < 2 ^ 32 →
      UTChemParser.getCoordinate (α := α) nx ny id
        = UTChemParser.getCoordinate (α := α) nx ny id2 → id = id2 := by
  have hpos : 0 < nx * ny := Nat.mul_pos hx hy
  have hdec : ∀ n : Nat, n % (nx * ny) % nx + n % (nx * ny) / nx * nx
      + n / (nx * ny) * nx * ny = n := by
    intro n
    have h1 := Nat.div_add_mod n (nx * ny)
    have h2 := Nat.div_add_mod (n % (nx * ny)) nx
    rw [Nat.mul_comm] at h1 h2
    rw [Nat.mul_assoc]
    omega
  refine ⟨⟨id % (nx * ny) % nx, id % (nx * ny) / nx, id / (nx * ny),
    getCoordinate_eq nx ny id hx hy hxy hid, hdec id, Nat.mod_lt _ hx, ?_⟩, ?_⟩
  · rw [Nat.div_lt_iff_lt_mul hx, Nat.mul_comm ny nx]
    exact Nat.mod_lt _ hpos
  · intro id2 hid2 h
    rw [getCoordinate_eq nx ny id hx hy hxy hid,
      getCoordinate_eq nx ny id2 hx hy hxy hid2] at h
    simp only [Option.some.injEq, Coord3D.mk.injEq, Nat.cast_inj] at h
    obtain ⟨h1, h2, h3⟩ := h
    rw [← hdec id, ← hdec id2, h1, h2, h3]

/-- The coordinate of C38 for cell 7 of a grid with `nx = 2` and `ny = 3`: the cell
(1, 0, 1), since 1 + 0 * 2 + 1 * 2 * 3 = 7. -/
theorem getCoordinate_decomposition_witness :
    (∃ i j k : Nat,
      UTChemParser.getCoordinate (α := ℚ) 2 3 7
        = some { xCoord := (i : ℚ), yCoord := (j : ℚ), zCoord := (k : ℚ) } ∧
      i + j * 2 + k * 2 * 3 = 7 ∧ i < 2 ∧ j < 3) ∧
    ∀ id2, id2 < 2 ^ 32 →
      UTChemParser.getCoordinate (α := ℚ) 2 3 7
        = UTChemParser.getCoordinate (α := ℚ) 2 3 id2 → 7 = id2 :=
  getCoordinate_decomposition 2 3 7 (by decide) (by decide) (by decide) (by decide)

/-! ## Symmetry of computeNorm: C37 -/

/-- C37. For two series of equal length `computeNorm(x, y)` and `computeNorm(y, x)`
return the same value: the squared differences are the same. -/
theorem computeNorm_symmetric {R : Type} [Field R] (sqrt : R → R) (x y : List R)
    (h : x.length = y.length) :
    AnalyzeData.computeNorm sqrt x y = AnalyzeData.computeNorm sqrt y x ∧
    ∃ norm, AnalyzeData.computeNorm sqrt x y = .ok norm := by
  refine ⟨?_, _, computeNorm_ok sqrt x y h⟩
  rw [computeNorm_ok sqrt x y h, computeNorm_ok sqrt y x h.symm, h]
  congr 2
  apply Finset.sum_congr rfl
  intro i _
  ring

/-- The symmetry of C37 on two series of three values. -/
theorem computeNorm_symmetric_witness :
    AnalyzeData.computeNorm Rat.sqrt [1, 2, 3] [1, 2, 5]
      = AnalyzeData.computeNorm Rat.sqrt [1, 2, 5] [1, 2, 3] ∧
    ∃ norm, AnalyzeData.computeNorm Rat.sqrt [1, 2, 3] [1, 2, 5] = .ok norm :=
  computeNorm_symmetric Rat.sqrt [1, 2, 3] [1, 2, 5] rfl

/-! ## The variance as a mean of squared deviations: C32 -/

/-- The squared deviations from any value, summed. -/
theorem sum_sq_deviation {R : Type} [Field R] (w : List R) (mu : R) :
    (w.map (fun x => (x - mu) ^ 2)).sum
      = (w.map (fun x => x * x)).sum - 2 * mu * w.sum + (w.length : R) * mu ^ 2 := by
  induction w with
  | nil => simp
  | cons a w ih =>
    simp only [List.map_cons, List.sum_cons, List.length_cons, Nat.cast_succ]
    rw [ih]
    ring

/-- The mean of the squares less the square of the mean is the mean of the squared
deviations from the mean. -/
theorem variance_identity {R : Type} [Field R] (w : List R) (hm : (w.length : R) ≠ 0) :
    (w.map (fun x => x * x)).sum / (w.length : R)
        - w.sum / (w.length : R) * (w.sum / (w.length : R))
      = 1 / (w.length : R) * (w.map (fun x => (x - w.sum / (w.length : R)) ^ 2)).sum := by
  rw [sum_sq_deviation]
  field_simp
  ring

/-- C32. Over an ordered field, for a non-empty series and the resolved window of `m`
elements, `variance(key, n)` is `1 / m` times the sum of the squared deviations of the
window from `mean(key, n)`; it is not negative, and `stddev(key, n)` is the root of that
value. -/
theorem variance_population {R : Type} [LinearOrderedField R] (sqrt : R → R)
    (data : UTChemParser R) (key : String) (n : Nat) (vals : List R)
    (h : data.getAllValues key = .ok vals) (hne : vals ≠ []) :
    ∃ mu v : R, AnalyzeData.mean data key n = .ok mu ∧
      AnalyzeData.variance data key n = .ok v ∧
      v = 1 / ((if n = 0 ∨ n > vals.length then vals.length else n : Nat) : R)
          * ((vals.take (if n = 0 ∨ n > vals.length then vals.length else n)).map
              (fun x => (x - mu) ^ 2)).sum ∧
      0 ≤ v ∧
      AnalyzeData.stddev sqrt data key n = .ok (sqrt v) := by
  have hlen : 0 < vals.length := List.length_pos.mpr hne
  have hw : ∀ m : Nat, m = (if n = 0 ∨ n > vals.length then vals.length else n) →
      ∃ mu v : R, AnalyzeData.mean data key n = .ok mu ∧
        AnalyzeData.variance data key n = .ok v ∧
        v = 1 / (m : R) * ((vals.take m).map (fun x => (x - mu) ^ 2)).sum ∧
        0 ≤ v ∧ AnalyzeData.stddev sqrt data key n = .ok (sqrt v) := by
    intro m hm
    have hm0 : 0 < m := by
      rw [hm]
      split_ifs <;> omega
    have hmle : m ≤ vals.length := by
      rw [hm]
      split_ifs <;> omega
    have hwl : (vals.take m).length = m := by
      rw [List.length_take]
      omega
    have hmR : ((vals.take m).length : R) ≠ 0 := by
      rw [hwl]
      exact Nat.cast_ne_zero.mpr (by omega)
    have hid := variance_identity (vals.take m) hmR
    rw [hwl] at hid
    have hvar := variance_eq data key n vals h
    rw [← hm] at hvar
    have hmean := mean_eq data key n vals h
    rw [← hm] at hmean
    refine ⟨_, _, hmean, hvar, hid, ?_, ?_⟩
    · rw [hid]
      apply mul_nonneg
      · apply div_nonneg zero_le_one
        exact Nat.cast_nonneg m
      · apply List.sum_nonneg
        intro x hx
        rw [List.mem_map] at hx
        obtain ⟨y, _, rfl⟩ := hx
        exact sq_nonneg _
    · simp only [AnalyzeData.stddev, hvar]
      rfl
  exact hw _ rfl

/-- The variance of C32 on the sample series 2, 4, 6: the mean is 4 and the variance
is a third of 4 + 0 + 4. -/
theorem variance_population_witness :
    ∃ mu v : ℚ, AnalyzeData.mean sampleParser "PERM" 0 = .ok mu ∧
      AnalyzeData.variance sampleParser "PERM" 0 = .ok v ∧
      v = 1 / ((if 0 = 0 ∨ 0 > ([2, 4, 6] : List ℚ).length
            then ([2, 4, 6] : List ℚ).length else 0 : Nat) : ℚ)
          * ((([2, 4, 6] : List ℚ).take (if 0 = 0 ∨ 0 > ([2, 4, 6] : List ℚ).length
              then ([2, 4, 6] : List ℚ).length else 0)).map
              (fun x => (x - mu) ^ 2)).sum ∧
      0 ≤ v ∧
      AnalyzeData.stddev Rat.sqrt sampleParser "PERM" 0 = .ok (Rat.sqrt v) :=
  variance_population Rat.sqrt sampleParser "PERM" 0 [2, 4, 6] rfl (by simp)

/-! ## The range of pearsons: C33 -/

/-- The squares of `x t + y` over two series of one length, summed. -/
theorem sum_sq_line {R : Type} [Field R] (xs ys : List R) (h : xs.length = ys.length)
    (t : R) :
    (List.zipWith (fun x y => (x * t + y) ^ 2) xs ys).sum
      = (xs.map (fun x => x * x)).sum * (t * t)
        + 2 * (List.zipWith (fun x y => x * y) xs ys).sum * t
        + (ys.map (fun y => y * y)).sum := by
  induction xs generalizing ys with
  | nil =>
    cases ys with
    | nil => simp
    | cons b ys => simp at h
  | cons a xs ih =>
    cases ys with
    | nil => simp at h
    | cons b ys =>
      have h2 : xs.length = ys.length := by simpa using h
      simp only [List.zipWith_cons_cons, List.map_cons, List.sum_cons]
      rw [ih ys h2]
      ring

/-- The inequality of Cauchy and Schwarz for two series of one length. -/
theorem cauchy_schwarz_list {R : Type} [LinearOrderedField R] (xs ys : List R)
    (h : xs.length = ys.length) :
    (List.zipWith (fun x y => x * y) xs ys).sum ^ 2
      ≤ (xs.map (fun x => x * x)).sum * (ys.map (fun y => y * y)).sum := by
  have hq : ∀ t : R, 0 ≤ (xs.map (fun x => x * x)).sum * (t * t)
      + 2 * (List.zipWith (fun x y => x * y) xs ys).sum * t
      + (ys.map (fun y => y * y)).sum := by
    intro t
    rw [← sum_sq_line xs ys h t]
    apply List.sum_nonneg
    intro v hv
    rw [List.mem_iff_get] at hv
    obtain ⟨i, rfl⟩ := hv
    simp only [List.get_eq_getElem, List.getElem_zipWith]
    exact sq_nonneg _
  have hd := discrim_le_zero hq
  unfold discrim at hd
  nlinarith [hd]

/-- The series shifted by a constant and scaled: what the inequality is applied to. -/
theorem centred_sums {R : Type} [Field R] (xs ys : List R) (h : xs.length = ys.length) :
    (List.zipWith (fun x y => x * y)
        (xs.map (fun x => (xs.length : R) * x - xs.sum))
        (ys.map (fun y => (xs.length : R) * y - ys.sum))).sum
      = (xs.length : R) * ((xs.length : R) * (List.zipWith (fun x y => x * y) xs ys).sum
          - xs.sum * ys.sum) ∧
    ((xs.map (fun x => (xs.length : R) * x - xs.sum)).map (fun x => x * x)).sum
      = (xs.length : R) * ((xs.length : R) * (xs.map (fun x => x * x)).sum
          - xs.sum * xs.sum) := by
  have hz : ∀ (a b : List R) (c s u : R), a.length = b.length →
      (List.zipWith (fun x y => x * y) (a.map (fun x => c * x - s))
        (b.map (fun y => c * y - u))).sum
        = c * c * (List.zipWith (fun x y => x * y) a b).sum - c * u * a.sum - c * s * b.sum
          + (a.length : R) * s * u := by
    intro a
    induction a with
    | nil =>
      intro b c s u hab
      cases b with
      | nil => simp
      | cons y b => simp at hab
    | cons x a ih =>
      intro b c s u hab
      cases b with
      | nil => simp at hab
      | cons y b =>
        have hab2 : a.length = b.length := by simpa using hab
        simp only [List.map_cons, List.zipWith_cons_cons, List.sum_cons, List.length_cons,
          Nat.cast_succ]
        rw [ih b c s u hab2]
        ring
  have hsq : ∀ (a : List R) (c s : R),
      ((a.map (fun x => c * x - s)).map (fun x => x * x)).sum
        = c * c * (a.map (fun x => x * x)).sum - 2 * c * s * a.sum + (a.length : R) * s * s := by
    intro a c s
    induction a with
    | nil => simp
    | cons x a ih =>
      simp only [List.map_cons, List.sum_cons, List.length_cons, Nat.cast_succ]
      rw [ih]
      ring
  refine ⟨?_, ?_⟩
  · rw [hz xs ys _ _ _ h]
    ring
  · rw [hsq]
    ring

/-- The square of the numerator of `pearsons` is at most the radicand of its
denominator. -/
theorem pearsons_numerator_sq {R : Type} [LinearOrderedField R] (xs ys : List R)
    (h : xs.length = ys.length) (hx : xs ≠ []) :
    ((xs.length : R) * (List.zipWith (fun x y => x * y) xs ys).sum - xs.sum * ys.sum) ^ 2
      ≤ ((xs.length : R) * (xs.map (fun x => x * x)).sum - xs.sum * xs.sum)
        * ((xs.length : R) * (ys.map (fun y => y * y)).sum - ys.sum * ys.sum) := by
  have hn : (0 : R) < (xs.length : R) := Nat.cast_pos.mpr (List.length_pos.mpr hx)
  have hcs := cauchy_schwarz_list (xs.map (fun x => (xs.length : R) * x - xs.sum))
    (ys.map (fun y => (xs.length : R) * y - ys.sum)) (by simp [h])
  have h1 := (centred_sums xs ys h).1
  have h2 := (centred_sums xs ys h).2
  have h3 := (centred_sums ys xs h.symm).2
  rw [← h] at h3
  rw [h1, h2, h3] at hcs
  have hn2 : (0 : R) < (xs.length : R) * (xs.length : R) := mul_pos hn hn
  have e1 : ((xs.length : R) * ((xs.length : R) * (List.zipWith (fun x y => x * y) xs ys).sum
      - xs.sum * ys.sum)) ^ 2
      = (xs.length : R) * (xs.length : R)
        * ((xs.length : R) * (List.zipWith (fun x y => x * y) xs ys).sum - xs.sum * ys.sum) ^ 2 := by
    ring
  have e2 : (xs.length : R) * ((xs.length : R) * (xs.map (fun x => x * x)).sum - xs.sum * xs.sum)
      * ((xs.length : R) * ((xs.length : R) * (ys.map (fun y => y * y)).sum - ys.sum * ys.sum))
      = (xs.length : R) * (xs.length : R)
        * (((xs.length : R) * (xs.map (fun x => x * x)).sum - xs.sum * xs.sum)
          * ((xs.length : R) * (ys.map (fun y => y * y)).sum - ys.sum * ys.sum)) := by
    ring
  rw [e1, e2] at hcs
  exact le_of_mul_le_mul_left hcs hn2

/-- C33. Over the reals, for two series of equal length `n >= 1` whose denominator is
not zero, `pearsons` returns a value in the closed interval from -1 to 1. -/
theorem pearsons_range (data : UTChemParser ℝ) (key1 key2 : String) (xs ys : List ℝ)
    (h1 : data.getAllValues key1 = .ok xs) (h2 : data.getAllValues key2 = .ok ys)
    (hx : xs ≠ []) (hlen : xs.length = ys.length)
    (hden : Real.sqrt (((xs.length : ℝ) * (xs.map (fun x => x * x)).sum - xs.sum * xs.sum)
        * ((xs.length : ℝ) * (ys.map (fun y => y * y)).sum - ys.sum * ys.sum)) ≠ 0) :
    ∃ r : ℝ, AnalyzeData.pearsons Real.sqrt data key1 key2 = .ok r ∧ -1 ≤ r ∧ r ≤ 1 := by
  have hp := pearsons_equal_length Real.sqrt data key1 key2 xs ys h1 h2 hx hlen
  have hm : min xs.length ys.length = xs.length := by omega
  have hty : ys.take xs.length = ys := by
    rw [hlen]
    exact List.take_length ys
  have hform : pearsonsFormula Real.sqrt xs ys
      = ((xs.length : ℝ) * (List.zipWith (fun x y => x * y) xs ys).sum - xs.sum * ys.sum)
        / Real.sqrt (((xs.length : ℝ) * (xs.map (fun x => x * x)).sum - xs.sum * xs.sum)
          * ((xs.length : ℝ) * (ys.map (fun y => y * y)).sum - ys.sum * ys.sum)) := by
    unfold pearsonsFormula
    simp only [hm, List.take_length, hty]
  refine ⟨_, hp, ?_⟩
  rw [hform]
  have hsq := pearsons_numerator_sq xs ys hlen hx
  have habs := Real.abs_le_sqrt hsq
  have hpos : 0 < Real.sqrt (((xs.length : ℝ) * (xs.map (fun x => x * x)).sum - xs.sum * xs.sum)
      * ((xs.length : ℝ) * (ys.map (fun y => y * y)).sum - ys.sum * ys.sum)) :=
    lt_of_le_of_ne (Real.sqrt_nonneg _) (Ne.symm hden)
  have hb := abs_le.mp habs
  constructor
  · rw [le_div_iff₀ hpos]
    linarith [hb.1]
  · rw [div_le_iff₀ hpos]
    linarith [hb.2]

/-- The range of C33 for the series 1, 2, 3 and 1, 3, 2, whose denominator is the
root of 36. -/
theorem pearsons_range_witness :
    ∃ r : ℝ, AnalyzeData.pearsons Real.sqrt
        { values := [("A", [[1, 2, 3]]), ("B", [[1, 3, 2]])] } "A" "B" = .ok r ∧
      -1 ≤ r ∧ r ≤ 1 := by
  refine pearsons_range { values := [("A", [[1, 2, 3]]), ("B", [[1, 3, 2]])] } "A" "B"
    [1, 2, 3] [1, 3, 2] rfl rfl (by simp) rfl ?_
  have h36 : (((([1, 2, 3] : List ℝ).length : ℝ)
      * (([1, 2, 3] : List ℝ).map (fun x => x * x)).sum
        - ([1, 2, 3] : List ℝ).sum * ([1, 2, 3] : List ℝ).sum)
      * ((([1, 2, 3] : List ℝ).length : ℝ) * (([1, 3, 2] : List ℝ).map (fun y => y * y)).sum
        - ([1, 3, 2] : List ℝ).sum * ([1, 3, 2] : List ℝ).sum)) = 6 ^ 2 := by
    norm_num
  rw [h36, Real.sqrt_sq (by norm_num)]
  norm_num

/-! ## The sizes of the assignments: C34 -/

/-- The absolute value of the assignment of a rank from 2 on is the inverse of a
positive number: `rank - 1`, or `rank - 2` for an odd rank of the SYMMETRIC ladder. -/
theorem ladder_abs {R : Type} [LinearOrderedField R] (sym : Symmetry) (rank : Nat)
    (h : 2 ≤ rank) :
    |ladder (R := R) sym rank|
      = 1 / (((if sym = Configuration.POSITIVE ∨ sym = Configuration.NEGATIVE ∨ rank % 2 = 0
          then rank - 1 else rank - 2 : Nat)) : R) ∧
    1 ≤ (if sym = Configuration.POSITIVE ∨ sym = Configuration.NEGATIVE ∨ rank % 2 = 0
          then rank - 1 else rank - 2) := by
  have h1 : rank ≠ 1 := by omega
  have hc1 : ((((rank : Int) - 1 : Int)) : R) = ((rank - 1 : Nat) : R) := by
    have : ((rank : Int) - 1 : Int) = ((rank - 1 : Nat) : Int) := by omega
    rw [this, Int.cast_natCast]
  have hpos1 : (0 : R) < ((rank - 1 : Nat) : R) := Nat.cast_pos.mpr (by omega)
  unfold ladder
  rw [if_neg h1]
  by_cases hp : sym = Configuration.POSITIVE
  · rw [if_pos hp, if_pos (Or.inl hp), hc1, abs_of_pos (div_pos one_pos hpos1)]
    exact ⟨rfl, by omega⟩
  · rw [if_neg hp]
    by_cases hq : sym = Configuration.NEGATIVE
    · rw [if_pos hq, if_pos (Or.inr (Or.inl hq)), hc1, neg_div, abs_neg,
        abs_of_pos (div_pos one_pos hpos1)]
      exact ⟨rfl, by omega⟩
    · rw [if_neg hq]
      by_cases he : rank % 2 = 0
      · rw [if_pos he, if_pos (Or.inr (Or.inr he)), hc1, abs_of_pos (div_pos one_pos hpos1)]
        exact ⟨rfl, by omega⟩
      · have hn : ¬ (sym = Configuration.POSITIVE ∨ sym = Configuration.NEGATIVE
            ∨ rank % 2 = 0) := by
          rintro (h | h | h)
          · exact hp h
          · exact hq h
          · exact he h
        have hc2 : (((((rank - 1 : Nat) : Int) - 1 : Int)) : R) = ((rank - 2 : Nat) : R) := by
          have : (((rank - 1 : Nat) : Int) - 1 : Int) = ((rank - 2 : Nat) : Int) := by omega
          rw [this, Int.cast_natCast]
        have hpos2 : (0 : R) < ((rank - 2 : Nat) : R) := Nat.cast_pos.mpr (by omega)
        rw [if_neg he, if_neg hn, hc2, neg_one_mul, abs_neg,
          abs_of_pos (div_pos one_pos hpos2)]
        exact ⟨rfl, by omega⟩

/-- C34. In every symmetry mode and for every number of processes, rank 1 is the only
rank assigned 0: every rank from 2 on is assigned a value that is not 0 and whose
absolute value is at most 1, and the absolute values do not increase with the rank. -/
theorem assignment_magnitudes {R : Type} [LinearOrderedField R] (size : Nat)
    (sym : Symmetry) (i : Nat) (h2 : 2 ≤ i) (hi : i < size) :
    (delegateWork (R := R) size sym).assignment 1 = some 0 ∧
    (∃ a : R, (delegateWork (R := R) size sym).assignment i = some a ∧ a ≠ 0 ∧ |a| ≤ 1) ∧
    (i + 1 < size → ∃ a b : R, (delegateWork (R := R) size sym).assignment i = some a ∧
      (delegateWork (R := R) size sym).assignment (i + 1) = some b ∧ |b| ≤ |a|) ∧
    (∀ rank, (delegateWork (R := R) size sym).assignment rank = some 0 → rank = 1) := by
  have hnz : ∀ k, 2 ≤ k → ladder (R := R) sym k ≠ 0 ∧ |ladder (R := R) sym k| ≤ 1 := by
    intro k hk
    obtain ⟨habs, hd⟩ := ladder_abs (R := R) sym k hk
    have hdpos : (0 : R) < ((if sym = Configuration.POSITIVE ∨ sym = Configuration.NEGATIVE
        ∨ k % 2 = 0 then k - 1 else k - 2 : Nat) : R) := Nat.cast_pos.mpr (by omega)
    have h1le : (1 : R) ≤ ((if sym = Configuration.POSITIVE ∨ sym = Configuration.NEGATIVE
        ∨ k % 2 = 0 then k - 1 else k - 2 : Nat) : R) := by
      exact_mod_cast hd
    constructor
    · intro h0
      rw [h0, abs_zero] at habs
      have := div_pos (one_pos (α := R)) hdpos
      rw [← habs] at this
      exact lt_irrefl _ this
    · rw [habs, div_le_one hdpos]
      exact h1le
  refine ⟨?_, ?_, ?_, ?_⟩
  · rw [assignment_eq, if_pos ⟨le_refl 1, by omega⟩]
    simp [ladder]
  · refine ⟨ladder sym i, ?_, (hnz i h2).1, (hnz i h2).2⟩
    rw [assignment_eq, if_pos ⟨by omega, hi⟩]
  · intro hi1
    refine ⟨ladder sym i, ladder sym (i + 1), ?_, ?_, ?_⟩
    · rw [assignment_eq, if_pos ⟨by omega, hi⟩]
    · rw [assignment_eq, if_pos ⟨by omega, hi1⟩]
    · obtain ⟨ha, hda⟩ := ladder_abs (R := R) sym i h2
      obtain ⟨hb, hdb⟩ := ladder_abs (R := R) sym (i + 1) (by omega)
      rw [ha, hb]
      apply one_div_le_one_div_of_le
      · exact Nat.cast_pos.mpr (by omega)
      · apply Nat.cast_le.mpr
        split_ifs <;> omega
  · intro rank hr
    rw [assignment_eq] at hr
    by_cases hrk : 1 ≤ rank ∧ rank < size
    · rw [if_pos hrk] at hr
      by_contra hne
      have hk : 2 ≤ rank := by omega
      exact (hnz rank hk).1 (Option.some.inj hr)
    · rw [if_neg hrk] at hr
      exact Option.noConfusion hr

/-- The sizes of C34 for rank 3 of five processes with the SYMMETRIC ladder. -/
theorem assignment_magnitudes_witness :
    (delegateWork (R := ℚ) 5 Configuration.SYMMETRIC).assignment 1 = some 0 ∧
    (∃ a : ℚ, (delegateWork (R := ℚ) 5 Configuration.SYMMETRIC).assignment 3 = some a ∧
      a ≠ 0 ∧ |a| ≤ 1) ∧
    (3 + 1 < 5 → ∃ a b : ℚ,
      (delegateWork (R := ℚ) 5 Configuration.SYMMETRIC).assignment 3 = some a ∧
      (delegateWork (R := ℚ) 5 Configuration.SYMMETRIC).assignment (3 + 1) = some b ∧
      |b| ≤ |a|) ∧
    (∀ rank, (delegateWork (R := ℚ) 5 Configuration.SYMMETRIC).assignment rank = some 0 →
      rank = 1) :=
  assignment_magnitudes 5 Configuration.SYMMETRIC 3 (by decide) (by decide)

/-! ## What the loop over ranks stores -/

/-- The parameter loop stores the parameters it receives, one after the other. -/
theorem collectParameters_store {R : Type} (i count : Nat) (st st' : RxState R)
    (c c' : Collected R) (h : collectParameters i count st c = some (st', c')) :
    ∃ rs : List (Received R), c' = rs.foldl (fun c r => storeParameter i r c) c := by
  induction count generalizing st c with
  | zero =>
    simp only [collectParameters, Option.some.injEq, Prod.mk.injEq] at h
    exact ⟨[], h.2.symm⟩
  | succ count ih =>
    unfold collectParameters at h
    cases hp : recvParameter st with
    | none => rw [hp] at h; exact Option.noConfusion h
    | some x =>
      obtain ⟨r, st1⟩ := x
      rw [hp] at h
      simp only [] at h
      obtain ⟨rs, hrs⟩ := ih st1 _ h
      exact ⟨r :: rs, hrs⟩

/-- Storing results pushes the grid of each result that has one, with the id
`i - 1`, and its name. -/
theorem foldl_store_grids {R : Type} (i : Nat) (rs : List (Received R)) (c : Collected R) :
    (rs.foldl (fun c r => storeParameter i r c) c).fullGrids
      = c.fullGrids ++ rs.filterMap (fun r =>
          r.cellValues.map (fun cellValues =>
            { stats := r.stats, id := i - 1, values := cellValues })) ∧
    (rs.foldl (fun c r => storeParameter i r c) c).gridNames
      = c.gridNames ++ rs.filterMap (fun r => r.cellValues.map (fun _ => r.name)) := by
  induction rs generalizing c with
  | nil => simp
  | cons r rs ih =>
    rw [List.foldl_cons, (ih _).1, (ih _).2]
    cases h : r.cellValues with
    | none => simp [storeParameter, h, List.filterMap_cons]
    | some cv => simp [storeParameter, h, List.filterMap_cons]

/-- One completed iteration of the loop over ranks adds the entry of rank `i`, with
the id `i - 1` and `work[i - 1] * 100`, and stores the grids of its rows under that
id. -/
theorem collectStep_store {R : Type} [Field R] (work : List (Option R))
    (chan : Nat → List (Msg R)) (ms ms' : MasterState R) (i : Nat)
    (h : collectStep work chan ms i = some ms') :
    ∃ e : RankEntry R, ms'.report = ms.report ++ [e] ∧ e.id = i - 1 ∧
      e.percent = (readWork work (i - 1)).map (fun w => w * 100) ∧
      ms'.fullGrids = ms.fullGrids ++ e.grids ∧
      ms'.gridNames = ms.gridNames ++ e.gridNames := by
  unfold collectStep at h
  cases hu : recvUnsigned { queue := chan i, log := ([] : List (Datatype × Nat)) } with
  | none => rw [hu] at h; exact Option.noConfusion h
  | some x =>
    obtain ⟨count, status, st⟩ := x
    rw [hu] at h
    simp only [] at h
    have hfat := recvUnsigned_not_fatal _ _ _ _ hu
    unfold collectAfterCount at h
    rw [if_neg hfat] at h
    cases hp : collectParameters i count st
        { rows := [], fullGrids := ms.fullGrids, gridNames := ms.gridNames } with
    | none => rw [hp] at h; exact Option.noConfusion h
    | some y =>
      obtain ⟨st2, c2⟩ := y
      rw [hp] at h
      simp only [Option.some.injEq] at h
      obtain ⟨rs, hrs⟩ := collectParameters_store _ _ _ _ _ _ hp
      have hrows : c2.rows = rs := by
        rw [hrs, foldl_store_rows]
        rfl
      have hg := foldl_store_grids i rs
        ({ rows := [], fullGrids := ms.fullGrids, gridNames := ms.gridNames } : Collected R)
      rw [← hrs] at hg
      refine ⟨{ id := i - 1, percent := (readWork work (i - 1)).map (fun w => w * 100),
                rows := c2.rows, closed := true }, ?_, rfl, rfl, ?_, ?_⟩
      · rw [← h]
      · rw [← h]
        show c2.fullGrids = _
        rw [hg.1, hrows]
        rfl
      · rw [← h]
        show c2.gridNames = _
        rw [hg.2, hrows]
        rfl

/-- Loop invariant of the loop over ranks after the iterations `i = 1 .. n`: the
entries of the report carry the ids `0 .. n - 1`, each with its `work[id] * 100`, and
`fullGrids` and `gridNames` hold the grids of the rows of all entries, in order, each
under the id of its entry. -/
theorem collectLoop_store {R : Type} [Field R] (work : List (Option R))
    (chan : Nat → List (Msg R)) (n : Nat) (ms : MasterState R)
    (h : (List.range' 1 n).foldlM (collectStep work chan)
      { report := [], fullGrids := [], gridNames := [], recvLog := [] } = some ms) :
    ms.report.map (fun e => (e.id, e.percent))
      = (List.range n).map (fun k => (k, (readWork work k).map (fun w => w * 100))) ∧
    ms.fullGrids = ms.report.flatMap RankEntry.grids ∧
    ms.gridNames = ms.report.flatMap RankEntry.gridNames := by
  induction n generalizing ms with
  | zero =>
    simp only [List.range'_zero, List.foldlM_nil, Option.pure_def, Option.some.injEq] at h
    rw [← h]
    exact ⟨rfl, rfl, rfl⟩
  | succ n ih =>
    rw [List.range'_concat, List.foldlM_append] at h
    cases h0 : (List.range' 1 n).foldlM (collectStep work chan)
        { report := [], fullGrids := [], gridNames := [], recvLog := [] } with
    | none =>
      rw [h0] at h
      exact Option.noConfusion h
    | some ms0 =>
      rw [h0] at h
      simp only [Option.bind_eq_bind, Option.some_bind, List.foldlM_cons, List.foldlM_nil,
        one_mul, Option.pure_def, Option.bind_some] at h
      obtain ⟨hrep, hgrids, hnames⟩ := ih ms0 h0
      obtain ⟨e, hreport, hid, hperc, hg, hn⟩ := collectStep_store work chan ms0 ms (1 + n) h
      have hidn : e.id = n := by omega
      refine ⟨?_, ?_, ?_⟩
      · rw [hreport, List.map_append, hrep, List.range_succ, List.map_append]
        simp only [List.map_cons, List.map_nil]
        rw [hperc, hidn]
        simp
      · rw [hg, hgrids, hreport, List.flatMap_append]
        simp
      · rw [hn, hnames, hreport, List.flatMap_append]
        simp

/-- The grids of an entry carry the id of the entry. -/
theorem grids_id {R : Type} (e : RankEntry R) (g : GridEntry R) (hg : g ∈ e.grids) :
    g.id = e.id := by
  unfold RankEntry.grids at hg
  rw [List.mem_filterMap] at hg
  obtain ⟨r, _, hr⟩ := hg
  cases hcv : r.cellValues with
  | none =>
    rw [hcv] at hr
    exact Option.noConfusion hr
  | some cv =>
    rw [hcv] at hr
    simp only [Option.map_some', Option.some.injEq] at hr
    rw [← hr]

/-- After a completed collection the stored grids carry ids below `size - 1`, in
ascending order. -/
theorem collected_grid_ids {R : Type} [Field R] (size : Nat) (work : List (Option R))
    (chan : Nat → List (Msg R)) (ms : MasterState R)
    (h : collectResults size work chan = some ms) :
    (∀ g ∈ ms.fullGrids, g.id < size - 1) ∧
    List.Pairwise (fun a b => a.id ≤ b.id) ms.fullGrids := by
  obtain ⟨hrep, hgrids, _⟩ := collectLoop_store work chan (size - 1) ms h
  have hids : ms.report.map (fun e => e.id) = List.range (size - 1) := by
    have := congrArg (List.map Prod.fst) hrep
    rw [List.map_map, List.map_map] at this
    rw [show (fun e : RankEntry R => e.id) = Prod.fst ∘ (fun e => (e.id, e.percent)) from rfl,
      this]
    exact List.map_id _
  have hmem : ∀ e ∈ ms.report, e.id < size - 1 := by
    intro e he
    have : e.id ∈ ms.report.map (fun e => e.id) := List.mem_map.mpr ⟨e, he, rfl⟩
    rw [hids] at this
    exact List.mem_range.mp this
  have hpw : List.Pairwise (fun a b => a.id < b.id) ms.report := by
    have := List.pairwise_lt_range (size - 1)
    rw [← hids, List.pairwise_map] at this
    exact this
  refine ⟨?_, ?_⟩
  · intro g hg
    rw [hgrids, List.mem_flatMap] at hg
    obtain ⟨e, he, hge⟩ := hg
    rw [grids_id e g hge]
    exact hmem e he
  · rw [hgrids, List.pairwise_flatMap]
    refine ⟨?_, ?_⟩
    · intro e _
      apply List.pairwise_of_forall_mem_list
      intro a ha b hb
      rw [grids_id e a ha, grids_id e b hb]
    · apply List.Pairwise.imp _ hpw
      intro e1 e2 hlt a ha b hb
      rw [grids_id e1 a ha, grids_id e2 b hb]
      exact le_of_lt hlt

/-! ## The order of the similarity rows -/

/-- The pairs the pass pairs are listed in the order of the two loops. -/
theorem similarityPairs_ordered {R : Type} (G : List (GridEntry R)) (N : List String) :
    List.Pairwise loopOrder (similarityPairs G N) := by
  unfold similarityPairs
  rw [List.pairwise_flatMap]
  refine ⟨?_, ?_⟩
  · intro i _
    apply List.Pairwise.filterMap _ _ (List.pairwise_lt_range G.length)
    intro a a' haa b hb b' hb'
    by_cases hp : pairsWith G N i a = true
    · by_cases hp' : pairsWith G N i a' = true
      · rw [if_pos hp] at hb
        rw [if_pos hp'] at hb'
        simp only [Option.mem_def, Option.some.injEq] at hb hb'
        rw [← hb, ← hb']
        exact Or.inr ⟨rfl, haa⟩
      · rw [if_neg hp'] at hb'
        exact Option.noConfusion hb'
    · rw [if_neg hp] at hb
      exact Option.noConfusion hb
  · apply List.Pairwise.imp _ (List.pairwise_lt_range G.length)
    intro i1 i2 hlt x hx y hy
    rw [List.mem_filterMap] at hx hy
    obtain ⟨a, _, ha⟩ := hx
    obtain ⟨b, _, hb⟩ := hy
    by_cases hp : pairsWith G N i1 a = true
    · by_cases hp' : pairsWith G N i2 b = true
      · rw [if_pos hp] at ha
        rw [if_pos hp'] at hb
        simp only [Option.some.injEq] at ha hb
        rw [← ha, ← hb]
        exact Or.inl hlt
      · rw [if_neg hp'] at hb
        exact Option.noConfusion hb
    · rw [if_neg hp] at ha
      exact Option.noConfusion ha

/-- The rows written by a run of attempts sit, in order, at the first of the pairs
attempted. -/
theorem absorb_positions {R : Type} [Field R] (sqrt : R → R) (G : List (GridEntry R))
    (N : List String) (ps : List (Nat × Nat))
    (o : List (Nat × Nat × SimilarityRecord R) × Option Failure) (ho : o.2 = none) :
    ∃ rs rest, ((ps.map (attemptAt sqrt G N)).foldl absorbStep o).1 = o.1 ++ rs ∧
      ps = rs.map (fun t => (t.1, t.2.1)) ++ rest := by
  induction ps generalizing o with
  | nil => exact ⟨[], [], by simp, rfl⟩
  | cons p ps ih =>
    rw [List.map_cons, List.foldl_cons]
    cases ha : attemptAt sqrt G N p with
    | error e =>
      have hstep : absorbStep o (Except.error e) = (o.1, some e) := by
        simp [absorbStep, ho]
      rw [hstep, absorb_failed (ps.map (attemptAt sqrt G N)) (o.1, some e) rfl]
      exact ⟨[], p :: ps, by simp, rfl⟩
    | ok r =>
      have hstep : absorbStep o (Except.ok r) = (o.1 ++ [r], o.2) := by
        simp [absorbStep, ho]
      obtain ⟨e1, e2, norm, _, _, _, hr⟩ := attemptAt_ok sqrt G N p r ha
      obtain ⟨rs, rest, h1, h2⟩ := ih (o.1 ++ [r], o.2) ho
      rw [hstep, h1]
      refine ⟨r :: rs, rest, by simp, ?_⟩
      rw [List.map_cons, List.cons_append, ← h2, hr]

/-- The rows of the similarity pass are written in the order of the two loops. -/
theorem similarityPass_ordered {R : Type} [Field R] (sqrt : R → R) (G : List (GridEntry R))
    (N : List String) :
    List.Pairwise (fun r1 r2 => loopOrder (r1.1, r1.2.1) (r2.1, r2.2.1))
      (similarityPass sqrt G N).rows := by
  have hout := similarityPass_out sqrt G N
  obtain ⟨rs, rest, h1, h2⟩ := absorb_positions sqrt G N (similarityPairs G N) ([], none) rfl
  have hrows : (similarityPass sqrt G N).rows = rs := by
    have : (similarityPass sqrt G N).rows
        = (((similarityPairs G N).map (attemptAt sqrt G N)).foldl absorbStep ([], none)).1 := by
      rw [← hout]
      rfl
    rw [this, h1]
    rfl
  have hord := similarityPairs_ordered G N
  rw [h2] at hord
  have hsub := (List.pairwise_append.mp hord).1
  rw [List.pairwise_map] at hsub
  rw [hrows]
  exact hsub

/-! ## The ids: C35 and C36 -/

/-- The slot `work[i - 1]` holds the value sent to rank `i`. -/
theorem work_slot {R : Type} [Field R] (size : Nat) (sym : Symmetry) (i : Nat)
    (h1 : 1 ≤ i) (hi : i < size) :
    readWork (delegateWork (R := R) size sym).work (i - 1) = some (ladder sym i) ∧
    (delegateWork (R := R) size sym).assignment i = some (ladder sym i) := by
  refine ⟨?_, ?_⟩
  · have h := (delegate_fold_inv (R := R) size sym (size - 1) (by omega) _ rfl).2.1 (i - 1)
      (Or.inl (by omega))
    rw [show i - 1 + 1 = i by omega] at h
    exact h
  · rw [assignment_eq, if_pos ⟨h1, hi⟩]

/-- The run of three processes in which both workers report PERM with its grid. -/
theorem grid_run :
    collectResults 3 sampleWork gridChannels
      = some
        { report :=
            [{ id := 0, percent := some (0 * 100),
               rows := [{ name := "PERM", stats := 0x23, sum := some 12, mean := some 4,
                          variance := none, stddev := none, pearson := none,
                          cellValues := some [2, 4, 6] }],
               closed := true },
             { id := 1, percent := some (1 * 100),
               rows := [{ name := "PERM", stats := 0x23, sum := some 12, mean := some 4,
                          variance := none, stddev := none, pearson := none,
                          cellValues := some [2, 4, 6] }],
               closed := true }],
          fullGrids := [{ stats := 0x23, id := 0, values := [2, 4, 6] },
                        { stats := 0x23, id := 1, values := [2, 4, 6] }],
          gridNames := ["PERM", "PERM"],
          recvLog :=
            [(1, Datatype.MPI_UNSIGNED, 1), (1, Datatype.MPI_UNSIGNED, 1),
             (1, Datatype.MPI_BYTE, 5), (1, Datatype.MPI_UNSIGNED, 1),
             (1, Datatype.MPI_DOUBLE, 1), (1, Datatype.MPI_DOUBLE, 1),
             (1, Datatype.MPI_UNSIGNED, 1), (1, Datatype.MPI_DOUBLE, 3),
             (2, Datatype.MPI_UNSIGNED, 1), (2, Datatype.MPI_UNSIGNED, 1),
             (2, Datatype.MPI_BYTE, 5), (2, Datatype.MPI_UNSIGNED, 1),
             (2, Datatype.MPI_DOUBLE, 1), (2, Datatype.MPI_DOUBLE, 1),
             (2, Datatype.MPI_UNSIGNED, 1), (2, Datatype.MPI_DOUBLE, 3)] } :=
  rfl

/-- C35. Id consistency. The value sent to rank `i` is `work[i - 1]`; the entry of
rank `i` in the report carries the id `i - 1` and `work[i - 1] * 100`; every grid among
the rows of a rank is stored under the id of that entry; and the head of the similarity
report lists the same ids with the same `work[id] * 100`, among them both ids of every
similarity row. -/
theorem id_consistency {R : Type} [Field R] (sqrt : R → R) (size : Nat) (sym : Symmetry)
    (chan : Nat → List (Msg R)) (ms : MasterState R)
    (h : collectResults size (delegateWork (R := R) size sym).work chan = some ms) :
    (∀ i, 1 ≤ i → i < size → ∃ w : R,
      (delegateWork (R := R) size sym).assignment i = some w ∧
      readWork (delegateWork (R := R) size sym).work (i - 1) = some w) ∧
    ms.report.map (fun e => (e.id, e.percent))
      = (List.range (size - 1)).map (fun k =>
          (k, (readWork (delegateWork (R := R) size sym).work k).map (fun w => w * 100))) ∧
    ms.fullGrids = ms.report.flatMap RankEntry.grids ∧
    similarityHeader size (delegateWork (R := R) size sym).work
      = ms.report.map (fun e => (e.id, e.percent)) ∧
    ∀ row ∈ (similarityPass sqrt ms.fullGrids ms.gridNames).rows,
      (row.2.2.id1, (readWork (delegateWork (R := R) size sym).work row.2.2.id1).map
          (fun w => w * 100)) ∈ similarityHeader size (delegateWork (R := R) size sym).work ∧
      (row.2.2.id2, (readWork (delegateWork (R := R) size sym).work row.2.2.id2).map
          (fun w => w * 100)) ∈ similarityHeader size (delegateWork (R := R) size sym).work := by
  obtain ⟨hrep, hgrids, _⟩ := collectLoop_store _ chan (size - 1) ms h
  obtain ⟨hlt, _⟩ := collected_grid_ids size _ chan ms h
  have hhead : ∀ k, k < size - 1 →
      (k, (readWork (delegateWork (R := R) size sym).work k).map (fun w => w * 100))
        ∈ similarityHeader size (delegateWork (R := R) size sym).work := by
    intro k hk
    unfold similarityHeader
    exact List.mem_map.mpr ⟨k, List.mem_range.mpr hk, rfl⟩
  refine ⟨?_, hrep, hgrids, ?_, ?_⟩
  · intro i h1 hi
    obtain ⟨hw, ha⟩ := work_slot (R := R) size sym i h1 hi
    exact ⟨_, ha, hw⟩
  · rw [hrep]
    rfl
  · intro row hrow
    obtain ⟨_, e1, e2, norm, hg1, hg2, _, hr⟩ :=
      similarityPass_sound sqrt ms.fullGrids ms.gridNames row hrow
    have hm1 : e1 ∈ ms.fullGrids := List.get?_mem hg1
    have hm2 : e2 ∈ ms.fullGrids := List.get?_mem hg2
    rw [hr]
    exact ⟨hhead _ (hlt e1 hm1), hhead _ (hlt e2 hm2)⟩

/-- The ids of C35 in the run of three processes in which both workers report PERM
with its grid: the grids are stored under the ids 0 and 1. -/
theorem id_consistency_witness :
    ∃ ms : MasterState ℚ,
      collectResults 3 (delegateWork (R := ℚ) 3 Configuration.SYMMETRIC).work gridChannels
        = some ms ∧
      ms.fullGrids.map (fun g => g.id) = [0, 1] ∧
      ms.fullGrids = ms.report.flatMap RankEntry.grids ∧
      similarityHeader 3 (delegateWork (R := ℚ) 3 Configuration.SYMMETRIC).work
        = ms.report.map (fun e => (e.id, e.percent)) := by
  refine ⟨_, sampleWork_eq ▸ grid_run, ?_, ?_, ?_⟩
  · rfl
  · exact (id_consistency Rat.sqrt 3 Configuration.SYMMETRIC gridChannels _
      (sampleWork_eq ▸ grid_run)).2.2.1
  · exact (id_consistency Rat.sqrt 3 Configuration.SYMMETRIC gridChannels _
      (sampleWork_eq ▸ grid_run)).2.2.2.1

/-- C36. In every row of the similarity pass over the grids of a completed collection
the first id is at most the second: the grids are stored by ascending id and a row
pairs the grid at the counter `i` with a grid at a later counter `j`. The rows are
written by increasing `i` and, for one `i`, by increasing `j`. -/
theorem similarity_row_order {R : Type} [Field R] (sqrt : R → R) (size : Nat)
    (work : List (Option R)) (chan : Nat → List (Msg R)) (ms : MasterState R)
    (h : collectResults size work chan = some ms) :
    List.Pairwise (fun a b => a.id ≤ b.id) ms.fullGrids ∧
    (∀ row ∈ (similarityPass sqrt ms.fullGrids ms.gridNames).rows,
      row.1 < row.2.1 ∧ row.2.2.id1 ≤ row.2.2.id2) ∧
    List.Pairwise (fun r1 r2 => loopOrder (r1.1, r1.2.1) (r2.1, r2.2.1))
      (similarityPass sqrt ms.fullGrids ms.gridNames).rows := by
  obtain ⟨_, hpw⟩ := collected_grid_ids size work chan ms h
  refine ⟨hpw, ?_, similarityPass_ordered sqrt ms.fullGrids ms.gridNames⟩
  intro row hrow
  obtain ⟨hp, e1, e2, norm, hg1, hg2, _, hr⟩ :=
    similarityPass_sound sqrt ms.fullGrids ms.gridNames row hrow
  have hij : row.1 < row.2.1 := ((pairsWith_iff _ _ _ _).mp hp).1
  refine ⟨hij, ?_⟩
  rw [hr]
  rw [List.get?_eq_some] at hg1 hg2
  obtain ⟨hl1, hg1⟩ := hg1
  obtain ⟨hl2, hg2⟩ := hg2
  have := List.pairwise_iff_get.mp hpw ⟨row.1, hl1⟩ ⟨row.2.1, hl2⟩ hij
  rw [← hg1, ← hg2]
  exact this

/-- The order of C36 in the run of three processes in which both workers report PERM
with its grid: the one row pairs the ids 0 and 1. -/
theorem similarity_row_order_witness :
    ∃ ms : MasterState ℚ, collectResults 3 sampleWork gridChannels = some ms ∧
      (similarityPass Rat.sqrt ms.fullGrids ms.gridNames).rows.map
          (fun row => (row.1, row.2.1, row.2.2.id1, row.2.2.id2)) = [(0, 1, 0, 1)] ∧
      (∀ row ∈ (similarityPass Rat.sqrt ms.fullGrids ms.gridNames).rows,
        row.1 < row.2.1 ∧ row.2.2.id1 ≤ row.2.2.id2) := by
  refine ⟨_, grid_run, rfl, ?_⟩
  exact (similarity_row_order Rat.sqrt 3 sampleWork gridChannels _ grid_run).2.1

/-! ## computeNorm on series of different lengths: C16 -/

/-- Without the assertion, the loop over a series `x` no longer than `y` is the loop
of `computeNorm` over the zipped pairs: the elements of `y` from position `x.size()`
on are not read. -/
theorem normLoopUnchecked_le {R : Type} [Field R] (x y : List R) (ret : R)
    (h : x.length ≤ y.length) :
    AnalyzeData.normLoopUnchecked x y ret
      = some ((List.zip x y).foldl (fun ret xy =>
          let tmp := xy.1 - xy.2
          let tmp := tmp * tmp
          ret + tmp) ret) := by
  induction x generalizing y ret with
  | nil => rfl
  | cons a x ih =>
    cases y with
    | nil => simp at h
    | cons b y =>
      have h' : x.length ≤ y.length := by simpa using h
      rw [AnalyzeData.normLoopUnchecked, ih y _ h']
      rfl

/-- Without the assertion, the loop over a series `x` longer than `y` reads `y` past
its end. -/
theorem normLoopUnchecked_gt {R : Type} [Field R] (x y : List R) (ret : R)
    (h : y.length < x.length) : AnalyzeData.normLoopUnchecked x y ret = none := by
  induction x generalizing y ret with
  | nil => simp at h
  | cons a x ih =>
    cases y with
    | nil => rfl
    | cons b y =>
      have h' : y.length < x.length := by simpa using h
      rw [AnalyzeData.normLoopUnchecked]
      exact ih y _ h'

/-- Zipping with a series cut to the length of the other changes nothing. -/
theorem zip_take_left {α β : Type} (x : List α) (y : List β) :
    List.zip x (y.take x.length) = List.zip x y := by
  induction x generalizing y with
  | nil => simp
  | cons a x ih =>
    cases y with
    | nil => simp
    | cons b y => simp [ih]

/-- C16, as stated, fails: for the series 1 and 1, 5 `computeNorm` reports no
error. With assertions enabled the process stops at the `assert`; with assertions
compiled out the call returns 0, the norm of the series 1 and 1, the longer series
cut to one element; and with the arguments exchanged the loop reads the series 1 past
its end. -/
theorem computeNorm_mismatch_counterexample :
    AnalyzeData.computeNorm Rat.sqrt [1] [1, 5] = .error Failure.assertion ∧
    AnalyzeData.computeNormUnchecked Rat.sqrt [1] [1, 5] = some 0 ∧
    AnalyzeData.computeNorm Rat.sqrt [1] [1] = .ok 0 ∧
    AnalyzeData.computeNormUnchecked Rat.sqrt [1, 5] [1] = none := by
  have h0 : Rat.sqrt 0 = 0 := by
    rw [show (0 : ℚ) = 0 * 0 by norm_num, Rat.sqrt_eq]
    norm_num
  refine ⟨rfl, ?_, ?_, rfl⟩
  · simp only [AnalyzeData.computeNormUnchecked, AnalyzeData.normLoopUnchecked]
    norm_num [h0]
  · rw [computeNorm_ok Rat.sqrt [1] [1] rfl]
    norm_num [Finset.sum_range_succ, h0]

/-- C16. `computeNorm` checks the lengths by an `assert` only. With assertions enabled
a call on series of different lengths stops at the assertion, before any element is
read. With assertions compiled out the loop runs over the positions of `x`: series of
equal length give the same value as with assertions, a longer `y` is cut to the length
of `x` without any error, and a shorter `y` is read past its end. -/
theorem computeNorm_mismatch {R : Type} [Field R] (sqrt : R → R) (x y : List R) :
    (x.length ≠ y.length → AnalyzeData.computeNorm sqrt x y = .error Failure.assertion) ∧
    (x.length = y.length → ∃ v, AnalyzeData.computeNorm sqrt x y = .ok v ∧
      AnalyzeData.computeNormUnchecked sqrt x y = some v) ∧
    (x.length < y.length → ∃ v, AnalyzeData.computeNormUnchecked sqrt x y = some v ∧
      AnalyzeData.computeNorm sqrt x (y.take x.length) = .ok v) ∧
    (y.length < x.length → AnalyzeData.computeNormUnchecked sqrt x y = none) := by
  refine ⟨(computeNorm_error_iff sqrt x y).1, ?_, ?_, ?_⟩
  · intro h
    have hne : ¬ (x.length ≠ y.length) := fun hn => hn h
    refine ⟨sqrt ((List.zip x y).foldl (fun ret xy =>
        let tmp := xy.1 - xy.2
        let tmp := tmp * tmp
        ret + tmp) 0), ?_, ?_⟩
    · simp only [AnalyzeData.computeNorm, hne, if_false]
    · rw [AnalyzeData.computeNormUnchecked, normLoopUnchecked_le x y 0 (le_of_eq h)]
      rfl
  · intro h
    refine ⟨sqrt ((List.zip x y).foldl (fun ret xy =>
        let tmp := xy.1 - xy.2
        let tmp := tmp * tmp
        ret + tmp) 0), ?_, ?_⟩
    · rw [AnalyzeData.computeNormUnchecked, normLoopUnchecked_le x y 0 (le_of_lt h)]
      rfl
    · have hl : x.length = (y.take x.length).length := by
        rw [List.length_take]
        omega
      have hne : ¬ (x.length ≠ (y.take x.length).length) := fun hn => hn hl
      simp only [AnalyzeData.computeNorm, hne, if_false, zip_take_left]
  · intro h
    rw [AnalyzeData.computeNormUnchecked, normLoopUnchecked_gt x y 0 h]
    rfl

/-- The outcomes of C16 on series of the lengths 1 and 2, in both orders. -/
theorem computeNorm_mismatch_witness :
    AnalyzeData.computeNorm Rat.sqrt [1] [1, 5] = .error Failure.assertion ∧
    (∃ v, AnalyzeData.computeNormUnchecked Rat.sqrt [1] [1, 5] = some v ∧
      AnalyzeData.computeNorm Rat.sqrt [1] (([1, 5] : List ℚ).take ([1] : List ℚ).length)
        = .ok v) ∧
    AnalyzeData.computeNormUnchecked Rat.sqrt [1, 5] [1] = none :=
  ⟨(computeNorm_mismatch Rat.sqrt [1] [1, 5]).1 (by decide),
   (computeNorm_mismatch Rat.sqrt [1] [1, 5]).2.2.1 (by decide),
   (computeNorm_mismatch Rat.sqrt [1, 5] [1]).2.2.2 (by decide)⟩

/-! ## The send sequence of a failing worker -/

/-- A send followed by the rest of the run is a send step. -/
theorem sendStep_mpiSend {R : Type} (buf : Payload R) : SendStep (mpiSend buf) :=
  Or.inl ⟨[{ tag := 1, payload := buf }], fun _ => ⟨rfl, rfl⟩⟩

/-- An iteration of the loop over ranks is its first receive followed by the rest of
the iteration. -/
theorem collectStep_eq {R : Type} [Field R] (work : List (Option R))
    (chan : Nat → List (Msg R)) (ms : MasterState R) (i count : Nat) (status : Msg R)
    (st : RxState R)
    (h : recvUnsigned { queue := chan i, log := [] } = some (count, status, st)) :
    collectStep work chan ms i = collectStepAfter work ms i count status st := by
  unfold collectStep collectStepAfter
  rw [h]

end CloudRunner
